import Mathlib

/-!
# Schema comparison and linter of `gql`

A shallow embedding of the change detector of `pkg/compare/compare.go`, with
its grouping and reporting of changes, together with the part of the
`gqlparser` syntax tree it reads, and of the suppression of findings, the
extraction of inline commands and the selection of rules of the linter
(`cmd/linter`) and the rules of `pkg/linter/rules.go`, followed by theorems
about them.

Conventions of the embedding.
* A Go slice is a `List`; a pointer that may be `nil` is an `Option`.
* A loop that only appends to `changes` is the concatenation of what each
  iteration appends (`List.flatMap`); loops with other state are recursive
  functions passing that state.
* `fmt.Sprintf` with `%s` verbs is string concatenation.
* A Go field called `Type` is called `Type_` here.
* The map of `changeInTypes` is a list of entries with distinct keys, and the
  order in which Go ranges over it, which the language leaves open, is a
  parameter `ord : MapOrder` of `changeInTypes` and `FindChangesInSchemas`.
* Where the code compares two pointers to syntax nodes, the nodes carry their
  address (`Argument.addr`) and the addresses are compared.
* A run-time panic of a function is the result `none`; an `error` result is
  `Except.error` with the message.
* The functions of the Go library the linter calls (`strings.TrimSpace`,
  `strings.Split`, `strings.EqualFold`, a match of the one regular expression)
  are functions on the characters of a string; the table of
  `unicode.SimpleFold`, which `strings.EqualFold` consults for characters
  outside ASCII, is a parameter `orbit` of the functions that compare names.
* The tokens of the lexer of the linter, which is not part of these sources,
  are an argument of `extractInlineLintConfiguration`.
* A rule of the linter returns `none` where the code dereferences a nil
  position, indexes an empty name or asks a type without a name for its name.
  The position of the type of a field, `Type.Position`, is the field
  `TypePosition` of `FieldDefinition`.
* The case table of Unicode behind `strings.ToUpper` is a parameter `upper`.
* The map of `GroupChanges` is a function from the criticality level to the
  slice stored under it, if any. `sort.Slice` is a parameter of the report
  functions, a `SliceSort`: it returns a permutation of the slice, in an order
  that is sorted whenever `less` is a transitive ordering on the entries.
* File names are compared as the lists of their characters.
-/

namespace Gql

/-! ## Syntax tree (`github.com/vektah/gqlparser/v2/ast`) -/

/-- Source position `ast.Position`, with `Src.Name` stored as `SrcName`. -/
structure Position where
  SrcName : String
  Line : Nat
  Column : Nat
deriving DecidableEq

/-- The type expression `ast.Type`. The parser builds either a named type
(`NamedType` set, `Elem` nil) or a list type (`Elem` set, `NamedType` empty);
each carries its own `NonNull` flag. -/
inductive AstType where
  | named (NamedType : String) (NonNull : Bool)
  | list (Elem : AstType) (NonNull : Bool)
deriving DecidableEq

/-- Field `NonNull` of `ast.Type`. -/
def AstType.NonNull : AstType → Bool
  | .named _ nn => nn
  | .list _ nn => nn

/-- Field `NamedType` of `ast.Type`; empty for a list type. -/
def AstType.NamedType : AstType → String
  | .named n _ => n
  | .list _ _ => ""

/-- Field `Elem` of `ast.Type`; nil for a named type. -/
def AstType.Elem : AstType → Option AstType
  | .named _ _ => none
  | .list e _ => some e

/-- The method `(*ast.Type).String`: the name, or the element type in
brackets, followed by `!` when the type is non-null. The name of a parsed named
type is never empty; the Go method takes a type with an empty name for a list
type. -/
def typeString : AstType → String
  | .named n nn => n ++ (if nn then "!" else "")
  | .list e nn => "[" ++ typeString e ++ "]" ++ (if nn then "!" else "")

/-- The value `ast.Value` is read only through its printed form, which is
what this type holds. -/
abbrev Value := String

/-- The method `(*ast.Value).String`, which prints a nil value as `<nil>`. -/
def valueString : Option Value → String
  | none => "<nil>"
  | some v => v

/-- An argument of a directive application, `ast.Argument`. The code compares
`*ast.Argument` pointers in one place; `addr` is the address of the node. -/
structure Argument where
  addr : Nat
  Name : String
  Value : Option Value
  Position : Option Position
deriving DecidableEq

/-- A directive application, `ast.Directive`. -/
structure Directive where
  Name : String
  Arguments : List Argument
  Position : Option Position
deriving DecidableEq

/-- An argument declaration, `ast.ArgumentDefinition`. -/
structure ArgumentDefinition where
  Description : String
  Name : String
  DefaultValue : Option Value
  Type_ : AstType
  Directives : List Directive
  Position : Option Position
deriving DecidableEq

/-- A field declaration, `ast.FieldDefinition`. The field `TypePosition` is
`Type.Position`, the position of the type expression of the field, which the
rules of the linter read and the comparison does not. -/
structure FieldDefinition where
  Description : String
  Name : String
  Arguments : List ArgumentDefinition
  DefaultValue : Option Value
  Type_ : AstType
  Directives : List Directive
  Position : Option Position
  TypePosition : Option Gql.Position := none
deriving DecidableEq

/-- An enum value declaration, `ast.EnumValueDefinition`. -/
structure EnumValueDefinition where
  Description : String
  Name : String
  Directives : List Directive
  Position : Option Position
deriving DecidableEq

/-- The kind of a type definition, `ast.DefinitionKind`. -/
inductive DefinitionKind where
  | Scalar | Object | Interface | Union | Enum | InputObject
deriving DecidableEq

/-- The string constant behind each `ast.DefinitionKind`. -/
def DefinitionKind.str : DefinitionKind → String
  | .Scalar => "SCALAR"
  | .Object => "OBJECT"
  | .Interface => "INTERFACE"
  | .Union => "UNION"
  | .Enum => "ENUM"
  | .InputObject => "INPUT_OBJECT"

/-- A type definition or type extension, `ast.Definition`. -/
structure Definition where
  Kind : DefinitionKind
  Description : String
  Name : String
  Directives : List Directive
  Interfaces : List String
  Fields : List FieldDefinition
  Types : List String
  EnumValues : List EnumValueDefinition
  Position : Option Position
deriving DecidableEq

/-- A directive declaration, `ast.DirectiveDefinition`; a location is the
string constant of `ast.DirectiveLocation`. -/
structure DirectiveDefinition where
  Description : String
  Name : String
  Arguments : List ArgumentDefinition
  Locations : List String
  IsRepeatable : Bool
  Position : Option Position
deriving DecidableEq

/-- A root operation, `ast.Operation`. -/
inductive Operation where
  | Query | Mutation | Subscription
deriving DecidableEq

/-- The string constant behind each `ast.Operation`. -/
def Operation.str : Operation → String
  | .Query => "query"
  | .Mutation => "mutation"
  | .Subscription => "subscription"

/-- A root operation binding, `ast.OperationTypeDefinition`. -/
structure OperationTypeDefinition where
  Operation : Operation
  Type_ : String
  Position : Option Position
deriving DecidableEq

/-- A schema definition or schema extension, `ast.SchemaDefinition`. -/
structure SchemaDefinition where
  Description : String
  Directives : List Directive
  OperationTypes : List OperationTypeDefinition
  Position : Option Position
deriving DecidableEq

/-- A parsed schema, `ast.SchemaDocument`. -/
structure SchemaDocument where
  Schema : List SchemaDefinition
  SchemaExtension : List SchemaDefinition
  Directives : List DirectiveDefinition
  Definitions : List Definition
  Extensions : List Definition
deriving DecidableEq

/-- The method `DefinitionList.ForName`: the first entry of that name. -/
def DefinitionList.ForName (l : List Definition) (name : String) : Option Definition :=
  l.find? (fun it => it.Name == name)

/-- The method `FieldList.ForName`. -/
def FieldList.ForName (l : List FieldDefinition) (name : String) : Option FieldDefinition :=
  l.find? (fun it => it.Name == name)

/-- The method `EnumValueList.ForName`. -/
def EnumValueList.ForName (l : List EnumValueDefinition) (name : String) :
    Option EnumValueDefinition :=
  l.find? (fun it => it.Name == name)

/-- The method `ArgumentDefinitionList.ForName`. -/
def ArgumentDefinitionList.ForName (l : List ArgumentDefinition) (name : String) :
    Option ArgumentDefinition :=
  l.find? (fun it => it.Name == name)

/-- The method `ArgumentList.ForName`. -/
def ArgumentList.ForName (l : List Argument) (name : String) : Option Argument :=
  l.find? (fun it => it.Name == name)

/-- The method `DirectiveDefinitionList.ForName`. -/
def DirectiveDefinitionList.ForName (l : List DirectiveDefinition) (name : String) :
    Option DirectiveDefinition :=
  l.find? (fun it => it.Name == name)

/-- The method `DirectiveList.ForName`. -/
def DirectiveList.ForName (l : List Directive) (name : String) : Option Directive :=
  l.find? (fun it => it.Name == name)

/-- The method `DirectiveList.ForNames`: every application of that name. -/
def DirectiveList.ForNames (l : List Directive) (name : String) : List Directive :=
  l.filter (fun it => it.Name == name)

/-! ## Change model -/

/-- The change kinds, `ChangeType`. -/
inductive ChangeType where
  | FieldArgumentDescriptionChanged
  | FieldArgumentDefaultChanged
  | FieldArgumentTypeChanged
  | DirectiveRemoved
  | DirectiveChanged
  | DirectiveAdded
  | DirectiveDescriptionChanged
  | DirectiveLocationAdded
  | DirectiveLocationRemoved
  | DirectiveArgumentAdded
  | DirectiveArgumentRemoved
  | DirectiveArgumentDescriptionChanged
  | DirectiveArgumentDefaultValueChanged
  | DirectiveArgumentTypeChanged
  | DirectiveRepeatableRemoved
  | DirectiveRepeatableAdded
  | DirectiveArgumentValueChanged
  | EnumValueRemoved
  | EnumValueAdded
  | EnumValueDescriptionChanged
  | EnumValueDeprecationReasonChanged
  | EnumValueDeprecationAdded
  | FieldRemoved
  | FieldAdded
  | FieldDescriptionChanged
  | FieldDeprecationAdded
  | FieldDeprecationRemoved
  | FieldDeprecationReasonChanged
  | FieldTypeChanged
  | FieldArgumentAdded
  | FieldArgumentRemoved
  | InputFieldRemoved
  | InputFieldAdded
  | InputFieldDescriptionChanged
  | InputFieldDefaultValueChanged
  | InputFieldTypeChanged
  | ObjectTypeInterfaceAdded
  | ObjectTypeInterfaceRemoved
  | SchemaQueryTypeChanged
  | SchemaMutationTypeChanged
  | SchemaSubscriptionTypeChanged
  | TypeRemoved
  | TypeAdded
  | TypeKindChanged
  | TypeDescriptionChanged
  | UnionMemberRemoved
  | UnionMemberAdded
deriving DecidableEq

/-- Severity of a change, `Criticality`. -/
inductive Criticality where
  | NonBreaking
  | Dangerous
  | Breaking
deriving DecidableEq

/-- The name of the `@deprecated` directive, `deprecatedDirective`. -/
def deprecatedDirective : String := "deprecated"

/-- A change between two schemas, `Change`. -/
structure Change where
  message : String
  changeType : ChangeType
  criticalityLevel : Criticality
  path : String
  position : Option Position
deriving DecidableEq

/-! ## Type compatibility -/

/-- The function `isListType`: `Elem` is set and `NamedType` is empty. -/
def isListType (typ : AstType) : Bool :=
  typ.Elem.isSome && typ.NamedType == ""

/-- The function `isNonNullType`. -/
def isNonNullType (typ : AstType) : Bool :=
  typ.NonNull

/-- The function `isWrappingType`. -/
def isWrappingType (typ : AstType) : Bool :=
  isListType typ || isNonNullType typ

/-- The function `isSafeChangeForFieldType`: whether replacing the return type
`otyp` of a field by `ntyp` is safe for readers. The recursive calls are on the
`Elem` of two list types. -/
def isSafeChangeForFieldType : AstType → AstType → Bool
  | otyp, ntyp =>
    if !isWrappingType otyp && !isWrappingType ntyp then
      typeString otyp == typeString ntyp
    else if !ntyp.NonNull && otyp.NonNull then
      false
    else if ntyp.NonNull then
      if isListType ntyp then
        isListType otyp &&
          (match otyp, ntyp with
            | .list oElem _, .list nElem _ => isSafeChangeForFieldType oElem nElem
            | _, _ => false)
      else
        otyp.NamedType == ntyp.NamedType
    else if isListType otyp then
      isListType ntyp &&
        (match otyp, ntyp with
          | .list oElem _, .list nElem _ => isSafeChangeForFieldType oElem nElem
          | _, _ => false)
    else
      false

/-- The function `isSafeChangeForInputValue`: whether replacing the type `otyp`
of an argument or input field by `ntyp` is safe for writers. -/
def isSafeChangeForInputValue : AstType → AstType → Bool
  | otyp, ntyp =>
    if !isWrappingType otyp && !isWrappingType ntyp then
      typeString otyp == typeString ntyp
    else if !otyp.NonNull && ntyp.NonNull then
      false
    else if otyp.NonNull then
      if isListType otyp then
        isListType ntyp &&
          (match otyp, ntyp with
            | .list oElem _, .list nElem _ => isSafeChangeForInputValue oElem nElem
            | _, _ => false)
      else
        otyp.NamedType == ntyp.NamedType
    else if isListType otyp && isListType ntyp then
      (match otyp, ntyp with
        | .list oElem _, .list nElem _ => isSafeChangeForInputValue oElem nElem
        | _, _ => false)
    else
      false

/-! ## Directive applications on a type or a field -/

/-- The function `checkFieldDirectiveArgumentAdded`. -/
def checkFieldDirectiveArgumentAdded (od nd : Directive) (typeName : String) : List Change :=
  nd.Arguments.flatMap fun nArg =>
    match ArgumentList.ForName od.Arguments nArg.Name with
    | none =>
      [{ changeType := .DirectiveArgumentAdded
         criticalityLevel := .NonBreaking
         message := "Directive '@" ++ nd.Name ++ "' argument '" ++ nArg.Name ++
           "' was added to in '" ++ typeName ++ "'"
         path := typeName ++ ".@" ++ od.Name
         position := nArg.Position }]
    | some _ => []

/-- The function `checkFieldDirectiveArgumentChanged`. -/
def checkFieldDirectiveArgumentChanged (od nd : Directive) (typeName : String)
    (pos : Option Position) : List Change :=
  od.Arguments.flatMap fun oArg =>
    match ArgumentList.ForName nd.Arguments oArg.Name with
    | none =>
      [{ changeType := .DirectiveArgumentRemoved
         criticalityLevel := .Dangerous
         message := "Directive '@" ++ od.Name ++ "' argument '" ++ oArg.Name ++
           "' was removed in '" ++ typeName ++ "'"
         path := "@" ++ od.Name ++ "." ++ oArg.Name
         position := pos }]
    | some nArg =>
      if valueString oArg.Value ≠ valueString nArg.Value then
        [{ changeType := .DirectiveArgumentValueChanged
           criticalityLevel := .Dangerous
           message := "Directive '@" ++ od.Name ++ "' argument '" ++ oArg.Name ++
             "' value changed from '" ++ valueString oArg.Value ++ "' to '" ++
             valueString nArg.Value ++ "' in '" ++ typeName ++ "' "
           path := "@" ++ od.Name ++ "." ++ oArg.Name
           position := nArg.Position }]
      else []

/-- The function `checkFieldDirectiveAdded`. -/
def checkFieldDirectiveAdded (oDirs nDirs : List Directive) (typeName : String) : List Change :=
  nDirs.flatMap fun nd =>
    if nd.Name ≠ deprecatedDirective then
      match DirectiveList.ForName oDirs nd.Name with
      | none =>
        [{ changeType := .DirectiveAdded
           criticalityLevel := .NonBreaking
           message := "Directive '@" ++ nd.Name ++ "' was added in '" ++ typeName ++ "'"
           path := typeName
           position := nd.Position }]
      | some _ => []
    else []

/-- The loop over `od.Arguments` in the default case of
`changeInTypeFieldDirectives`, returning `haveSameArgVals` when the loop ends:
an argument that matches sets the flag and continues, the first argument that
does not match clears it and breaks. -/
def sameArgValsLoop (nd : Directive) : List Argument → Bool → Bool
  | [], haveSameArgVals => haveSameArgVals
  | oArg :: rest, _ =>
    match ArgumentList.ForName nd.Arguments oArg.Name with
    | some nArg =>
      if valueString oArg.Value = valueString nArg.Value then sameArgValsLoop nd rest true
      else false
    | none => false

/-- The loop over `nDirList` in the default case of
`changeInTypeFieldDirectives`, returning `haveSameArgVals` when the loop ends:
only applications with as many arguments as `od` are looked at, and the loop
breaks once the flag is set. -/
def haveSameArgValsLoop (od : Directive) : List Directive → Bool → Bool
  | [], haveSameArgVals => haveSameArgVals
  | nd :: rest, haveSameArgVals =>
    if od.Arguments.length = nd.Arguments.length then
      let h := sameArgValsLoop nd od.Arguments haveSameArgVals
      if h then h else haveSameArgValsLoop od rest h
    else haveSameArgValsLoop od rest haveSameArgVals

/-- The function `changeInTypeFieldDirectives`. -/
def changeInTypeFieldDirectives (oDirs nDirs : List Directive) (typeName : String)
    (pos : Option Position) : List Change :=
  (oDirs.flatMap fun od =>
    let oDirList := DirectiveList.ForNames oDirs od.Name
    if od.Name ≠ deprecatedDirective then
      let nDirList := DirectiveList.ForNames nDirs od.Name
      if nDirList.length = 0 then
        [{ changeType := .DirectiveRemoved
           criticalityLevel := .Dangerous
           message := "Directive '@" ++ od.Name ++ "' was removed from '" ++ typeName ++ "'"
           path := typeName
           position := pos }]
      else if nDirList.length = 1 ∧ oDirList.length = 1 then
        match nDirList with
        | nd :: _ =>
          checkFieldDirectiveArgumentChanged od nd typeName pos ++
            checkFieldDirectiveArgumentAdded od nd typeName
        | [] => []
      else
        if !haveSameArgValsLoop od nDirList false then
          [{ changeType := .DirectiveChanged
             criticalityLevel := .Dangerous
             message := "Directive '@" ++ od.Name ++ "' was changed on '" ++ typeName ++ "'"
             path := typeName
             position := pos }]
        else []
    else []) ++
  checkFieldDirectiveAdded oDirs nDirs typeName

/-! ## Input object fields -/

/-- The function `checkInputFieldsAdded`. -/
def checkInputFieldsAdded (oDef nDef : Definition) : List Change :=
  nDef.Fields.flatMap fun nf =>
    match FieldList.ForName oDef.Fields nf.Name with
    | none =>
      if nf.Type_.NonNull then
        [{ changeType := .InputFieldAdded
           criticalityLevel := .Breaking
           message := "Required field '" ++ nf.Name ++ "' was added to input object type '" ++
             nDef.Name ++ "'"
           path := oDef.Name ++ "." ++ nf.Name
           position := nf.Position }]
      else
        [{ changeType := .InputFieldAdded
           criticalityLevel := .Dangerous
           message := "Field '" ++ nf.Name ++ "' was added to input object type '" ++
             nDef.Name ++ "'"
           path := oDef.Name ++ "." ++ nf.Name
           position := nf.Position }]
    | some _ => []

/-- The function `checkInputFieldTypeValueChanged`. -/
def checkInputFieldTypeValueChanged (oDef : Definition) (of nf : FieldDefinition) :
    List Change :=
  (if typeString of.Type_ ≠ typeString nf.Type_ then
    [{ changeType := .InputFieldTypeChanged
       criticalityLevel :=
         if !isSafeChangeForInputValue of.Type_ nf.Type_ then .Breaking else .NonBreaking
       message := "Input field '" ++ oDef.Name ++ "." ++ of.Name ++ "' type changed from '" ++
         typeString of.Type_ ++ "' to '" ++ typeString nf.Type_ ++ "' in input object type"
       path := oDef.Name ++ "." ++ of.Name
       position := nf.Position }]
  else []) ++
  (if valueString of.DefaultValue ≠ valueString nf.DefaultValue then
    [{ changeType := .InputFieldDefaultValueChanged
       criticalityLevel := .Dangerous
       message := "Input field '" ++ oDef.Name ++ "." ++ of.Name ++
         "' default value changed from '" ++ valueString of.DefaultValue ++ "' to '" ++
         valueString nf.DefaultValue ++ "' in input object type"
       path := oDef.Name ++ "." ++ of.Name
       position := nf.Position }]
  else [])

/-- The function `changeInInputFields`. -/
def changeInInputFields (oDef nDef : Definition) : List Change :=
  (oDef.Fields.flatMap fun of =>
    let oDep := DirectiveList.ForName of.Directives deprecatedDirective
    match FieldList.ForName nDef.Fields of.Name with
    | none =>
      [{ changeType := .InputFieldRemoved
         criticalityLevel := .Breaking
         message :=
           if oDep.isSome then
             "input field '" ++ oDef.Name ++ "." ++ of.Name ++
               "'(deprecated) was removed from input object type"
           else
             "Input field '" ++ oDef.Name ++ "." ++ of.Name ++
               "' was removed from input object type"
         path := oDef.Name ++ "." ++ of.Name
         position := nDef.Position }]
    | some nf =>
      checkInputFieldTypeValueChanged oDef of nf ++
      (if of.Description ≠ nf.Description then
        [{ changeType := .InputFieldDescriptionChanged
           criticalityLevel := .NonBreaking
           message := "Input field '" ++ oDef.Name ++ "." ++ of.Name ++
             "' description changed in input object type"
           path := oDef.Name ++ "." ++ of.Name
           position := nf.Position }]
      else []) ++
      changeInTypeFieldDirectives of.Directives nf.Directives (nDef.Name ++ "." ++ nf.Name)
        nf.Position) ++
  checkInputFieldsAdded oDef nDef

/-! ## Field arguments -/

/-- The function `checkFieldArgumentAdded`. -/
def checkFieldArgumentAdded (oDef nDef : FieldDefinition) (typeName : String) : List Change :=
  nDef.Arguments.flatMap fun nArg =>
    match ArgumentDefinitionList.ForName oDef.Arguments nArg.Name with
    | none =>
      if nArg.Type_.NonNull then
        [{ changeType := .FieldArgumentAdded
           criticalityLevel := .Breaking
           message := "Required argument '" ++ nArg.Name ++ ":" ++ typeString nArg.Type_ ++
             "' was added to field '" ++ typeName ++ "." ++ nDef.Name ++ "'"
           path := typeName ++ "." ++ oDef.Name ++ "." ++ nArg.Name
           position := nArg.Position }]
      else
        [{ changeType := .FieldArgumentAdded
           criticalityLevel := .Dangerous
           message := "Argument '" ++ nArg.Name ++ ":" ++ typeString nArg.Type_ ++
             "' was added to field '" ++ typeName ++ "." ++ nDef.Name ++ "'"
           path := typeName ++ "." ++ oDef.Name ++ "." ++ nArg.Name
           position := nArg.Position }]
    | some _ => []

/-- The function `checkFieldArgumentTypeChanged`. -/
def checkFieldArgumentTypeChanged (oArg nArg : ArgumentDefinition) (typeName fieldName : String) :
    List Change :=
  if typeString oArg.Type_ ≠ typeString nArg.Type_ then
    [{ changeType := .FieldArgumentTypeChanged
       criticalityLevel :=
         if !isSafeChangeForInputValue oArg.Type_ nArg.Type_ then .Breaking else .NonBreaking
       message := "Argument '" ++ oArg.Name ++ "' type changed from '" ++
         typeString oArg.Type_ ++ "' to '" ++ typeString nArg.Type_ ++ "' in '" ++ typeName ++
         "." ++ fieldName ++ "' "
       path := typeName ++ "." ++ fieldName ++ "." ++ oArg.Name
       position := nArg.Position }]
  else []

/-- The function `changeInArgument`. -/
def changeInArgument (oDef nDef : FieldDefinition) (typeName : String) : List Change :=
  (oDef.Arguments.flatMap fun oArg =>
    match ArgumentDefinitionList.ForName nDef.Arguments oArg.Name with
    | none =>
      [{ changeType := .FieldArgumentRemoved
         criticalityLevel := .Breaking
         message := "Argument '" ++ oArg.Name ++ ":" ++ typeString oArg.Type_ ++
           "' was removed from field '" ++ typeName ++ "." ++ nDef.Name ++ "'"
         path := typeName ++ "." ++ oDef.Name ++ "." ++ oArg.Name
         position := nDef.Position }]
    | some nArg =>
      checkFieldArgumentTypeChanged oArg nArg typeName oDef.Name ++
      (if valueString oArg.DefaultValue ≠ valueString nArg.DefaultValue then
        [{ changeType := .FieldArgumentDefaultChanged
           criticalityLevel := .Dangerous
           message := "Argument '" ++ oArg.Name ++ "' default value changed from '" ++
             valueString oArg.DefaultValue ++ "' to '" ++ valueString nArg.DefaultValue ++
             "' in '" ++ typeName ++ "." ++ oDef.Name ++ "' "
           path := typeName ++ "." ++ oDef.Name ++ "." ++ oArg.Name
           position := nArg.Position }]
      else []) ++
      (if oArg.Description ≠ nArg.Description then
        [{ changeType := .FieldArgumentDescriptionChanged
           criticalityLevel := .NonBreaking
           message := "Argument '" ++ oArg.Name ++ "' description changed in '" ++ typeName ++
             "." ++ oDef.Name ++ "' "
           path := typeName ++ "." ++ oDef.Name ++ "." ++ oArg.Name
           position := nArg.Position }]
      else [])) ++
  checkFieldArgumentAdded oDef nDef typeName

/-! ## Fields of object and interface types -/

/-- The function `checkFieldsAdded`. -/
def checkFieldsAdded (oDef nDef : Definition) : List Change :=
  nDef.Fields.flatMap fun nf =>
    match FieldList.ForName oDef.Fields nf.Name with
    | none =>
      [{ changeType := .FieldAdded
         criticalityLevel := .NonBreaking
         message := "Field '" ++ nDef.Name ++ "." ++ nf.Name ++ "' was added to " ++
           nDef.Kind.str
         path := oDef.Name ++ "." ++ nf.Name
         position := nf.Position }]
    | some _ => []

/-- The function `checkFieldDeprecationChanged`. The two `reason` arguments are
compared as pointers: they are equal when both are nil or both are the same
node. -/
def checkFieldDeprecationChanged (oDef : Definition) (nf of : FieldDefinition) : List Change :=
  let oDep := DirectiveList.ForName of.Directives deprecatedDirective
  let nDep := DirectiveList.ForName nf.Directives deprecatedDirective
  (match oDep, nDep with
    | none, some _ =>
      [{ changeType := .FieldDeprecationAdded
         criticalityLevel := .Dangerous
         message := "Field '" ++ oDef.Name ++ "." ++ of.Name ++ "' deprecated in " ++
           oDef.Kind.str ++ " "
         path := oDef.Name ++ "." ++ of.Name
         position := nf.Position }]
    | _, _ => []) ++
  (match oDep, nDep with
    | some _, none =>
      [{ changeType := .FieldDeprecationRemoved
         criticalityLevel := .Dangerous
         message := "Field '" ++ oDef.Name ++ "." ++ of.Name ++ "' deprecation removed in " ++
           oDef.Kind.str ++ " "
         path := oDef.Name ++ "." ++ of.Name
         position := nf.Position }]
    | _, _ => []) ++
  (match oDep, nDep with
    | some o, some n =>
      if (ArgumentList.ForName o.Arguments "reason").map (fun a => a.addr) ≠
          (ArgumentList.ForName n.Arguments "reason").map (fun a => a.addr) then
        [{ changeType := .FieldDeprecationReasonChanged
           criticalityLevel := .NonBreaking
           message := "Field '" ++ oDef.Name ++ "." ++ of.Name ++
             "' deprecation reason changed in " ++ oDef.Kind.str ++ " "
           path := oDef.Name ++ "." ++ of.Name
           position := nf.Position }]
      else []
    | _, _ => [])

/-- The function `checkFieldTypeChanged`. -/
def checkFieldTypeChanged (oDef : Definition) (of nf : FieldDefinition) : List Change :=
  if typeString of.Type_ ≠ typeString nf.Type_ then
    [{ changeType := .FieldTypeChanged
       criticalityLevel :=
         if !isSafeChangeForFieldType of.Type_ nf.Type_ then .Breaking else .NonBreaking
       message := "Field '" ++ oDef.Name ++ "." ++ of.Name ++ "' type changed from '" ++
         typeString of.Type_ ++ "' to '" ++ typeString nf.Type_ ++ "' in " ++ oDef.Kind.str ++
         " "
       path := oDef.Name ++ "." ++ of.Name
       position := nf.Position }]
  else []

/-- The function `changeInFields`. -/
def changeInFields (oDef nDef : Definition) : List Change :=
  (oDef.Fields.flatMap fun of =>
    let oDep := DirectiveList.ForName of.Directives deprecatedDirective
    match FieldList.ForName nDef.Fields of.Name with
    | none =>
      [{ changeType := .FieldRemoved
         criticalityLevel := .Breaking
         message :=
           if oDep.isSome then
             "Field '" ++ oDef.Name ++ "." ++ of.Name ++ "'(deprecated) was removed from " ++
               oDef.Kind.str
           else
             "Field '" ++ oDef.Name ++ "." ++ of.Name ++ "' was removed from " ++
               oDef.Kind.str
         path := oDef.Name ++ "." ++ of.Name
         position := nDef.Position }]
    | some nf =>
      checkFieldTypeChanged oDef of nf ++
      (if of.Description ≠ nf.Description then
        [{ changeType := .FieldDescriptionChanged
           criticalityLevel := .NonBreaking
           message := "Field '" ++ oDef.Name ++ "." ++ of.Name ++ "' description changed in " ++
             oDef.Kind.str
           path := oDef.Name ++ "." ++ of.Name
           position := nf.Position }]
      else []) ++
      checkFieldDeprecationChanged oDef nf of ++
      changeInArgument of nf oDef.Name ++
      changeInTypeFieldDirectives of.Directives nf.Directives (nDef.Name ++ "." ++ nf.Name)
        nf.Position) ++
  checkFieldsAdded oDef nDef

/-! ## Unions, implemented interfaces, enums -/

/-- The function `checkUnionMemberAdded`. -/
def checkUnionMemberAdded (oDef nDef : Definition) : List Change :=
  nDef.Types.flatMap fun nt =>
    if !(oDef.Types.any fun ot => ot = nt) then
      [{ changeType := .UnionMemberAdded
         criticalityLevel := .Dangerous
         message := "Member '" ++ nt ++ "' was added to Union type '" ++ nDef.Name ++ "'"
         path := oDef.Name
         position := nDef.Position }]
    else []

/-- The function `checkUnionMemberRemoved`. -/
def checkUnionMemberRemoved (oDef nDef : Definition) : List Change :=
  oDef.Types.flatMap fun ot =>
    if !(nDef.Types.any fun nt => ot = nt) then
      [{ changeType := .UnionMemberRemoved
         criticalityLevel := .Breaking
         message := "Member '" ++ ot ++ "' was removed from Union type '" ++ oDef.Name ++ "'"
         path := oDef.Name
         position := nDef.Position }]
    else []

/-- The function `changeInUnion`. -/
def changeInUnion (oDef nDef : Definition) : List Change :=
  checkUnionMemberRemoved oDef nDef ++ checkUnionMemberAdded oDef nDef

/-- The function `checkTypeInterfacesAdded`. -/
def checkTypeInterfacesAdded (oDef nDef : Definition) : List Change :=
  nDef.Interfaces.flatMap fun nInt =>
    if !(oDef.Interfaces.any fun oInt => oInt = nInt) then
      [{ changeType := .ObjectTypeInterfaceAdded
         criticalityLevel := .Dangerous
         message := "'" ++ nDef.Name ++ "' object type implements '" ++ nInt ++ "' interface"
         path := oDef.Name
         position := nDef.Position }]
    else []

/-- The function `checkTypeInterfaceRemoved`. -/
def checkTypeInterfaceRemoved (oDef nDef : Definition) : List Change :=
  oDef.Interfaces.flatMap fun oInt =>
    if !(nDef.Interfaces.any fun nInt => oInt = nInt) then
      [{ changeType := .ObjectTypeInterfaceRemoved
         criticalityLevel := .Breaking
         message := "'" ++ oDef.Name ++ "' object type no longer implements '" ++ oInt ++
           "' interface"
         path := oDef.Name
         position := nDef.Position }]
    else []

/-- The function `changeInObject`. -/
def changeInObject (oDef nDef : Definition) : List Change :=
  checkTypeInterfaceRemoved oDef nDef ++
  checkTypeInterfacesAdded oDef nDef ++
  changeInTypeFieldDirectives oDef.Directives nDef.Directives nDef.Name nDef.Position ++
  changeInFields oDef nDef

/-- The function `checkEnumValuesAdded`. -/
def checkEnumValuesAdded (oDef nDef : Definition) : List Change :=
  nDef.EnumValues.flatMap fun nv =>
    match EnumValueList.ForName oDef.EnumValues nv.Name with
    | none =>
      [{ changeType := .EnumValueAdded
         criticalityLevel := .Dangerous
         message := "Enum value '" ++ nv.Name ++ "' was added to enum '" ++ nDef.Name ++ "'"
         path := oDef.Name ++ "." ++ nv.Name
         position := nv.Position }]
    | some _ => []

/-- The function `checkEnumValueDeprecationChanged`, with the same pointer
comparison of the `reason` arguments as `checkFieldDeprecationChanged`. -/
def checkEnumValueDeprecationChanged (oDef : Definition) (nv ov : EnumValueDefinition) :
    List Change :=
  let oDep := DirectiveList.ForName ov.Directives deprecatedDirective
  let nDep := DirectiveList.ForName nv.Directives deprecatedDirective
  (match oDep, nDep with
    | none, some _ =>
      [{ changeType := .EnumValueDeprecationAdded
         criticalityLevel := .Dangerous
         message := "Enum value '" ++ ov.Name ++ "' deprecated in enum '" ++ oDef.Name ++ "' "
         path := oDef.Name ++ "." ++ ov.Name
         position := nv.Position }]
    | _, _ => []) ++
  (match oDep, nDep with
    | some o, some n =>
      if (ArgumentList.ForName o.Arguments "reason").map (fun a => a.addr) ≠
          (ArgumentList.ForName n.Arguments "reason").map (fun a => a.addr) then
        [{ changeType := .EnumValueDeprecationReasonChanged
           criticalityLevel := .NonBreaking
           message := "Enum value '" ++ ov.Name ++ "' deprecation reason changed in enum '" ++
             oDef.Name ++ "' "
           path := oDef.Name ++ "." ++ ov.Name
           position := nv.Position }]
      else []
    | _, _ => [])

/-- The function `changeInEnum`. -/
def changeInEnum (oDef nDef : Definition) : List Change :=
  (oDef.EnumValues.flatMap fun ov =>
    let oDep := DirectiveList.ForName ov.Directives deprecatedDirective
    match EnumValueList.ForName nDef.EnumValues ov.Name with
    | none =>
      [{ changeType := .EnumValueRemoved
         criticalityLevel := .Breaking
         message :=
           if oDep.isSome then
             "Enum value '" ++ ov.Name ++ "'(deprecated) was removed from enum '" ++
               oDef.Name ++ "' "
           else
             "Enum value '" ++ ov.Name ++ "' was removed from enum '" ++ oDef.Name ++ "'"
         path := oDef.Name ++ "." ++ ov.Name
         position := ov.Position }]
    | some nv =>
      (if ov.Description ≠ nv.Description then
        [{ changeType := .EnumValueDescriptionChanged
           criticalityLevel := .NonBreaking
           message := "Enum value '" ++ ov.Name ++ "' description changed in  enum '" ++
             oDef.Name ++ "' "
           path := oDef.Name ++ "." ++ ov.Name
           position := nv.Position }]
      else []) ++
      checkEnumValueDeprecationChanged oDef nv ov) ++
  checkEnumValuesAdded oDef nDef

/-! ## Directive definitions -/

/-- The function `checkDirectiveAdded`. -/
def checkDirectiveAdded (oDirs nDirs : List DirectiveDefinition) : List Change :=
  nDirs.flatMap fun nd =>
    match DirectiveDefinitionList.ForName oDirs nd.Name with
    | none =>
      [{ changeType := .DirectiveAdded
         criticalityLevel := .NonBreaking
         message := "Directive '@" ++ nd.Name ++ "' was added "
         path := "@" ++ nd.Name
         position := nd.Position }]
    | some _ => []

/-- The function `checkDirectiveLocationChanged`. -/
def checkDirectiveLocationChanged (od nd : DirectiveDefinition) : List Change :=
  (od.Locations.flatMap fun ol =>
    if !(nd.Locations.any fun nl => ol = nl) then
      [{ changeType := .DirectiveLocationRemoved
         criticalityLevel := .Breaking
         message := "Location '" ++ ol ++ "' was removed from '@" ++ od.Name ++ "' directive"
         path := "@" ++ nd.Name
         position := nd.Position }]
    else []) ++
  (nd.Locations.flatMap fun nl =>
    if !(od.Locations.any fun ol => nl = ol) then
      [{ changeType := .DirectiveLocationAdded
         criticalityLevel := .NonBreaking
         message := "Location '" ++ nl ++ "' was added to '@" ++ nd.Name ++ "' directive"
         path := "@" ++ nd.Name
         position := nd.Position }]
    else [])

/-- The function `checkDirectiveRepeatableChanged`. -/
def checkDirectiveRepeatableChanged (od nd : DirectiveDefinition) : List Change :=
  (if od.IsRepeatable ∧ ¬ nd.IsRepeatable then
    [{ changeType := .DirectiveRepeatableRemoved
       criticalityLevel := .Breaking
       message := "Repeatable flag was removed from '@" ++ od.Name ++ "' directive"
       path := "@" ++ nd.Name
       position := nd.Position }]
  else []) ++
  (if ¬ od.IsRepeatable ∧ nd.IsRepeatable then
    [{ changeType := .DirectiveRepeatableAdded
       criticalityLevel := .NonBreaking
       message := "Repeatable flag was removed from '@" ++ od.Name ++ "' directive"
       path := "@" ++ nd.Name
       position := nd.Position }]
  else [])

/-- The function `checkDirectiveArgumentTypeChanged`. -/
def checkDirectiveArgumentTypeChanged (od : DirectiveDefinition)
    (oArg nArg : ArgumentDefinition) : List Change :=
  (if typeString oArg.Type_ ≠ typeString nArg.Type_ then
    [{ changeType := .DirectiveArgumentTypeChanged
       criticalityLevel :=
         if !isSafeChangeForInputValue oArg.Type_ nArg.Type_ then .Breaking else .NonBreaking
       message := "Argument '" ++ oArg.Name ++ "' type changed from '" ++
         typeString oArg.Type_ ++ "' to '" ++ typeString nArg.Type_ ++ "' in directive '@" ++
         od.Name ++ "' "
       path := "@" ++ od.Name ++ "." ++ oArg.Name
       position := nArg.Position }]
  else []) ++
  (if valueString oArg.DefaultValue ≠ valueString nArg.DefaultValue then
    [{ changeType := .DirectiveArgumentDefaultValueChanged
       criticalityLevel := .Dangerous
       message := "Argument '" ++ oArg.Name ++ "' default value changed from '" ++
         valueString oArg.DefaultValue ++ "' to '" ++ valueString nArg.DefaultValue ++
         "' in directive '@" ++ od.Name ++ "' "
       path := "@" ++ od.Name ++ "." ++ oArg.Name
       position := nArg.Position }]
  else [])

/-- The function `changeInDirectiveArguments`. -/
def changeInDirectiveArguments (od nd : DirectiveDefinition) : List Change :=
  od.Arguments.flatMap fun oArg =>
    match ArgumentDefinitionList.ForName nd.Arguments oArg.Name with
    | none =>
      [{ changeType := .DirectiveArgumentRemoved
         criticalityLevel := .Breaking
         message := "Argument '" ++ oArg.Name ++ "' was removed from directive '@" ++
           od.Name ++ "'"
         path := "@" ++ od.Name ++ "." ++ oArg.Name
         position := nd.Position }]
    | some nArg =>
      checkDirectiveArgumentTypeChanged od oArg nArg ++
      (if oArg.Description ≠ nArg.Description then
        [{ changeType := .DirectiveArgumentDescriptionChanged
           criticalityLevel := .NonBreaking
           message := "Argument '" ++ oArg.Name ++ "' description changed in directive '@" ++
             od.Name ++ "' "
           path := "@" ++ od.Name ++ "." ++ oArg.Name
           position := nArg.Position }]
      else [])

/-- The function `checkDirectiveArgumentAdded`. -/
def checkDirectiveArgumentAdded (od nd : DirectiveDefinition) : List Change :=
  nd.Arguments.flatMap fun nArg =>
    match ArgumentDefinitionList.ForName od.Arguments nArg.Name with
    | none =>
      if nArg.Type_.NonNull then
        [{ changeType := .DirectiveArgumentAdded
           criticalityLevel := .Breaking
           message := "Non-nullable argument '" ++ nArg.Name ++ ":" ++ typeString nArg.Type_ ++
             "' was added to directive '@" ++ nd.Name ++ "'"
           path := "@" ++ od.Name ++ "." ++ nArg.Name
           position := nArg.Position }]
      else
        [{ changeType := .DirectiveArgumentAdded
           criticalityLevel := .NonBreaking
           message := "Argument '" ++ nArg.Name ++ ":" ++ typeString nArg.Type_ ++
             "' was added to to directive '@" ++ nd.Name ++ "'"
           path := "@" ++ od.Name ++ "." ++ nArg.Name
           position := nArg.Position }]
    | some _ => []

/-- The function `changeInDirective`. -/
def changeInDirective (oDirs nDirs : List DirectiveDefinition) : List Change :=
  (oDirs.flatMap fun od =>
    match DirectiveDefinitionList.ForName nDirs od.Name with
    | none =>
      [{ changeType := .DirectiveRemoved
         criticalityLevel := .Breaking
         message := "Directive '@" ++ od.Name ++ "' was removed "
         path := "@" ++ od.Name
         position := od.Position }]
    | some nd =>
      (if od.Description ≠ nd.Description then
        [{ changeType := .DirectiveDescriptionChanged
           criticalityLevel := .NonBreaking
           message := "Directive '@" ++ od.Name ++ "' description changed "
           path := "@" ++ nd.Name
           position := nd.Position }]
      else []) ++
      checkDirectiveLocationChanged od nd ++
      checkDirectiveRepeatableChanged od nd ++
      changeInDirectiveArguments od nd ++
      checkDirectiveArgumentAdded od nd) ++
  checkDirectiveAdded oDirs nDirs

/-! ## Types -/

/-- The map `persistedType` of `changeInTypes`, from a type name to the pair
of its old and new definition: a list of entries with distinct keys. -/
abbrev PersistedType := List (String × (Definition × Definition))

/-- The assignment `persistedType[k] = v`: the value of an existing key is
replaced, a new key is added. -/
def PersistedType.set (m : PersistedType) (k : String) (v : Definition × Definition) :
    PersistedType :=
  if m.any (fun e => e.1 = k) then m.map (fun e => if e.1 = k then (k, v) else e)
  else m ++ [(k, v)]

/-- The order in which `range` visits the entries of a map, which Go leaves
unspecified: any rearrangement of the entries. -/
structure MapOrder where
  range : PersistedType → PersistedType
  perm : ∀ m, (range m).Perm m

/-- The order of first insertion, one of the orders `range` can take. -/
def MapOrder.insertion : MapOrder := ⟨fun m => m, fun m => List.Perm.refl m⟩

/-- The function `checkTypeAdded`. -/
def checkTypeAdded (oldSchemaDefs newSchemaDefs : List Definition) (isExtended : Bool) :
    List Change :=
  newSchemaDefs.flatMap fun nt =>
    match DefinitionList.ForName oldSchemaDefs nt.Name with
    | none =>
      [{ changeType := .TypeAdded
         criticalityLevel := .NonBreaking
         message :=
           if isExtended then "Extended type '" ++ nt.Name ++ "' was added"
           else "Type '" ++ nt.Name ++ "' was added"
         path := nt.Name
         position := nt.Position }]
    | some _ => []

/-- The function `checkTypeRemoved`, which appends a change for an old type
without a new counterpart and records the other old types, each with its new
counterpart, in `persistedType`. It returns the changes and the updated map. -/
def checkTypeRemoved : List Definition → List Definition → PersistedType → Bool →
    List Change × PersistedType
  | [], _, persistedType, _ => ([], persistedType)
  | ot :: rest, newSchemaDefs, persistedType, isExtended =>
    match DefinitionList.ForName newSchemaDefs ot.Name with
    | none =>
      let r := checkTypeRemoved rest newSchemaDefs persistedType isExtended
      ({ changeType := .TypeRemoved
         criticalityLevel := .Breaking
         message :=
           if isExtended then "Extended type '" ++ ot.Name ++ "' was removed"
           else "Type '" ++ ot.Name ++ "' was removed"
         path := ot.Name
         position := ot.Position } :: r.1, r.2)
    | some nt =>
      checkTypeRemoved rest newSchemaDefs (persistedType.set ot.Name (ot, nt)) isExtended

/-- The body of the loop over `persistedType` in `changeInTypes`, for the old
definition `ot` and the new definition `nt` of one entry. -/
def changeInPersistedType (ot nt : Definition) : List Change :=
  (if ot.Kind = .Enum ∧ nt.Kind = .Enum then changeInEnum ot nt else []) ++
  (if ot.Kind = .InputObject ∧ nt.Kind = .InputObject then changeInInputFields ot nt
    else []) ++
  (if ot.Kind = .Interface ∧ nt.Kind = .Interface then
    changeInTypeFieldDirectives ot.Directives nt.Directives nt.Name nt.Position ++
      changeInFields ot nt
    else []) ++
  (if ot.Kind = .Object ∧ nt.Kind = .Object then changeInObject ot nt else []) ++
  (if ot.Kind = .Union ∧ nt.Kind = .Union then changeInUnion ot nt else []) ++
  (if ot.Kind ≠ nt.Kind then
    [{ changeType := .TypeKindChanged
       criticalityLevel := .Breaking
       message := "Type '" ++ ot.Name ++ "' kind changed from '" ++ ot.Kind.str ++
         "' to '" ++ nt.Kind.str ++ "'"
       path := nt.Name
       position := nt.Position }]
  else []) ++
  (if ot.Description ≠ nt.Description then
    [{ changeType := .TypeDescriptionChanged
       criticalityLevel := .NonBreaking
       message := "Type '" ++ ot.Name ++ "' description changed"
       path := nt.Name
       position := nt.Position }]
  else [])

/-- The function `changeInTypes`. One map `persistedType` is filled first from
the definitions and then from the extensions, and is then ranged over in the
order `ord`. -/
def changeInTypes (ord : MapOrder) (oldSchema newSchema : SchemaDocument) : List Change :=
  let persistedType : PersistedType := []
  let removed := checkTypeRemoved oldSchema.Definitions newSchema.Definitions persistedType false
  let added := checkTypeAdded oldSchema.Definitions newSchema.Definitions false
  let removedExt :=
    checkTypeRemoved oldSchema.Extensions newSchema.Extensions removed.2 true
  let addedExt := checkTypeAdded oldSchema.Extensions newSchema.Extensions true
  removed.1 ++ added ++ removedExt.1 ++ addedExt ++
    (ord.range removedExt.2).flatMap fun defs => changeInPersistedType defs.2.1 defs.2.2

/-! ## Schema roots -/

/-- The function `getOperationForName`. -/
def getOperationForName (ops : List OperationTypeDefinition) (name : Operation) :
    Option OperationTypeDefinition :=
  ops.find? (fun op => op.Operation = name)

/-- The function `changesInSchemaOperation`. -/
def changesInSchemaOperation (oldOp newOp : Option OperationTypeDefinition) (op : Operation) :
    List Change :=
  let changeType : ChangeType :=
    match op with
    | .Query => .SchemaQueryTypeChanged
    | .Mutation => .SchemaMutationTypeChanged
    | .Subscription => .SchemaSubscriptionTypeChanged
  (match oldOp, newOp with
    | none, some n =>
      [{ changeType := changeType
         criticalityLevel := .NonBreaking
         message := "Schema " ++ op.str ++ " root has added '" ++ n.Operation.str ++ "'"
         path := ""
         position := n.Position }]
    | _, _ => []) ++
  (match oldOp, newOp with
    | some o, none =>
      [{ changeType := changeType
         criticalityLevel := .Breaking
         message := "Schema " ++ op.str ++ " root has removed '" ++ o.Operation.str ++ "'"
         path := ""
         position := o.Position }]
    | _, _ => []) ++
  (match oldOp, newOp with
    | some o, some n =>
      if o.Type_ ≠ n.Type_ then
        [{ changeType := changeType
           criticalityLevel := .Breaking
           message := "Schema " ++ op.str ++ " root has changed from '" ++ o.Operation.str ++
             "' to '" ++ n.Operation.str ++ "'"
           path := ""
           position := n.Position }]
      else []
    | _, _ => [])

/-- The function `changeInSchema`. -/
def changeInSchema (oldSchemaDefs newSchemaDefs : List SchemaDefinition) : List Change :=
  match oldSchemaDefs, newSchemaDefs with
  | [], [] => []
  | o :: _, [] =>
    changesInSchemaOperation (getOperationForName o.OperationTypes .Query) none .Query ++
    changesInSchemaOperation (getOperationForName o.OperationTypes .Mutation) none .Mutation ++
    changesInSchemaOperation (getOperationForName o.OperationTypes .Subscription) none
      .Subscription
  | [], n :: _ =>
    changesInSchemaOperation none (getOperationForName n.OperationTypes .Query) .Query ++
    changesInSchemaOperation none (getOperationForName n.OperationTypes .Mutation) .Mutation ++
    changesInSchemaOperation none (getOperationForName n.OperationTypes .Subscription)
      .Subscription
  | o :: _, n :: _ =>
    changesInSchemaOperation (getOperationForName o.OperationTypes .Query)
      (getOperationForName n.OperationTypes .Query) .Query ++
    changesInSchemaOperation (getOperationForName o.OperationTypes .Mutation)
      (getOperationForName n.OperationTypes .Mutation) .Mutation ++
    changesInSchemaOperation (getOperationForName o.OperationTypes .Subscription)
      (getOperationForName n.OperationTypes .Subscription) .Subscription

/-! ## Entry point -/

/-- The function `FindChangesInSchemas`, for the order `ord` in which the map
of persisted types is ranged over. -/
def FindChangesInSchemas (ord : MapOrder) (oldSchema newSchema : SchemaDocument) :
    List Change :=
  changeInSchema oldSchema.Schema newSchema.Schema ++
  changeInSchema oldSchema.SchemaExtension newSchema.SchemaExtension ++
  changeInTypes ord oldSchema newSchema ++
  changeInDirective oldSchema.Directives newSchema.Directives

/-! ## Notation of the specification for type expressions -/

/-- The non-null form `NonNull(t)` of a type expression, written `t!` in a
schema: the same expression with its `NonNull` flag set. -/
def AstType.nonNullOf : AstType → AstType
  | .named n _ => .named n true
  | .list e _ => .list e true

/-! ## Example schemas -/

/-- A position in the file of the example schemas. -/
def examplePos (line column : Nat) : Option Position :=
  some { SrcName := "schema.graphql", Line := line, Column := column }

/-- The field `name: type` on the given line, with no description, argument or
directive. -/
def exampleField (name : String) (type : AstType) (line : Nat) : FieldDefinition :=
  { Description := "", Name := name, Arguments := [], DefaultValue := none, Type_ := type,
    Directives := [], Position := examplePos line 3 }

/-- The object type `type name directives { fields }`, declared on line 1. -/
def exampleObject (name : String) (directives : List Directive)
    (fields : List FieldDefinition) : Definition :=
  { Kind := .Object, Description := "", Name := name, Directives := directives,
    Interfaces := [], Fields := fields, Types := [], EnumValues := [],
    Position := examplePos 1 6 }

/-- The schema `type Employee { name: type }` of `TestCompareFields`. -/
def employee (type : AstType) : Definition :=
  exampleObject "Employee" [] [exampleField "name" type 2]

/-- A schema document holding only type definitions and type extensions. -/
def exampleDocument (definitions extensions : List Definition) : SchemaDocument :=
  { Schema := [], SchemaExtension := [], Directives := [], Definitions := definitions,
    Extensions := extensions }

/-- The schema `type T @a @a { x: Int }`: one object type, on which the
directive `@a` is applied twice without arguments. -/
def repeatedDirectiveSchema : SchemaDocument :=
  exampleDocument
    [exampleObject "T"
      [{ Name := "a", Arguments := [], Position := examplePos 1 8 },
       { Name := "a", Arguments := [], Position := examplePos 1 11 }]
      [exampleField "x" (.named "Int" false) 2]]
    []

/-- The old schema `type T { a: Int b: Int }  extend type T { c: Int }`. -/
def extendedOldSchema : SchemaDocument :=
  exampleDocument
    [exampleObject "T" []
      [exampleField "a" (.named "Int" false) 2, exampleField "b" (.named "Int" false) 3]]
    [exampleObject "T" [] [exampleField "c" (.named "Int" false) 6]]

/-- The new schema `type T { a: Int }  extend type T { c: Int }`: the old one
without the field `b` of the definition of `T`. -/
def extendedNewSchema : SchemaDocument :=
  exampleDocument
    [exampleObject "T" [] [exampleField "a" (.named "Int" false) 2]]
    [exampleObject "T" [] [exampleField "c" (.named "Int" false) 6]]

/-! ## The criticality table -/

/-- The criticality that the code gives to every change of a kind, for the
kinds to which it gives only one; `none` for the kinds whose criticality
depends on the change. -/
def fixedCriticality : ChangeType → Option Criticality
  | .FieldArgumentDescriptionChanged => some .NonBreaking
  | .FieldArgumentDefaultChanged => some .Dangerous
  | .FieldArgumentTypeChanged => none
  | .DirectiveRemoved => none
  | .DirectiveChanged => some .Dangerous
  | .DirectiveAdded => some .NonBreaking
  | .DirectiveDescriptionChanged => some .NonBreaking
  | .DirectiveLocationAdded => some .NonBreaking
  | .DirectiveLocationRemoved => some .Breaking
  | .DirectiveArgumentAdded => none
  | .DirectiveArgumentRemoved => none
  | .DirectiveArgumentDescriptionChanged => some .NonBreaking
  | .DirectiveArgumentDefaultValueChanged => some .Dangerous
  | .DirectiveArgumentTypeChanged => none
  | .DirectiveRepeatableRemoved => some .Breaking
  | .DirectiveRepeatableAdded => some .NonBreaking
  | .DirectiveArgumentValueChanged => some .Dangerous
  | .EnumValueRemoved => some .Breaking
  | .EnumValueAdded => some .Dangerous
  | .EnumValueDescriptionChanged => some .NonBreaking
  | .EnumValueDeprecationReasonChanged => some .NonBreaking
  | .EnumValueDeprecationAdded => some .Dangerous
  | .FieldRemoved => some .Breaking
  | .FieldAdded => some .NonBreaking
  | .FieldDescriptionChanged => some .NonBreaking
  | .FieldDeprecationAdded => some .Dangerous
  | .FieldDeprecationRemoved => some .Dangerous
  | .FieldDeprecationReasonChanged => some .NonBreaking
  | .FieldTypeChanged => none
  | .FieldArgumentAdded => none
  | .FieldArgumentRemoved => some .Breaking
  | .InputFieldRemoved => some .Breaking
  | .InputFieldAdded => none
  | .InputFieldDescriptionChanged => some .NonBreaking
  | .InputFieldDefaultValueChanged => some .Dangerous
  | .InputFieldTypeChanged => none
  | .ObjectTypeInterfaceAdded => some .Dangerous
  | .ObjectTypeInterfaceRemoved => some .Breaking
  | .SchemaQueryTypeChanged => none
  | .SchemaMutationTypeChanged => none
  | .SchemaSubscriptionTypeChanged => none
  | .TypeRemoved => some .Breaking
  | .TypeAdded => some .NonBreaking
  | .TypeKindChanged => some .Breaking
  | .TypeDescriptionChanged => some .NonBreaking
  | .UnionMemberRemoved => some .Breaking
  | .UnionMemberAdded => some .Dangerous

/-- A change agrees with the table: its criticality is the one the table gives
for its kind, if the table gives one. -/
def Change.fixed (c : Change) : Prop :=
  match fixedCriticality c.changeType with
  | some k => c.criticalityLevel = k
  | none => True

/-- Every change of a list agrees with the table. -/
def allFixed (l : List Change) : Prop := ∀ c ∈ l, c.fixed

/-- An argument declaration `name: type` with no description, default value or
directive. -/
def exampleArgument (name : String) (type : AstType) (line column : Nat) :
    ArgumentDefinition :=
  { Description := "", Name := name, DefaultValue := none, Type_ := type, Directives := [],
    Position := examplePos line column }

/-- A schema definition or extension binding query, mutation and subscription
to the three given type names. -/
def exampleRoots (query mutation subscription : String) (line : Nat) : SchemaDefinition :=
  { Description := "", Directives := [],
    OperationTypes :=
      [{ Operation := .Query, Type_ := query, Position := examplePos line 10 },
       { Operation := .Mutation, Type_ := mutation, Position := examplePos line 20 },
       { Operation := .Subscription, Type_ := subscription, Position := examplePos line 30 }],
    Position := examplePos line 1 }

/-- The old schema
```
schema { query: Q mutation: M subscription: S }
directive @d(z: Int) on OBJECT
directive @e on OBJECT
type T @d(p: 1) @e { f(a: Int): Int }
input I { k: Int }
```
-/
def mixedOldSchema : SchemaDocument :=
  { Schema := [exampleRoots "Q" "M" "S" 1]
    SchemaExtension := []
    Directives :=
      [{ Description := "", Name := "d", Arguments := [exampleArgument "z" (.named "Int" false) 2 14],
         Locations := ["OBJECT"], IsRepeatable := false, Position := examplePos 2 1 },
       { Description := "", Name := "e", Arguments := [],
         Locations := ["OBJECT"], IsRepeatable := false, Position := examplePos 3 1 }]
    Definitions :=
      [{ Kind := .Object, Description := "", Name := "T",
         Directives :=
           [{ Name := "d",
              Arguments := [{ addr := 1, Name := "p", Value := some "1",
                              Position := examplePos 4 11 }],
              Position := examplePos 4 8 },
            { Name := "e", Arguments := [], Position := examplePos 4 17 }],
         Interfaces := [],
         Fields :=
           [{ Description := "", Name := "f",
              Arguments := [exampleArgument "a" (.named "Int" false) 4 24],
              DefaultValue := none, Type_ := .named "Int" false, Directives := [],
              Position := examplePos 4 22 }],
         Types := [], EnumValues := [], Position := examplePos 4 6 },
       { Kind := .InputObject, Description := "", Name := "I", Directives := [],
         Interfaces := [], Fields := [exampleField "k" (.named "Int" false) 5],
         Types := [], EnumValues := [], Position := examplePos 5 7 }]
    Extensions := [] }

/-- The new schema
```
schema { query: Q2 mutation: M2 subscription: S2 }
extend schema { query: X mutation: Y subscription: Z }
directive @d(x: Int!, y: Int) on OBJECT
type T @d { f(a: Int, b: Int!, c: Int): Int }
input I { k: Int r: Int! o: Int }
```
-/
def mixedNewSchema : SchemaDocument :=
  { Schema := [exampleRoots "Q2" "M2" "S2" 1]
    SchemaExtension := [exampleRoots "X" "Y" "Z" 2]
    Directives :=
      [{ Description := "", Name := "d",
         Arguments := [exampleArgument "x" (.named "Int" true) 3 14,
                       exampleArgument "y" (.named "Int" false) 3 23],
         Locations := ["OBJECT"], IsRepeatable := false, Position := examplePos 3 1 }]
    Definitions :=
      [{ Kind := .Object, Description := "", Name := "T",
         Directives := [{ Name := "d", Arguments := [], Position := examplePos 4 8 }],
         Interfaces := [],
         Fields :=
           [{ Description := "", Name := "f",
              Arguments := [exampleArgument "a" (.named "Int" false) 4 15,
                            exampleArgument "b" (.named "Int" true) 4 23,
                            exampleArgument "c" (.named "Int" false) 4 32],
              DefaultValue := none, Type_ := .named "Int" false, Directives := [],
              Position := examplePos 4 13 }],
         Types := [], EnumValues := [], Position := examplePos 4 6 },
       { Kind := .InputObject, Description := "", Name := "I", Directives := [],
         Interfaces := [],
         Fields := [exampleField "k" (.named "Int" false) 5,
                    exampleField "r" (.named "Int" true) 5,
                    exampleField "o" (.named "Int" false) 5],
         Types := [], EnumValues := [], Position := examplePos 5 7 }]
    Extensions := [] }

/-- The kind and the criticality of each change of a list, in order. -/
def kindsAndCriticalities (l : List Change) : List (ChangeType × Criticality) :=
  l.map fun c => (c.changeType, c.criticalityLevel)

/-! ## Documents with unique names -/

/-- A list of directive applications is regular when the arguments of each
application have distinct names and no directive other than `@deprecated` is
applied more than once without arguments. -/
def DirectiveList.regular (ds : List Directive) : Prop :=
  ∀ d ∈ ds,
    (d.Arguments.map fun a => a.Name).Nodup ∧
    (d.Name ≠ deprecatedDirective → d.Arguments = [] →
      (DirectiveList.ForNames ds d.Name).length ≤ 1)

instance (ds : List Directive) : Decidable (DirectiveList.regular ds) := by
  unfold DirectiveList.regular
  infer_instance

/-- A type definition is regular when its fields have distinct names, its enum
values have distinct names, the arguments of each field have distinct names,
and its directive applications and those of its fields are regular. -/
def Definition.regular (t : Definition) : Prop :=
  (t.Fields.map fun f => f.Name).Nodup ∧
  (t.EnumValues.map fun v => v.Name).Nodup ∧
  DirectiveList.regular t.Directives ∧
  ∀ f ∈ t.Fields, (f.Arguments.map fun a => a.Name).Nodup ∧ DirectiveList.regular f.Directives

instance (t : Definition) : Decidable t.regular := by
  unfold Definition.regular
  infer_instance

/-- A schema document is regular when the type definitions have distinct
names, so have the type extensions and the directive definitions, the arguments
of each directive definition have distinct names, and every type definition and
type extension is regular. -/
def SchemaDocument.regular (s : SchemaDocument) : Prop :=
  (s.Definitions.map fun t => t.Name).Nodup ∧
  (s.Extensions.map fun t => t.Name).Nodup ∧
  (s.Directives.map fun d => d.Name).Nodup ∧
  (∀ d ∈ s.Directives, (d.Arguments.map fun a => a.Name).Nodup) ∧
  (∀ t ∈ s.Definitions, t.regular) ∧
  (∀ t ∈ s.Extensions, t.regular)

instance (s : SchemaDocument) : Decidable s.regular := by
  unfold SchemaDocument.regular
  infer_instance

/-- The schema of `TestCompareTypeDirectives`
```
type Book @graph(type: "book", key: "isbn") @graph(type: "library", key: "isbn") {
  isbn: String!
  title: String
}
```
in which the directive `@graph` is applied twice, with arguments. -/
def bookSchema : SchemaDocument :=
  exampleDocument
    [exampleObject "Book"
      [{ Name := "graph",
         Arguments :=
           [{ addr := 1, Name := "type", Value := some "\"book\"", Position := examplePos 1 18 },
            { addr := 2, Name := "key", Value := some "\"isbn\"", Position := examplePos 1 32 }],
         Position := examplePos 1 11 },
       { Name := "graph",
         Arguments :=
           [{ addr := 3, Name := "type", Value := some "\"library\"",
              Position := examplePos 1 52 },
            { addr := 4, Name := "key", Value := some "\"isbn\"", Position := examplePos 1 69 }],
         Position := examplePos 1 45 }]
      [exampleField "isbn" (.named "String" true) 2,
       exampleField "title" (.named "String" false) 3]]
    []

/-- The schema `type T { x: Int }  scalar T`, which declares the name `T`
twice. -/
def duplicateTypeSchema : SchemaDocument :=
  exampleDocument
    [exampleObject "T" [] [exampleField "x" (.named "Int" false) 1],
     { Kind := .Scalar, Description := "", Name := "T", Directives := [], Interfaces := [],
       Fields := [], Types := [], EnumValues := [], Position := examplePos 2 8 }]
    []

/-! ## Summaries and kinds of changes -/

/-- The kind, the criticality, the path and the position of a change: all of
it but the message. -/
def Change.summary (c : Change) : ChangeType × Criticality × String × Option Position :=
  (c.changeType, c.criticalityLevel, c.path, c.position)

/-- The changes of a list that have the given kind, in order. -/
def ofKind (k : ChangeType) (l : List Change) : List Change :=
  l.filter fun c => c.changeType = k

/-- Every change of a list has one of the given kinds. -/
def producesOnly (ks : List ChangeType) (l : List Change) : Prop :=
  ∀ c ∈ l, c.changeType ∈ ks

/-- The kinds of the changes of `changeInTypeFieldDirectives`. -/
def directiveApplicationKinds : List ChangeType :=
  [.DirectiveRemoved, .DirectiveArgumentRemoved, .DirectiveArgumentValueChanged,
   .DirectiveArgumentAdded, .DirectiveChanged, .DirectiveAdded]

/-- The kinds of the changes of `changeInInputFields`. -/
def inputFieldKinds : List ChangeType :=
  [.InputFieldRemoved, .InputFieldTypeChanged, .InputFieldDefaultValueChanged,
   .InputFieldDescriptionChanged, .InputFieldAdded] ++ directiveApplicationKinds

/-- The kinds of the changes of `changeInArgument`. -/
def argumentKinds : List ChangeType :=
  [.FieldArgumentRemoved, .FieldArgumentTypeChanged, .FieldArgumentDefaultChanged,
   .FieldArgumentDescriptionChanged, .FieldArgumentAdded]

/-- The kinds of the changes of `changeInFields`. -/
def fieldKinds : List ChangeType :=
  [.FieldRemoved, .FieldTypeChanged, .FieldDescriptionChanged, .FieldDeprecationAdded,
   .FieldDeprecationRemoved, .FieldDeprecationReasonChanged, .FieldAdded] ++
  argumentKinds ++ directiveApplicationKinds

/-- The kinds of the changes of `changeInEnum`. -/
def enumKinds : List ChangeType :=
  [.EnumValueRemoved, .EnumValueDescriptionChanged, .EnumValueDeprecationAdded,
   .EnumValueDeprecationReasonChanged, .EnumValueAdded]

/-- The kinds of the changes of `changeInUnion`. -/
def unionKinds : List ChangeType := [.UnionMemberRemoved, .UnionMemberAdded]

/-- The kinds of the changes of `changeInObject`. -/
def objectKinds : List ChangeType :=
  [.ObjectTypeInterfaceRemoved, .ObjectTypeInterfaceAdded] ++ fieldKinds

/-- The kinds of the changes of the loop over the persisted types. -/
def persistedKinds : List ChangeType :=
  [.TypeKindChanged, .TypeDescriptionChanged] ++ enumKinds ++ inputFieldKinds ++ unionKinds ++
  objectKinds

/-- The kinds of the changes of `changeInDirective`. -/
def directiveDefinitionKinds : List ChangeType :=
  [.DirectiveRemoved, .DirectiveDescriptionChanged, .DirectiveLocationRemoved,
   .DirectiveLocationAdded, .DirectiveRepeatableRemoved, .DirectiveRepeatableAdded,
   .DirectiveArgumentRemoved, .DirectiveArgumentTypeChanged,
   .DirectiveArgumentDefaultValueChanged, .DirectiveArgumentDescriptionChanged,
   .DirectiveArgumentAdded, .DirectiveAdded]

/-- The kinds of the changes of `changeInSchema`. -/
def schemaKinds : List ChangeType :=
  [.SchemaQueryTypeChanged, .SchemaMutationTypeChanged, .SchemaSubscriptionTypeChanged]

/-! ## The loop of `changeInTypeFieldDirectives` -/

/-- The body of the loop over `oDirs` in `changeInTypeFieldDirectives`: the
changes the function appends for the old application `od`. -/
def changeInTypeFieldDirectivesBody (oDirs nDirs : List Directive) (typeName : String)
    (pos : Option Position) (od : Directive) : List Change :=
  let oDirList := DirectiveList.ForNames oDirs od.Name
  if od.Name ≠ deprecatedDirective then
    let nDirList := DirectiveList.ForNames nDirs od.Name
    if nDirList.length = 0 then
      [{ changeType := .DirectiveRemoved
         criticalityLevel := .Dangerous
         message := "Directive '@" ++ od.Name ++ "' was removed from '" ++ typeName ++ "'"
         path := typeName
         position := pos }]
    else if nDirList.length = 1 ∧ oDirList.length = 1 then
      match nDirList with
      | nd :: _ =>
        checkFieldDirectiveArgumentChanged od nd typeName pos ++
          checkFieldDirectiveArgumentAdded od nd typeName
      | [] => []
    else
      if !haveSameArgValsLoop od nDirList false then
        [{ changeType := .DirectiveChanged
           criticalityLevel := .Dangerous
           message := "Directive '@" ++ od.Name ++ "' was changed on '" ++ typeName ++ "'"
           path := typeName
           position := pos }]
      else []
  else []

/-! ## More example schemas -/

/-- An argument `name: "value"` of a directive application, the node at the
address `addr`. -/
def exampleValue (addr : Nat) (name value : String) : Argument :=
  { addr := addr, Name := name, Value := some ("\"" ++ value ++ "\""),
    Position := examplePos 1 (10 + addr) }

/-- The application `@key(arguments)` on line 1. -/
def keyDirective (arguments : List Argument) : Directive :=
  { Name := "key", Arguments := arguments, Position := examplePos 1 11 }

/-- The first of the two applications of `@graph` in `bookSchema`. -/
def graphBook : Directive :=
  { Name := "graph",
    Arguments :=
      [{ addr := 1, Name := "type", Value := some "\"book\"", Position := examplePos 1 18 },
       { addr := 2, Name := "key", Value := some "\"isbn\"", Position := examplePos 1 32 }],
    Position := examplePos 1 11 }

/-- The second of the two applications of `@graph` in `bookSchema`. -/
def graphLibrary : Directive :=
  { Name := "graph",
    Arguments :=
      [{ addr := 3, Name := "type", Value := some "\"library\"", Position := examplePos 1 52 },
       { addr := 4, Name := "key", Value := some "\"isbn\"", Position := examplePos 1 69 }],
    Position := examplePos 1 45 }

/-- The schema `"""description""" type User { name: String! }` of
`TestCompareTypes`. -/
def userSchema (description : String) : SchemaDocument :=
  exampleDocument
    [{ Kind := .Object, Description := description, Name := "User", Directives := [],
       Interfaces := [], Fields := [exampleField "name" (.named "String" true) 2],
       Types := [], EnumValues := [], Position := examplePos 1 6 }]
    []

/-- The field `name: String @deprecated(reason: "some reason")` of
`TestCompareFields`, whose `reason` argument is the node at the address
`addr`. -/
def deprecatedField (addr : Nat) : FieldDefinition :=
  { Description := "", Name := "name", Arguments := [], DefaultValue := none,
    Type_ := .named "String" false,
    Directives :=
      [{ Name := "deprecated",
         Arguments := [{ addr := addr, Name := "reason", Value := some "\"some reason\"",
                         Position := examplePos 2 30 }],
         Position := examplePos 2 18 }],
    Position := examplePos 2 3 }

/-- The schema `type Employee { name: String @deprecated(reason: "some reason") }`
as one parse of it builds it, with the `reason` argument at the address
`addr`. -/
def deprecatedSchema (addr : Nat) : SchemaDocument :=
  exampleDocument [exampleObject "Employee" [] [deprecatedField addr]] []

/-- A definition or an extension of `T` of the given kind, with the one field
`fieldName: Int`. -/
def kindExample (kind : DefinitionKind) (description fieldName : String) (line : Nat) :
    Definition :=
  { Kind := kind, Description := description, Name := "T", Directives := [],
    Interfaces := [], Fields := [exampleField fieldName (.named "Int" false) (line + 1)],
    Types := [], EnumValues := [], Position := examplePos line 6 }

/-- The old schema `"old" type T { a: Int }  extend type T { c: Int }`. -/
def kindOldSchema : SchemaDocument :=
  exampleDocument [kindExample .Object "old" "a" 1] [kindExample .Object "" "c" 4]

/-- The new schema `"new" interface T { a: Int }  extend interface T { c: Int }`. -/
def kindNewSchema : SchemaDocument :=
  exampleDocument [kindExample .Interface "new" "a" 1] [kindExample .Interface "" "c" 4]

/-! ## Directive applications without `@deprecated` -/

/-- A third application of `@graph`, with the two argument names of
`graphBook` and `graphLibrary` and other values. -/
def graphUser : Directive :=
  { Name := "graph",
    Arguments :=
      [{ addr := 5, Name := "type", Value := some "\"user\"", Position := examplePos 1 18 },
       { addr := 6, Name := "key", Value := some "\"id\"", Position := examplePos 1 32 }],
    Position := examplePos 1 11 }

/-- A directive-application list with every application named `deprecated`
removed. -/
def withoutDeprecated (ds : List Directive) : List Directive :=
  ds.filter fun d => d.Name ≠ deprecatedDirective

/-- The application `@deprecated(reason: "...")` on line 1. -/
def deprecatedApplication (addr : Nat) (reason : String) : Directive :=
  { Name := "deprecated", Arguments := [exampleValue addr "reason" reason],
    Position := examplePos 1 40 }

/-! ## The loop of `changeInDirective`, and the bindings of a schema definition -/

/-- The changes `changeInDirective` appends for an old directive definition
`od` whose name the new schema defines as `nd`: the branch of its loop for a
definition present on both sides. -/
def changeInDirectivePair (od nd : DirectiveDefinition) : List Change :=
  (if od.Description ≠ nd.Description then
    [{ changeType := .DirectiveDescriptionChanged
       criticalityLevel := .NonBreaking
       message := "Directive '@" ++ od.Name ++ "' description changed "
       path := "@" ++ nd.Name
       position := nd.Position }]
  else []) ++
  checkDirectiveLocationChanged od nd ++
  checkDirectiveRepeatableChanged od nd ++
  changeInDirectiveArguments od nd ++
  checkDirectiveArgumentAdded od nd

/-- The bindings of an operation in the first entry of a list of schema
definitions: the operation type definitions of that entry that name the
operation, in order. With no entry the operation has no binding. -/
def rootBindings (defs : List SchemaDefinition) (op : Operation) :
    List OperationTypeDefinition :=
  match defs with
  | [] => []
  | d :: _ => d.OperationTypes.filter fun o => o.Operation = op

/-- The name of the type an operation is bound to on one side, in the words of
the specification: the type of its first binding in the first entry of the
list of schema definitions, or nothing when the operation is unbound. -/
def boundType (defs : List SchemaDefinition) (op : Operation) : Option String :=
  ((rootBindings defs op).map fun o => o.Type_).head?

/-- The schema definition `schema { operation: Type ... }` with the given
bindings. -/
def rootSchema (bindings : List (Operation × String)) : SchemaDefinition :=
  { Description := "", Directives := [],
    OperationTypes := bindings.map fun b =>
      { Operation := b.1, Type_ := b.2, Position := examplePos 2 3 },
    Position := examplePos 1 1 }

/-- The kind of change `changesInSchemaOperation` emits for an operation. -/
def rootChangeType : Operation → ChangeType
  | .Query => .SchemaQueryTypeChanged
  | .Mutation => .SchemaMutationTypeChanged
  | .Subscription => .SchemaSubscriptionTypeChanged

/-- The kind and criticality of the change the specification asks of
`changeInSchema` for one operation, given the old and the new binding: Breaking
when the operation was bound and is unbound or bound to another name,
NonBreaking when it is bound only on the new side, none otherwise. -/
def rootDiff (op : Operation) : Option String → Option String →
    List (ChangeType × Criticality)
  | some _, none => [(rootChangeType op, .Breaking)]
  | some o, some n => if o ≠ n then [(rootChangeType op, .Breaking)] else []
  | none, some _ => [(rootChangeType op, .NonBreaking)]
  | none, none => []

/-! ## Linter: strings (`strings`, `unicode`)

The linter of `cmd/linter` and the rule table of `pkg/linter/rules.go`. Line
numbers, which the lexer counts from 1, are natural numbers. The functions of
the Go library the linter calls are modelled on characters. -/

/-- The function `unicode.IsSpace`: the characters of the Unicode property
White_Space. -/
def isSpace (c : Char) : Bool :=
  (9 ≤ c.toNat && c.toNat ≤ 13) || c.toNat == 0x20 || c.toNat == 0x85 || c.toNat == 0xA0 ||
  c.toNat == 0x1680 || (0x2000 ≤ c.toNat && c.toNat ≤ 0x200A) || c.toNat == 0x2028 ||
  c.toNat == 0x2029 || c.toNat == 0x202F || c.toNat == 0x205F || c.toNat == 0x3000

/-- The function `strings.TrimSpace`: the string without its leading and
trailing white space. -/
def TrimSpace (s : String) : String :=
  String.mk ((s.data.dropWhile isSpace).reverse.dropWhile isSpace).reverse

/-- The pieces of a list of characters between its commas. -/
def splitComma : List Char → List (List Char)
  | [] => [[]]
  | c :: cs =>
    if c = ',' then [] :: splitComma cs
    else
      match splitComma cs with
      | [] => [[c]]
      | piece :: pieces => (c :: piece) :: pieces

/-- The call `strings.Split(s, ",")`: the substrings between the commas of
`s`, one more than there are commas. -/
def Split (s : String) : List String :=
  (splitComma s.data).map String.mk

/-- One step of the loop of `strings.EqualFold`, on the characters `a` of the
first and `b` of the second string: they are equal, or, `sr` being the smaller
and `tr` the larger, `tr` is an ASCII character and the two are an upper-case
ASCII letter and its lower-case form, or `tr` is not ASCII and the loop over
`unicode.SimpleFold` reaches `tr` from `sr`. The table of `unicode.SimpleFold`
is the parameter `orbit`: `orbit sr tr` says whether that loop reaches `tr`. -/
def foldEq (orbit : Char → Char → Bool) (a b : Char) : Bool :=
  if a = b then true
  else
    let sr := if b < a then b else a
    let tr := if b < a then a else b
    if tr.toNat < 0x80 then
      0x41 ≤ sr.toNat && sr.toNat ≤ 0x5A && tr.toNat == sr.toNat + 0x20
    else orbit sr tr

/-- The loop of `strings.EqualFold` over the characters of the two strings:
they are equal under case folding when they have as many characters and these
are pairwise equal under `foldEq`. -/
def equalFoldLoop (orbit : Char → Char → Bool) : List Char → List Char → Bool
  | [], [] => true
  | sr :: s, tr :: t => foldEq orbit sr tr && equalFoldLoop orbit s t
  | _, _ => false

/-- The function `strings.EqualFold`. -/
def EqualFold (orbit : Char → Char → Bool) (s t : String) : Bool :=
  equalFoldLoop orbit s.data t.data

/-- The table of `unicode.SimpleFold` for ASCII text: `strings.EqualFold` does
not consult the table when both characters are ASCII. -/
def asciiOrbit : Char → Char → Bool := fun _ _ => false

/-! ## Linter: findings and inline commands (`cmd/linter/linter.go`) -/

/-- A finding, `linter.LintErrorWithMetadata`; `Err` holds the message of the
error. -/
structure LintErrorWithMetadata where
  Rule : String
  Line : Nat
  Column : Nat
  Err : String
deriving DecidableEq

/-- An inline command, `InlineLintConfig`. -/
structure InlineLintConfig where
  command : String
  rules : List String
  pos : Nat
deriving DecidableEq

/-- The constant `lintDisable`. -/
def lintDisable : String := "lint-disable"

/-- The constant `lintEnable`. -/
def lintEnable : String := "lint-enable"

/-- The constant `lintDisableLine`. -/
def lintDisableLine : String := "lint-disable-line"

/-- The function `contains`: some entry of `list` equals `first` under case
folding. -/
def contains (orbit : Char → Char → Bool) (list : List String) (first : String) : Bool :=
  list.any fun second => EqualFold orbit first second

/-- The loop over `configs` in `filterErrors` for the finding `lintErr`,
returning `shouldApplyRule` when the loop ends: a command that does not list
the rule of the finding is skipped, a `lint-disable-line` command on the line of
the finding clears the flag and breaks, and a `lint-enable` or `lint-disable`
command on an earlier line sets or clears the flag. -/
def shouldApplyRuleLoop (orbit : Char → Char → Bool) (lintErr : LintErrorWithMetadata) :
    List InlineLintConfig → Bool → Bool
  | [], shouldApplyRule => shouldApplyRule
  | config :: rest, shouldApplyRule =>
    if !contains orbit config.rules lintErr.Rule then
      shouldApplyRuleLoop orbit lintErr rest shouldApplyRule
    else if config.command = "lint-disable-line" ∧ config.pos = lintErr.Line then false
    else if config.pos < lintErr.Line then
      if config.command = "lint-enable" then shouldApplyRuleLoop orbit lintErr rest true
      else if config.command = "lint-disable" then shouldApplyRuleLoop orbit lintErr rest false
      else shouldApplyRuleLoop orbit lintErr rest shouldApplyRule
    else shouldApplyRuleLoop orbit lintErr rest shouldApplyRule

/-- The function `filterErrors`. -/
def filterErrors (orbit : Char → Char → Bool) (errors : List LintErrorWithMetadata)
    (configs : List InlineLintConfig) : List LintErrorWithMetadata :=
  errors.flatMap fun lintErr =>
    if shouldApplyRuleLoop orbit lintErr configs true then [lintErr] else []

/-! ## Linter: inline commands in comments (`cmd/linter/inline_lint_config.go`) -/

/-- The kinds of token `extractInlineLintConfiguration` tells apart: a
comment, the end of the input, and every other kind of the lexer. -/
inductive TokenKind where
  | Comment | EOF | Other
deriving DecidableEq

/-- A token of the lexer, `lexer.Token`. -/
structure Token where
  Kind : TokenKind
  Value : String
  Pos : Position
deriving DecidableEq

/-- A comment that holds an inline command, `inlineLintConfigMetadata`. -/
structure inlineLintConfigMetadata where
  pos : Position
  value : String
deriving DecidableEq

/-- The class `\s` of the regular expressions of Go: tab, line feed, form feed,
carriage return and space. -/
def regexSpace (c : Char) : Bool :=
  c.toNat == 9 || c.toNat == 10 || c.toNat == 12 || c.toNat == 13 || c.toNat == 32

/-- The call `inlineLintConfigurationRegex.FindStringSubmatch(value)` for the
pattern `^#\s*(lint-[^\s ]+)(\s.*)?$`: the text of the groups 1 and 2 when the
whole of `value` matches, nothing (Go returns nil) when it does not. After `#`
and white space the value must go on with `lint-` and at least one character
that is not white space; group 1 ends where these characters end; what follows,
if anything, starts with white space, holds no line feed after it and is
group 2, which is empty when nothing follows. -/
def FindStringSubmatch (value : String) : Option (String × String) :=
  match value.data with
  | [] => none
  | first :: rest =>
    if first ≠ '#' then none
    else
      let afterSpaces := rest.dropWhile regexSpace
      if !("lint-".data.isPrefixOf afterSpaces) then none
      else
        let afterLint := afterSpaces.drop 5
        let word := afterLint.takeWhile fun c => !regexSpace c
        let tail := afterLint.dropWhile fun c => !regexSpace c
        if word = [] then none
        else
          match tail with
          | [] => some (String.mk ("lint-".data ++ word), "")
          | space :: more =>
            if more.any fun c => c.toNat == 10 then none
            else some (String.mk ("lint-".data ++ word), String.mk (space :: more))

/-- The function `sanitizeRules`. -/
def sanitizeRules (rulesString : String) : List String :=
  (Split rulesString).map TrimSpace

/-- The first loop of `extractInlineLintConfiguration`, at the token `token`
with `rest` still to be read from the lexer: a comment that begins with
`#lint-` is recorded, the next token is read, and the loop ends when that is
the end of the input, which the lexer also returns once `rest` is used up. -/
def collectLoop : Token → List Token → List inlineLintConfigMetadata
  | token, rest =>
    (if token.Kind = .Comment ∧ "#lint-".data.isPrefixOf token.Value.data then
      [{ pos := token.Pos, value := token.Value }]
    else []) ++
    match rest with
    | [] => []
    | next :: rest' => if next.Kind = .EOF then [] else collectLoop next rest'

/-- The second loop of `extractInlineLintConfiguration`. The expression
`matchGroups[1]` panics when the pattern does not match and `matchGroups` is
nil: the result is then `none`. A comment whose group 1 is none of the three
commands appends nothing. -/
def parseLoop : List inlineLintConfigMetadata → Option (List InlineLintConfig)
  | [] => some []
  | linConfig :: rest =>
    match FindStringSubmatch linConfig.value with
    | none => none
    | some (command, rulesString) =>
      let inlineRule : List InlineLintConfig :=
        if command = lintDisable then
          [{ command := lintDisable, rules := sanitizeRules rulesString,
             pos := linConfig.pos.Line }]
        else if command = lintEnable then
          [{ command := lintEnable, rules := sanitizeRules rulesString,
             pos := linConfig.pos.Line }]
        else if command = lintDisableLine then
          [{ command := lintDisableLine, rules := sanitizeRules rulesString,
             pos := linConfig.pos.Line }]
        else []
      (parseLoop rest).map fun inlineLintConfigRules => inlineRule ++ inlineLintConfigRules

/-- The function `extractInlineLintConfiguration`, on the tokens the lexer
returns for the source before the end of the input; `none` is a run-time
panic. The lexer does not fail on a source the parser has accepted. -/
def extractInlineLintConfiguration (tokens : List Token) : Option (List InlineLintConfig) :=
  match tokens with
  | [] => parseLoop []
  | token :: rest => parseLoop (collectLoop token rest)

/-- The comment token with the text `value` on the line `line`. -/
def commentToken (value : String) (line : Nat) : Token :=
  { Kind := .Comment, Value := value,
    Pos := { SrcName := "schema.graphql", Line := line, Column := 1 } }

/-- A finding of the rule `rule` on the line `line`. -/
def exampleFinding (rule : String) (line : Nat) : LintErrorWithMetadata :=
  { Rule := rule, Line := line, Column := 1, Err := "finding of " ++ rule }

/-! ## Linter: the rule table and the selection of rules
(`pkg/linter/rules.go`, `cmd/linter/lint_cmd.go`) -/

/-- A rule function, `linter.LintRuleFunc`: a value of this type is one of the
nine rule functions of `pkg/linter/rules.go`, which the table and the selection
of rules pass around without calling them. -/
inductive LintRuleFunc where
  | TypesHaveDescription
  | ArgumentsHaveDescription
  | FieldsHaveDescription
  | EnumValuesAreAllCaps
  | EnumValuesHaveDescriptions
  | FieldsAreCamelCased
  | TypesAreCapitalized
  | RelayConnectionTypesSpec
  | RelayConnectionArgumentsSpec
deriving DecidableEq

/-- An entry of the rule table, `linter.LintRuleMetadata`. -/
structure LintRuleMetadata where
  Name : String
  description : String
  RuleFunction : LintRuleFunc
deriving DecidableEq

/-- The constant `typeDesc`. -/
def typeDesc : String := "type-desc"

/-- The constant `argsDesc`. -/
def argsDesc : String := "args-desc"

/-- The constant `fieldDesc`. -/
def fieldDesc : String := "field-desc"

/-- The constant `enumCaps`. -/
def enumCaps : String := "enum-caps"

/-- The constant `enumDesc`. -/
def enumDesc : String := "enum-desc"

/-- The constant `fieldCamel`. -/
def fieldCamel : String := "field-camel"

/-- The constant `typeCaps`. -/
def typeCaps : String := "type-caps"

/-- The constant `relayConnType`. -/
def relayConnType : String := "relay-conn-type"

/-- The constant `relayConnArgs`. -/
def relayConnArgs : String := "relay-conn-args"

/-- The table `AllTheRules`. -/
def AllTheRules : List LintRuleMetadata :=
  [⟨typeDesc, "type-desc checks whether all the types defined have description",
      .TypesHaveDescription⟩,
   ⟨argsDesc, "args-desc checks whether arguments have description",
      .ArgumentsHaveDescription⟩,
   ⟨fieldDesc, "field-desc checks whether fields have description", .FieldsHaveDescription⟩,
   ⟨enumCaps, "enum-caps checks whether Enum values are all UPPER_CASE",
      .EnumValuesAreAllCaps⟩,
   ⟨enumDesc, "enum-desc checks whether Enum values have description",
      .EnumValuesHaveDescriptions⟩,
   ⟨fieldCamel, "field-camel checks whether fields defined are all camelCase",
      .FieldsAreCamelCased⟩,
   ⟨typeCaps, "type-caps checks whether types defined are Capitalized", .TypesAreCapitalized⟩,
   ⟨relayConnType,
      "relay-conn-type checks if Connection Types follow the Relay Cursor Connections Specification",
      .RelayConnectionTypesSpec⟩,
   ⟨relayConnArgs,
      "relay-conn-args checks if Connection Args follow of the Relay Cursor Connections Specification",
      .RelayConnectionArgumentsSpec⟩]

/-- The loop over `rulesString` in `findTheRulesToApply`, with the functions
selected so far: the function of the first rule of the table whose name equals
the trimmed token under case folding is appended, and a token without such a
rule ends the call with an error. -/
def findTheRulesToApplyLoop (orbit : Char → Char → Bool) :
    List String → List LintRuleFunc → Except String (List LintRuleFunc)
  | [], rulesToApply => .ok rulesToApply
  | ruleToken :: rest, rulesToApply =>
    let inputRuleName := TrimSpace ruleToken
    match AllTheRules.find? fun rule => EqualFold orbit inputRuleName rule.Name with
    | some rule => findTheRulesToApplyLoop orbit rest (rulesToApply ++ [rule.RuleFunction])
    | none => .error ("invalid rule[" ++ inputRuleName ++ "] passed")

/-- The function `findTheRulesToApply`. -/
def findTheRulesToApply (orbit : Char → Char → Bool) (rulesString : List String) :
    Except String (List LintRuleFunc) :=
  if rulesString.length = 0 then .ok (AllTheRules.map fun rule => rule.RuleFunction)
  else findTheRulesToApplyLoop orbit rulesString []

/-- An input name is registered when, trimmed, it equals the name of a rule
of `AllTheRules` under case folding. -/
def registered (orbit : Char → Char → Bool) (name : String) : Bool :=
  AllTheRules.any fun rule => EqualFold orbit (TrimSpace name) rule.Name

/-- The function of the first rule of `AllTheRules` whose name the trimmed
input name equals under case folding. -/
def ruleFunctionFor (orbit : Char → Char → Bool) (name : String) : Option LintRuleFunc :=
  (AllTheRules.find? fun rule => EqualFold orbit (TrimSpace name) rule.Name).map
    fun rule => rule.RuleFunction

/-- The map `map[Criticality][]*Change` of `GroupChanges`: the slice stored
under a key, or nothing when the map has no such key. -/
abbrev GroupedChanges := Criticality → Option (List Change)

/-- The empty map. -/
def GroupedChanges.empty : GroupedChanges := fun _ => none

/-- The assignment `m[k] = v`. -/
def GroupedChanges.set (m : GroupedChanges) (k : Criticality) (v : List Change) :
    GroupedChanges :=
  fun key => if key = k then some v else m key

/-- The body of the loop of `GroupChanges` for the change `c`: an empty slice
is stored under the criticality of `c` when the map has no such key, then `c` is
appended to the slice under that key. -/
def GroupChangesBody (groupChanges : GroupedChanges) (c : Change) : GroupedChanges :=
  let withKey : GroupedChanges :=
    if (groupChanges c.criticalityLevel).isNone then groupChanges.set c.criticalityLevel []
    else groupChanges
  withKey.set c.criticalityLevel ((withKey c.criticalityLevel).getD [] ++ [c])

/-- The function `GroupChanges`. -/
def GroupChanges (changes : List Change) : GroupedChanges :=
  changes.foldl GroupChangesBody GroupedChanges.empty

/-- The closure `less(changes)` at two changes of the slice: the order by
source file name, then by line. It dereferences the position of both changes,
and panics (`none`) when one of them is nil. Go orders strings byte by byte,
which for text in UTF-8 is the order of their lists of characters. -/
def less (ci cj : Change) : Option Bool :=
  match ci.position, cj.position with
  | some pi, some pj =>
    if pi.SrcName ≠ pj.SrcName then some (decide (pi.SrcName.data < pj.SrcName.data))
    else some (decide (pi.Line < pj.Line))
  | _, _ => none

/-- The function `getPosition`. -/
def getPosition (c : Change) : String :=
  match c.position with
  | none => ""
  | some position =>
    (if position.SrcName ≠ "" then position.SrcName else "") ++ ":" ++ toString position.Line

/-- The condition `sort.Slice` puts on its argument `less`, on the entries of
the slice: no entry is less than itself, and `less` describes a transitive
ordering (if `less a b` and `less b c` then `less a c`, and if neither `less a b`
nor `less b c` then not `less a c`). -/
def transitiveOrdering (lt : Change → Change → Bool) (l : List Change) : Prop :=
  (∀ a ∈ l, lt a a = false) ∧
  (∀ a ∈ l, ∀ b ∈ l, ∀ c ∈ l, lt a b = true → lt b c = true → lt a c = true) ∧
  (∀ a ∈ l, ∀ b ∈ l, ∀ c ∈ l, lt a b = false → lt b c = false → lt a c = false)

/-- The library function `sort.Slice`, which is not stable and whose algorithm
the library leaves open: any function that permutes the slice and, when `less`
describes a transitive ordering on its entries, leaves no entry less than an
entry before it. -/
structure SliceSort where
  sort : (Change → Change → Bool) → List Change → List Change
  perm : ∀ lt l, (sort lt l).Perm l
  sorted : ∀ lt l, transitiveOrdering lt l →
    (sort lt l).Pairwise fun a b => lt b a = false

/-- The line a report prints for the change `c` after the marker of its
criticality: with the position when `withFilepath` is set and the change has
one. -/
def reportLine (marker : String) (withFilepath : Bool) (c : Change) : String :=
  if withFilepath = true ∧ (getPosition c).length > 0 then
    marker ++ "  " ++ getPosition c ++ " " ++ c.message ++ "\n"
  else marker ++ "  " ++ c.message ++ "\n"

/-- The body the three functions `ReportBreakingChanges`,
`ReportDangerousChanges` and `ReportNonBreakingChanges` share, for the marker of
each: the lines printed and the number returned, `none` when `less` panics.
Nothing is printed for an empty slice; `sort.Slice` calls `less` on every entry
of a slice of two or more. -/
def reportChanges (ord : SliceSort) (marker : String) (changes : List Change)
    (withFilepath : Bool) : Option (List String × Nat) :=
  if changes.length = 0 then some ([], 0)
  else if 2 ≤ changes.length ∧ ∃ c ∈ changes, c.position = none then none
  else
    some ((ord.sort (fun ci cj => (less ci cj).getD false) changes).map
      (reportLine marker withFilepath), changes.length)

/-- The function `ReportBreakingChanges`. -/
def ReportBreakingChanges (ord : SliceSort) (changes : List Change) (withFilepath : Bool) :
    Option (List String × Nat) :=
  reportChanges ord "❌" changes withFilepath

/-- The function `ReportDangerousChanges`. -/
def ReportDangerousChanges (ord : SliceSort) (changes : List Change) (withFilepath : Bool) :
    Option (List String × Nat) :=
  reportChanges ord "✋️" changes withFilepath

/-- The function `ReportNonBreakingChanges`. -/
def ReportNonBreakingChanges (ord : SliceSort) (changes : List Change)
    (withFilepath : Bool) : Option (List String × Nat) :=
  reportChanges ord "✅" changes withFilepath

/-- The order of the reports on positions: by source file name, then by
line. -/
def positionLE (p q : Position) : Prop :=
  p.SrcName.data < q.SrcName.data ∨ (p.SrcName = q.SrcName ∧ p.Line ≤ q.Line)

/-- A list of changes is in the order of the reports when the position of no
change comes after the position of a later change. -/
def reportOrdered (l : List Change) : Prop :=
  l.Pairwise fun a b => ∀ p q, a.position = some p → b.position = some q → positionLE p q

/-- An instance of `sort.Slice`: insertion sort, which is stable. -/
def SliceSort.insertion : SliceSort where
  sort lt l := l.insertionSort fun a b => lt b a = false
  perm lt l := List.perm_insertionSort _ l
  sorted lt l h := by
    have hins : ∀ (s : List Change) (a : Change), a ∈ l → (∀ x ∈ s, x ∈ l) →
        s.Pairwise (fun a b => lt b a = false) →
        (List.orderedInsert (fun a b => lt b a = false) a s).Pairwise
          (fun a b => lt b a = false) := by
      intro s
      induction s with
      | nil => intro a _ _ _; simp
      | cons b s ih =>
        intro a ha hs hp
        have hb : b ∈ l := hs b (List.mem_cons_self _ _)
        have hsl : ∀ x ∈ s, x ∈ l := fun x hx => hs x (List.mem_cons_of_mem _ hx)
        rw [List.pairwise_cons] at hp
        rw [List.orderedInsert]
        split
        · rename_i hab
          rw [List.pairwise_cons, List.pairwise_cons]
          refine ⟨?_, hp⟩
          intro x hx
          rcases List.mem_cons.mp hx with rfl | hx
          · exact hab
          · exact h.2.2 x (hsl x hx) _ hb a ha (hp.1 x hx) hab
        · rename_i hab
          have hba : lt a b = false := by
            cases hlt : lt a b with
            | false => rfl
            | true =>
              have hab' : lt b a = true := by simpa using hab
              have := h.2.1 a ha b hb a ha hlt hab'
              rw [h.1 a ha] at this
              cases this
          rw [List.pairwise_cons]
          refine ⟨?_, ih a ha hsl hp.2⟩
          intro x hx
          rcases (List.mem_orderedInsert _).mp hx with rfl | hx
          · exact hba
          · exact hp.1 x hx
    have hsort : ∀ s : List Change, (∀ x ∈ s, x ∈ l) →
        (s.insertionSort fun a b => lt b a = false).Pairwise (fun a b => lt b a = false) := by
      intro s
      induction s with
      | nil => intro _; simp
      | cons a s ih =>
        intro hs
        rw [List.insertionSort]
        refine hins _ a (hs a (List.mem_cons_self _ _)) ?_
          (ih fun x hx => hs x (List.mem_cons_of_mem _ hx))
        intro x hx
        exact hs x (List.mem_cons_of_mem _
          ((List.perm_insertionSort _ s).mem_iff.mp hx))
    exact hsort l fun x hx => hx

/-- The two `TypeAdded` changes of a report, the first in `b.graphql` on
line 2, the second in `a.graphql` on line 12. -/
def exampleReport : List Change :=
  [{ message := "Type 'B' was added", changeType := .TypeAdded, criticalityLevel := .NonBreaking,
     path := "B", position := some { SrcName := "b.graphql", Line := 2, Column := 6 } },
   { message := "Type 'A' was added", changeType := .TypeAdded, criticalityLevel := .NonBreaking,
     path := "A", position := some { SrcName := "a.graphql", Line := 12, Column := 6 } }]

/-! ## Linter: the rules (`pkg/linter/rules.go`)

A rule reads the line and the column of the position of a node; a position is
a pointer, and reading through a nil position is a panic. A rule returns its
findings, or `none` when it panics. The parser gives every node a position. -/

/-- A loop that appends to `errors` what its body returns for each entry of a
list, in order; it panics when the body does. -/
def appendEach {α β : Type} (l : List α) (body : α → Option (List β)) : Option (List β) :=
  match l with
  | [] => some []
  | a :: rest =>
    match body a, appendEach rest body with
    | some errors, some more => some (errors ++ more)
    | _, _ => none

/-- Two pieces of code that append to `errors` one after the other. -/
def appendBoth {β : Type} (first second : Option (List β)) : Option (List β) :=
  match first, second with
  | some errors, some more => some (errors ++ more)
  | _, _ => none

/-- The finding of a rule at a position, appended to `errors`: the structure
literal `LintErrorWithMetadata{Rule, Line: position.Line, Column:
position.Column, Err}`, whose message may hold the line and the column. -/
def lintErrorAt (rule : String) (position : Option Position) (err : Position → String) :
    Option (List LintErrorWithMetadata) :=
  match position with
  | none => none
  | some p => some [{ Rule := rule, Line := p.Line, Column := p.Column, Err := err p }]

/-- The function `unicode.ToUpper`: a lower-case ASCII letter becomes the
upper-case letter, any other ASCII character stays, and a character outside
ASCII is mapped by the case tables of Unicode, the parameter `upper`. -/
def unicodeToUpper (upper : Char → Char) (r : Char) : Char :=
  if r.toNat ≤ 0x7F then
    if 0x61 ≤ r.toNat ∧ r.toNat ≤ 0x7A then Char.ofNat (r.toNat - 0x20) else r
  else upper r

/-- The function `strings.ToUpper`: every character mapped by
`unicode.ToUpper`. -/
def ToUpper (upper : Char → Char) (s : String) : String :=
  String.mk (s.data.map (unicodeToUpper upper))

/-- The case tables of Unicode for ASCII text, which `strings.ToUpper` does not
consult there. -/
def asciiUpper : Char → Char := fun r => r

/-- The function `strings.HasSuffix`. -/
def HasSuffix (s suffix : String) : Bool :=
  suffix.data.isSuffixOf s.data

/-- The first byte of the UTF-8 encoding of a character. -/
def utf8FirstByte (c : Char) : Nat :=
  if c.toNat < 0x80 then c.toNat
  else if c.toNat < 0x800 then 0xC0 + c.toNat / 0x40
  else if c.toNat < 0x10000 then 0xE0 + c.toNat / 0x1000
  else 0xF0 + c.toNat / 0x40000

/-- The expression `s[0]`, the first byte of a string; it panics on the empty
string. -/
def firstByte (s : String) : Option Nat :=
  s.data.head?.map utf8FirstByte

/-- The method `(*ast.Type).Name`: the name of a named type, the name of the
innermost element of a list type. On a type without a name and without an
element, which the parser does not build, the method reads through the nil
`Elem` and panics. -/
def AstType.Name : AstType → Option String
  | .named n _ => if n ≠ "" then some n else none
  | .list e _ => e.Name

/-- The method `(*ast.Definition).IsCompositeType`. -/
def Definition.IsCompositeType (d : Definition) : Bool :=
  d.Kind = .Object || d.Kind = .Interface || d.Kind = .Union

/-- The call `camelCaseRegex.MatchString(s)` for the pattern
`^[a-z][a-zA-Z0-9]*$`: a lower-case ASCII letter followed by ASCII letters and
digits only. -/
def camelCaseMatch (s : String) : Bool :=
  match s.data with
  | [] => false
  | c :: rest =>
    (0x61 ≤ c.toNat && c.toNat ≤ 0x7A) &&
    rest.all fun r =>
      (0x61 ≤ r.toNat && r.toNat ≤ 0x7A) || (0x41 ≤ r.toNat && r.toNat ≤ 0x5A) ||
        (0x30 ≤ r.toNat && r.toNat ≤ 0x39)

/-- The function `TypesHaveDescription`. -/
def TypesHaveDescription (schema : SchemaDocument) : Option (List LintErrorWithMetadata) :=
  appendEach schema.Definitions fun definition =>
    if definition.Description.length = 0 then
      lintErrorAt typeDesc definition.Position fun _ =>
        "type " ++ definition.Name ++ " does not have description"
    else some []

/-- The loops over the fields and their arguments in
`ArgumentsHaveDescription`, for one definition or extension. -/
def ArgumentsHaveDescriptionBody (definition : Definition) :
    Option (List LintErrorWithMetadata) :=
  if definition.IsCompositeType then
    appendEach definition.Fields fun field =>
      appendEach field.Arguments fun argument =>
        if argument.Description.length = 0 then
          lintErrorAt argsDesc argument.Position fun _ =>
            "argument " ++ definition.Name ++ "." ++ field.Name ++ "." ++ argument.Name ++
              " does not have description"
        else some []
  else some []

/-- The function `ArgumentsHaveDescription`. -/
def ArgumentsHaveDescription (schema : SchemaDocument) : Option (List LintErrorWithMetadata) :=
  appendBoth (appendEach schema.Definitions ArgumentsHaveDescriptionBody)
    (appendEach schema.Extensions ArgumentsHaveDescriptionBody)

/-- The loop over the fields in `FieldsHaveDescription`, for one definition or
extension. -/
def FieldsHaveDescriptionBody (definition : Definition) : Option (List LintErrorWithMetadata) :=
  appendEach definition.Fields fun fieldDefinition =>
    if fieldDefinition.Description.length = 0 then
      lintErrorAt fieldDesc fieldDefinition.TypePosition fun _ =>
        "field " ++ definition.Name ++ "." ++ fieldDefinition.Name ++
          " does not have description"
    else some []

/-- The function `FieldsHaveDescription`. -/
def FieldsHaveDescription (schema : SchemaDocument) : Option (List LintErrorWithMetadata) :=
  appendBoth (appendEach schema.Definitions FieldsHaveDescriptionBody)
    (appendEach schema.Extensions FieldsHaveDescriptionBody)

/-- The loop over the values of an enum in `EnumValuesAreAllCaps`, for one
definition or extension; `extended` is the word the message of an extension
starts with. -/
def EnumValuesAreAllCapsBody (upper : Char → Char) (extended : String)
    (definition : Definition) : Option (List LintErrorWithMetadata) :=
  if definition.Kind = .Enum then
    appendEach definition.EnumValues fun enumValue =>
      if ToUpper upper enumValue.Name ≠ enumValue.Name then
        lintErrorAt enumCaps enumValue.Position fun _ =>
          extended ++ "enum value " ++ definition.Name ++ "." ++ enumValue.Name ++
            " is not uppercase"
      else some []
  else some []

/-- The function `EnumValuesAreAllCaps`. -/
def EnumValuesAreAllCaps (upper : Char → Char) (schema : SchemaDocument) :
    Option (List LintErrorWithMetadata) :=
  appendBoth (appendEach schema.Definitions (EnumValuesAreAllCapsBody upper ""))
    (appendEach schema.Extensions (EnumValuesAreAllCapsBody upper "extended "))

/-- The loop over the values of an enum in `EnumValuesHaveDescriptions`. -/
def EnumValuesHaveDescriptionsBody (extended : String) (typeDefinition : Definition) :
    Option (List LintErrorWithMetadata) :=
  if typeDefinition.Kind = .Enum then
    appendEach typeDefinition.EnumValues fun enumValue =>
      if enumValue.Description.length = 0 then
        lintErrorAt enumDesc enumValue.Position fun _ =>
          extended ++ "enum value " ++ typeDefinition.Name ++ "." ++ enumValue.Name ++
            " does not have description"
      else some []
  else some []

/-- The function `EnumValuesHaveDescriptions`. For a definition it looks at the
first definition of that name, `schema.Definitions.ForName(definition.Name)`. -/
def EnumValuesHaveDescriptions (schema : SchemaDocument) :
    Option (List LintErrorWithMetadata) :=
  appendBoth
    (appendEach schema.Definitions fun definition =>
      match DefinitionList.ForName schema.Definitions definition.Name with
      | none => none
      | some typeDefinition => EnumValuesHaveDescriptionsBody "" typeDefinition)
    (appendEach schema.Extensions (EnumValuesHaveDescriptionsBody "extended "))

/-- The loop over the fields in `FieldsAreCamelCased`, for one definition or
extension. -/
def FieldsAreCamelCasedBody (definition : Definition) : Option (List LintErrorWithMetadata) :=
  appendEach definition.Fields fun fieldDefinition =>
    if !camelCaseMatch fieldDefinition.Name then
      lintErrorAt fieldCamel fieldDefinition.TypePosition fun _ =>
        "field " ++ definition.Name ++ "." ++ fieldDefinition.Name ++ " is not camelcased"
    else some []

/-- The function `FieldsAreCamelCased`. -/
def FieldsAreCamelCased (schema : SchemaDocument) : Option (List LintErrorWithMetadata) :=
  appendBoth (appendEach schema.Definitions FieldsAreCamelCasedBody)
    (appendEach schema.Extensions FieldsAreCamelCasedBody)

/-- The body of the two loops of `TypesAreCapitalized`, for one definition or
extension: the test `Name[0] > 97 && Name[0] <= 122` on the first byte of the
name. -/
def TypesAreCapitalizedBody (extended : String) (typeDefinition : Definition) :
    Option (List LintErrorWithMetadata) :=
  match firstByte typeDefinition.Name with
  | none => none
  | some b =>
    if b > 97 ∧ b ≤ 122 then
      lintErrorAt typeCaps typeDefinition.Position fun _ =>
        extended ++ "type " ++ typeDefinition.Name ++ " is not capitalized"
    else some []

/-- The function `TypesAreCapitalized`. -/
def TypesAreCapitalized (schema : SchemaDocument) : Option (List LintErrorWithMetadata) :=
  appendBoth (appendEach schema.Definitions (TypesAreCapitalizedBody ""))
    (appendEach schema.Extensions (TypesAreCapitalizedBody "extended "))

/-- The function `isFieldListType`. -/
def isFieldListType (fieldDefinition : FieldDefinition) : Bool :=
  fieldDefinition.Type_.NamedType == "" && fieldDefinition.Type_.Elem.isSome

/-- The function `isArgListType`. -/
def isArgListType (fieldArgument : ArgumentDefinition) : Bool :=
  fieldArgument.Type_.NamedType == "" && fieldArgument.Type_.Elem.isSome

/-- The text `%d:%d` of a position in the message of a finding. -/
def lineColumn (p : Position) : String :=
  toString p.Line ++ ":" ++ toString p.Column

/-- The condition `cond || typ.Name() != name`: the method is called, and may
panic, when `cond` is false. -/
def orNameIsNot (cond : Bool) (typ : AstType) (name : String) : Option Bool :=
  if cond then some true else typ.Name.map fun n => n != name

/-- The check of a field named `edges` in `RelayConnectionTypesSpec`. -/
def edgesFieldCheck (typeDefinition : Definition) (fieldDefinition : FieldDefinition) :
    Option (List LintErrorWithMetadata) :=
  if !isFieldListType fieldDefinition then
    lintErrorAt relayConnType fieldDefinition.TypePosition fun p =>
      lineColumn p ++ " edges field from Connection type " ++ typeDefinition.Name ++
        " needs to return a list type"
  else some []

/-- The check of a field named `pageInfo` in `RelayConnectionTypesSpec`. -/
def pageInfoFieldCheck (typeDefinition : Definition) (fieldDefinition : FieldDefinition) :
    Option (List LintErrorWithMetadata) :=
  match fieldDefinition.Type_.Name with
  | none => none
  | some name =>
    if name ≠ "PageInfo" ∨ fieldDefinition.Type_.NonNull = false ∨
        isFieldListType fieldDefinition = true then
      lintErrorAt relayConnType fieldDefinition.TypePosition fun p =>
        lineColumn p ++ " pageInfo field from Connection type " ++
          typeDefinition.Name ++ " needs to return a non-null PageInfo object"
    else some []

/-- The findings of one iteration of a loop put before what the rest of the
loop returns: its findings and its flags. -/
def prependErrors (errors : Option (List LintErrorWithMetadata))
    (rest : Option (List LintErrorWithMetadata × Bool × Bool)) :
    Option (List LintErrorWithMetadata × Bool × Bool) :=
  match errors, rest with
  | some errors, some (more, foundEdges, foundPageInfo) =>
    some (errors ++ more, foundEdges, foundPageInfo)
  | _, _ => none

/-- The loop over the fields of a connection type in
`RelayConnectionTypesSpec`, with the flags `foundEdgesField` and
`foundPageInfoField`: the findings it appends and the flags when it ends. -/
def connectionFieldsLoop (typeDefinition : Definition) :
    List FieldDefinition → Bool → Bool → Option (List LintErrorWithMetadata × Bool × Bool)
  | [], foundEdgesField, foundPageInfoField => some ([], foundEdgesField, foundPageInfoField)
  | fieldDefinition :: rest, foundEdgesField, foundPageInfoField =>
    if fieldDefinition.Name = "edges" then
      prependErrors (edgesFieldCheck typeDefinition fieldDefinition)
        (connectionFieldsLoop typeDefinition rest true foundPageInfoField)
    else if fieldDefinition.Name = "pageInfo" then
      prependErrors (pageInfoFieldCheck typeDefinition fieldDefinition)
        (connectionFieldsLoop typeDefinition rest foundEdgesField true)
    else connectionFieldsLoop typeDefinition rest foundEdgesField foundPageInfoField

/-- The body of the loop of `RelayConnectionTypesSpec`, for one type
definition. -/
def RelayConnectionTypesSpecBody (typeDefinition : Definition) :
    Option (List LintErrorWithMetadata) :=
  if HasSuffix typeDefinition.Name "Connection" then
    if typeDefinition.Kind ≠ .Object then
      lintErrorAt relayConnType typeDefinition.Position fun p =>
        lineColumn p ++ " type " ++ typeDefinition.Name ++
          " cannot end with Connection as that is reserved for entities"
    else
      match connectionFieldsLoop typeDefinition typeDefinition.Fields false false with
      | none => none
      | some (errors, foundEdgesField, foundPageInfoField) =>
        appendBoth (some errors)
          (appendBoth
            (if !foundEdgesField then
              lintErrorAt relayConnType typeDefinition.Position fun p =>
                lineColumn p ++ " type " ++ typeDefinition.Name ++
                  " is a Connection type and therefore needs to have a field named 'edges' that returns a list type"
            else some [])
            (if !foundPageInfoField then
              lintErrorAt relayConnType typeDefinition.Position fun p =>
                lineColumn p ++ " type " ++ typeDefinition.Name ++
                  " is a Connection type and therefore needs to have a field named 'pageInfo' that returns a non-null PageInfo object"
            else some []))
  else some []

/-- The function `RelayConnectionTypesSpec`. -/
def RelayConnectionTypesSpec (schema : SchemaDocument) : Option (List LintErrorWithMetadata) :=
  appendEach schema.Definitions RelayConnectionTypesSpecBody

/-- The four variables `firstArgument`, `afterArgument`, `lastArgument` and
`beforeArgument` of `RelayConnectionArgumentsSpec`, nil or an argument. -/
structure PaginationArguments where
  firstArgument : Option ArgumentDefinition
  afterArgument : Option ArgumentDefinition
  lastArgument : Option ArgumentDefinition
  beforeArgument : Option ArgumentDefinition
deriving DecidableEq

/-- The loop over the arguments of a field in `RelayConnectionArgumentsSpec`:
the switch on the name of the argument assigns one of the four variables. -/
def paginationArgumentsLoop : List ArgumentDefinition → PaginationArguments →
    PaginationArguments
  | [], found => found
  | argumentDefinition :: rest, found =>
    if argumentDefinition.Name = "first" then
      paginationArgumentsLoop rest { found with firstArgument := some argumentDefinition }
    else if argumentDefinition.Name = "after" then
      paginationArgumentsLoop rest { found with afterArgument := some argumentDefinition }
    else if argumentDefinition.Name = "last" then
      paginationArgumentsLoop rest { found with lastArgument := some argumentDefinition }
    else if argumentDefinition.Name = "before" then
      paginationArgumentsLoop rest { found with beforeArgument := some argumentDefinition }
    else paginationArgumentsLoop rest found

/-- An `if` whose condition may panic: the finding is appended when the
condition holds. -/
def findingIf (cond : Option Bool) (finding : Option (List LintErrorWithMetadata)) :
    Option (List LintErrorWithMetadata) :=
  match cond with
  | none => none
  | some true => finding
  | some false => some []

/-- The check of the argument `first` in `RelayConnectionArgumentsSpec`. -/
def checkFirstArgument (fieldDefinition : FieldDefinition) (hasBackwardPagination : Bool)
    (firstArgument : ArgumentDefinition) : Option (List LintErrorWithMetadata) :=
  if hasBackwardPagination then
    findingIf
      (orNameIsNot (firstArgument.Type_.NamedType == "" || firstArgument.Type_.NonNull)
        firstArgument.Type_ "Int")
      (lintErrorAt relayConnArgs firstArgument.Position fun p =>
        lineColumn p ++ " field " ++ fieldDefinition.Name ++
          " is returns a Connection type that has both forward and backward pagination and therefore `first` argument should take a nullable non-negative integer as per the Relay spec")
  else
    findingIf (orNameIsNot (isArgListType firstArgument) firstArgument.Type_ "Int")
      (lintErrorAt relayConnArgs firstArgument.Position fun p =>
        lineColumn p ++ " field " ++ fieldDefinition.Name ++
          " is returns a Connection type and has forward pagination and therefore `first` argument should take a non-negative integer as per the Relay spec")

/-- The check of the argument `last` in `RelayConnectionArgumentsSpec`. -/
def checkLastArgument (fieldDefinition : FieldDefinition) (hasForwardPagination : Bool)
    (lastArgument : ArgumentDefinition) : Option (List LintErrorWithMetadata) :=
  if hasForwardPagination then
    findingIf
      (orNameIsNot (isArgListType lastArgument || lastArgument.Type_.NonNull)
        lastArgument.Type_ "Int")
      (lintErrorAt relayConnArgs lastArgument.Position fun p =>
        lineColumn p ++ " field " ++ fieldDefinition.Name ++
          " is returns a Connection type that has both forward and backward pagination and therefore `last` argument should take a nullable non-negative integer as per the Relay spec")
  else
    findingIf (orNameIsNot (isArgListType lastArgument) lastArgument.Type_ "Int")
      (lintErrorAt relayConnArgs lastArgument.Position fun p =>
        lineColumn p ++ " field " ++ fieldDefinition.Name ++
          " is returns a Connection type and has backward pagination and therefore `last` argument should take a non-negative integer as per the Relay spec")

/-- The body of the loop over the fields in `RelayConnectionArgumentsSpec`, for
one field. -/
def RelayConnectionArgumentsSpecBody (fieldDefinition : FieldDefinition) :
    Option (List LintErrorWithMetadata) :=
  match fieldDefinition.Type_.Name with
  | none => none
  | some name =>
    if HasSuffix name "Connection" then
      let found := paginationArgumentsLoop fieldDefinition.Arguments ⟨none, none, none, none⟩
      let hasForwardPagination := found.firstArgument.isSome && found.afterArgument.isSome
      let hasBackwardPagination := found.lastArgument.isSome && found.beforeArgument.isSome
      appendBoth
        (if !hasForwardPagination && !hasBackwardPagination then
          lintErrorAt relayConnArgs fieldDefinition.TypePosition fun p =>
            lineColumn p ++ " field " ++ fieldDefinition.Name ++
              " returns a Connection type and therefore must include forward pagination arguments (`first` and `after`) and/or backward pagination arguments (`last` and `before`) as per the Relay spec"
        else some [])
        (appendBoth
          (match found.firstArgument with
            | some firstArgument =>
              checkFirstArgument fieldDefinition hasBackwardPagination firstArgument
            | none => some [])
          (match found.lastArgument with
            | some lastArgument =>
              checkLastArgument fieldDefinition hasForwardPagination lastArgument
            | none => some []))
    else some []

/-- The function `RelayConnectionArgumentsSpec`. -/
def RelayConnectionArgumentsSpec (schema : SchemaDocument) :
    Option (List LintErrorWithMetadata) :=
  appendEach schema.Definitions fun typeDefinition =>
    appendEach typeDefinition.Fields RelayConnectionArgumentsSpecBody

/-- The call of a rule function on a schema. -/
def LintRuleFunc.run (upper : Char → Char) (rule : LintRuleFunc) (schema : SchemaDocument) :
    Option (List LintErrorWithMetadata) :=
  match rule with
  | .TypesHaveDescription => Gql.TypesHaveDescription schema
  | .ArgumentsHaveDescription => Gql.ArgumentsHaveDescription schema
  | .FieldsHaveDescription => Gql.FieldsHaveDescription schema
  | .EnumValuesAreAllCaps => Gql.EnumValuesAreAllCaps upper schema
  | .EnumValuesHaveDescriptions => Gql.EnumValuesHaveDescriptions schema
  | .FieldsAreCamelCased => Gql.FieldsAreCamelCased schema
  | .TypesAreCapitalized => Gql.TypesAreCapitalized schema
  | .RelayConnectionTypesSpec => Gql.RelayConnectionTypesSpec schema
  | .RelayConnectionArgumentsSpec => Gql.RelayConnectionArgumentsSpec schema

/-! ## Example schemas of the linter -/

/-- A position in `schema.graphql`. -/
def lintPos (line column : Nat) : Option Position :=
  some { SrcName := "schema.graphql", Line := line, Column := column }

/-- The definition, or extension, `type name { name: String! }` of
`TestTypesAreCapitalized`, on line 1. -/
def lintType (name description : String) : Definition :=
  { Kind := .Object, Description := description, Name := name, Directives := [],
    Interfaces := [],
    Fields :=
      [{ Description := "", Name := "name", Arguments := [], DefaultValue := none,
         Type_ := .named "String" true, Directives := [], Position := lintPos 2 3,
         TypePosition := lintPos 2 9 }],
    Types := [], EnumValues := [], Position := lintPos 1 6 }

/-- An enum value on line 1. -/
def lintEnumValue (name : String) (column : Nat) : EnumValueDefinition :=
  { Description := "", Name := name, Directives := [], Position := lintPos 1 column }

/-- The definition, or extension, `enum color { RED, Blue, green }` of
`TestEnumValuesAreAllCaps`. -/
def colorEnum : Definition :=
  { Kind := .Enum, Description := "", Name := "color", Directives := [], Interfaces := [],
    Fields := [], Types := [],
    EnumValues := [lintEnumValue "RED" 14, lintEnumValue "Blue" 19, lintEnumValue "green" 25],
    Position := lintPos 1 6 }

/-- An argument `name: type` on line 2. -/
def lintArgument (name : String) (type : AstType) (column : Nat) : ArgumentDefinition :=
  { Description := "", Name := name, DefaultValue := none, Type_ := type, Directives := [],
    Position := lintPos 2 column }

/-- The field `result(arguments): UserConnection` on line 2. -/
def resultField (arguments : List ArgumentDefinition) : FieldDefinition :=
  { Description := "", Name := "result", Arguments := arguments, DefaultValue := none,
    Type_ := .named "UserConnection" false, Directives := [], Position := lintPos 2 3,
    TypePosition := lintPos 2 70 }

/-- The schema `type User { result(arguments): UserConnection }` of
`TestRelayConnectionArgumentsSpec`. -/
def resultSchema (arguments : List ArgumentDefinition) : SchemaDocument :=
  exampleDocument
    [{ Kind := .Object, Description := "", Name := "User", Directives := [], Interfaces := [],
       Fields := [resultField arguments], Types := [], EnumValues := [],
       Position := lintPos 1 6 }]
    []

/-- A field `name: type` of a connection type, on the given line. -/
def connectionField (name : String) (type : AstType) (line : Nat) : FieldDefinition :=
  { Description := "", Name := name, Arguments := [], DefaultValue := none, Type_ := type,
    Directives := [], Position := lintPos line 3, TypePosition := lintPos line 13 }

/-- The definition `kind UserConnection { fields }` of
`TestRelayConnectionTypesSpec`. -/
def userConnection (kind : DefinitionKind) (fields : List FieldDefinition) : Definition :=
  { Kind := kind, Description := "", Name := "UserConnection", Directives := [],
    Interfaces := [], Fields := fields, Types := [], EnumValues := [],
    Position := lintPos 1 6 }

/-! ## Notions of the specification for the rules -/

/-- The enum values of a list of definitions or extensions whose name differs
from its upper-cased form, in order. -/
def notUpperCase (upper : Char → Char) (definitions : List Definition) :
    List EnumValueDefinition :=
  (definitions.filter fun d => d.Kind = .Enum).flatMap fun d =>
    d.EnumValues.filter fun v => ToUpper upper v.Name ≠ v.Name

/-- The line and the column of a finding. -/
def LintErrorWithMetadata.at (e : LintErrorWithMetadata) : Option Nat × Option Nat :=
  (some e.Line, some e.Column)

/-- The line and the column of a position that may be nil. -/
def lineAndColumn (position : Option Position) : Option Nat × Option Nat :=
  (position.map fun p => p.Line, position.map fun p => p.Column)

/-! ## Notions of the specification for the rule `relay-conn-args` -/

/-- The argument of a field that has the given name, the last one when
several have it: the argument the switch of `RelayConnectionArgumentsSpec`
keeps. -/
def lastNamed (arguments : List ArgumentDefinition) (name : String) :
    Option ArgumentDefinition :=
  (arguments.filter fun a => a.Name = name).getLast?

/-- A type expression is a named `Int`, of either nullability, not a list. -/
def isNamedInt (t : AstType) : Bool :=
  t = .named "Int" false || t = .named "Int" true

/-- A type expression is a nullable named `Int`. -/
def isNullableNamedInt (t : AstType) : Bool :=
  t = .named "Int" false

/-- A field has forward arguments: both `first` and `after`. -/
def hasForward (f : FieldDefinition) : Bool :=
  (lastNamed f.Arguments "first").isSome && (lastNamed f.Arguments "after").isSome

/-- A field has backward arguments: both `last` and `before`. -/
def hasBackward (f : FieldDefinition) : Bool :=
  (lastNamed f.Arguments "last").isSome && (lastNamed f.Arguments "before").isSome

/-- The acceptance condition of the specification for a field that returns a
connection: forward or backward arguments; with forward arguments only, `first`
is a named `Int`; with backward arguments only, `last` is a named `Int`; with
both, `first` and `last` are each a nullable named `Int`. -/
def relayArgumentsClaimed (f : FieldDefinition) : Bool :=
  (hasForward f || hasBackward f) &&
  (!(hasForward f && !hasBackward f) ||
    (lastNamed f.Arguments "first").all fun a => isNamedInt a.Type_) &&
  (!(hasBackward f && !hasForward f) ||
    (lastNamed f.Arguments "last").all fun a => isNamedInt a.Type_) &&
  (!(hasForward f && hasBackward f) ||
    ((lastNamed f.Arguments "first").all fun a => isNullableNamedInt a.Type_) &&
    ((lastNamed f.Arguments "last").all fun a => isNullableNamedInt a.Type_))

/-- The acceptance condition of the code: forward or backward arguments; an
argument `first`, when there is one, is a named `Int`, nullable when the field
has backward arguments; an argument `last`, when there is one, is a named `Int`,
nullable when the field has forward arguments. -/
def relayArgumentsAccepted (f : FieldDefinition) : Bool :=
  (hasForward f || hasBackward f) &&
  ((lastNamed f.Arguments "first").all fun a =>
    if hasBackward f then isNullableNamedInt a.Type_ else isNamedInt a.Type_) &&
  ((lastNamed f.Arguments "last").all fun a =>
    if hasForward f then isNullableNamedInt a.Type_ else isNamedInt a.Type_)

/-- The arguments `first` and `last` of a field come with their partner: no
`first` without `after`, no `last` without `before`. -/
def argumentsPaired (f : FieldDefinition) : Bool :=
  (!(lastNamed f.Arguments "first").isSome || (lastNamed f.Arguments "after").isSome) &&
  (!(lastNamed f.Arguments "last").isSome || (lastNamed f.Arguments "before").isSome)

/-- The arguments `first: Int!, after: String, last: Int, before: String` of
the tests. -/
def bothDirections : List ArgumentDefinition :=
  [lintArgument "first" (.named "Int" true) 10, lintArgument "after" (.named "String" false) 23,
   lintArgument "last" (.named "Int" false) 38, lintArgument "before" (.named "String" false) 49]

/-- The arguments `first: Int!, last: Int, before: String`: backward
arguments and a `first` without `after`. -/
def backwardWithFirst : List ArgumentDefinition :=
  [lintArgument "first" (.named "Int" true) 10, lintArgument "last" (.named "Int" false) 23,
   lintArgument "before" (.named "String" false) 34]

/-! ## Theorems: type compatibility -/

theorem isListType_named (n : String) (nn : Bool) : isListType (.named n nn) = false := rfl

theorem isListType_list (e : AstType) (nn : Bool) : isListType (.list e nn) = true := rfl

theorem isSafeChangeForFieldType_named_named (a b : String) (x y : Bool) :
    isSafeChangeForFieldType (.named a x) (.named b y) =
      if x = false ∧ y = false then a == b
      else if y = false ∧ x = true then false
      else if y = true then a == b
      else false := by
  cases x <;> cases y <;>
    simp [isSafeChangeForFieldType, isWrappingType, isListType, isNonNullType, AstType.Elem,
      AstType.NamedType, AstType.NonNull, typeString]

theorem isSafeChangeForFieldType_list_list (a b : AstType) (x y : Bool) :
    isSafeChangeForFieldType (.list a x) (.list b y) =
      if x = true ∧ y = false then false else isSafeChangeForFieldType a b := by
  cases x <;> cases y <;>
    simp [isSafeChangeForFieldType, isWrappingType, isListType, isNonNullType, AstType.Elem,
      AstType.NamedType, AstType.NonNull]

theorem isSafeChangeForFieldType_named_list (a : String) (b : AstType) (x y : Bool) :
    isSafeChangeForFieldType (.named a x) (.list b y) = false := by
  cases x <;> cases y <;>
    simp [isSafeChangeForFieldType, isWrappingType, isListType, isNonNullType, AstType.Elem,
      AstType.NamedType, AstType.NonNull]

theorem isSafeChangeForFieldType_list_named (a : AstType) (b : String) (x y : Bool) :
    isSafeChangeForFieldType (.list a x) (.named b y) =
      if y = true then "" == b else false := by
  cases x <;> cases y <;>
    simp [isSafeChangeForFieldType, isWrappingType, isListType, isNonNullType, AstType.Elem,
      AstType.NamedType, AstType.NonNull]

theorem isSafeChangeForInputValue_named_named (a b : String) (x y : Bool) :
    isSafeChangeForInputValue (.named a x) (.named b y) =
      if x = false ∧ y = false then a == b
      else if x = false ∧ y = true then false
      else if x = true then a == b
      else false := by
  cases x <;> cases y <;>
    simp [isSafeChangeForInputValue, isWrappingType, isListType, isNonNullType, AstType.Elem,
      AstType.NamedType, AstType.NonNull, typeString]

theorem isSafeChangeForInputValue_list_list (a b : AstType) (x y : Bool) :
    isSafeChangeForInputValue (.list a x) (.list b y) =
      if x = false ∧ y = true then false else isSafeChangeForInputValue a b := by
  cases x <;> cases y <;>
    simp [isSafeChangeForInputValue, isWrappingType, isListType, isNonNullType, AstType.Elem,
      AstType.NamedType, AstType.NonNull]

theorem isSafeChangeForInputValue_list_named (a : AstType) (b : String) (x y : Bool) :
    isSafeChangeForInputValue (.list a x) (.named b y) = false := by
  cases x <;> cases y <;>
    simp [isSafeChangeForInputValue, isWrappingType, isListType, isNonNullType, AstType.Elem,
      AstType.NamedType, AstType.NonNull]

theorem isSafeChangeForInputValue_named_list (a : String) (b : AstType) (x y : Bool) :
    isSafeChangeForInputValue (.named a x) (.list b y) =
      if x = true then a == "" else false := by
  cases x <;> cases y <;>
    simp [isSafeChangeForInputValue, isWrappingType, isListType, isNonNullType, AstType.Elem,
      AstType.NamedType, AstType.NonNull]

theorem isSafeChangeForFieldType_refl (t : AstType) : isSafeChangeForFieldType t t = true := by
  induction t with
  | named n nn => cases nn <;> simp [isSafeChangeForFieldType_named_named]
  | list e nn ih => cases nn <;> simp [isSafeChangeForFieldType_list_list, ih]

theorem isSafeChangeForInputValue_refl (t : AstType) : isSafeChangeForInputValue t t = true := by
  induction t with
  | named n nn => cases nn <;> simp [isSafeChangeForInputValue_named_named]
  | list e nn ih => cases nn <;> simp [isSafeChangeForInputValue_list_list, ih]

/-- C5 (counterexample): for the nullable type `String`, the change of a field
type from `String!` to `String` is not output-safe. -/
theorem nonNull_to_nullable_String_unsafe :
    isSafeChangeForFieldType (AstType.nonNullOf (.named "String" false)) (.named "String" false)
      = false := by
  decide

/-- C5 (amended): for every nullable type expression `t`, named or list,
`isSafeChangeForFieldType (NonNull(t), t)` is false. -/
theorem isSafeChangeForFieldType_nonNullOf_nullable (t : AstType) (h : t.NonNull = false) :
    isSafeChangeForFieldType (AstType.nonNullOf t) t = false := by
  cases t with
  | named n nn =>
    simp only [AstType.NonNull] at h
    subst h
    simp [AstType.nonNullOf, isSafeChangeForFieldType_named_named]
  | list e nn =>
    simp only [AstType.NonNull] at h
    subst h
    simp [AstType.nonNullOf, isSafeChangeForFieldType_list_list]

/-- C5 (witness): the amended statement at the nullable list type `[[Int]]`. -/
theorem isSafeChangeForFieldType_nonNullOf_nullable_witness :
    (AstType.list (.list (.named "Int" false) false) false).NonNull = false ∧
    isSafeChangeForFieldType
      (AstType.nonNullOf (.list (.list (.named "Int" false) false) false))
      (.list (.list (.named "Int" false) false) false) = false :=
  ⟨rfl, isSafeChangeForFieldType_nonNullOf_nullable _ rfl⟩

/-- C7: both compatibility predicates are reflexive: for every type expression
`t`, of any nullability and nesting depth, `isSafeChangeForFieldType t t` and
`isSafeChangeForInputValue t t` are true. -/
theorem isSafeChange_reflexive (t : AstType) :
    isSafeChangeForFieldType t t = true ∧ isSafeChangeForInputValue t t = true :=
  ⟨isSafeChangeForFieldType_refl t, isSafeChangeForInputValue_refl t⟩

/-- C8: the two predicates are mirror images: for all type expressions `a` and
`b`, `isSafeChangeForFieldType a b` equals `isSafeChangeForInputValue b a`. -/
theorem isSafeChangeForFieldType_eq_isSafeChangeForInputValue_swap (a b : AstType) :
    isSafeChangeForFieldType a b = isSafeChangeForInputValue b a := by
  induction a generalizing b with
  | named n x =>
    cases b with
    | named m y =>
      cases x <;> cases y <;>
        simp [isSafeChangeForFieldType_named_named, isSafeChangeForInputValue_named_named,
          Bool.beq_comm, eq_comm]
    | list e y =>
      cases x <;> cases y <;>
        simp [isSafeChangeForFieldType_named_list, isSafeChangeForInputValue_list_named]
  | list e x ih =>
    cases b with
    | named m y =>
      cases x <;> cases y <;>
        simp [isSafeChangeForFieldType_list_named, isSafeChangeForInputValue_named_list,
          eq_comm]
    | list f y =>
      cases x <;> cases y <;>
        simp [isSafeChangeForFieldType_list_list, isSafeChangeForInputValue_list_list, ih]

/-- C9: output safety recurses through lists: for list types `List(a)` and
`List(b)` with any nullability flags other than old non-null and new nullable,
`isSafeChangeForFieldType` of the lists equals that of `a` and `b`, at every
nesting depth; and the change `[String!]` to `[String]` is unsafe. -/
theorem isSafeChangeForFieldType_through_lists (a b : AstType) (oNonNull nNonNull : Bool)
    (h : ¬ (oNonNull = true ∧ nNonNull = false)) :
    isSafeChangeForFieldType (.list a oNonNull) (.list b nNonNull) =
      isSafeChangeForFieldType a b ∧
    isSafeChangeForFieldType (.list (.named "String" true) false)
      (.list (.named "String" false) false) = false := by
  refine ⟨?_, by decide⟩
  rw [isSafeChangeForFieldType_list_list, if_neg h]

/-- C9 (witness): the nested lists `[[Int]!]` and `[[Int!]!]!`. -/
theorem isSafeChangeForFieldType_through_lists_witness :
    ¬ (false = true ∧ true = false) ∧
    isSafeChangeForFieldType (.list (.list (.named "Int" false) true) false)
      (.list (.list (.named "Int" true) true) true) =
      isSafeChangeForFieldType (.list (.named "Int" false) true)
        (.list (.named "Int" true) true) :=
  ⟨by decide,
    (isSafeChangeForFieldType_through_lists (.list (.named "Int" false) true)
      (.list (.named "Int" true) true) false true (by decide)).1⟩

/-! ## Theorems: type changes of fields, arguments and input fields -/

theorem typeString_getLast_nonNull (t : AstType) (h : t.NonNull = true) :
    (typeString t).data.getLast? = some '!' := by
  cases t with
  | named n nn =>
    simp only [AstType.NonNull] at h
    subst h
    simp [typeString, String.data_append]
  | list e nn =>
    simp only [AstType.NonNull] at h
    subst h
    have hl : ('[' :: ((typeString e).data ++ [']', '!'])) =
        ('[' :: (typeString e).data ++ [']']) ++ ['!'] := by simp
    simp only [typeString, String.data_append, if_true]
    show ('[' :: ((typeString e).data ++ [']'] ++ ['!'])).getLast? = some '!'
    rw [List.append_assoc]
    show ('[' :: ((typeString e).data ++ [']', '!'])).getLast? = some '!'
    rw [hl, List.getLast?_concat]

theorem typeString_getLast_nullable (t : AstType) (h : t.NonNull = false)
    (hname : '!' ∉ t.NamedType.data) : (typeString t).data.getLast? ≠ some '!' := by
  cases t with
  | named n nn =>
    simp only [AstType.NonNull] at h
    subst h
    simp only [AstType.NamedType] at hname
    intro hl
    apply hname
    have hd : (typeString (.named n false)).data = n.data := by
      simp [typeString, String.data_append]
    rw [hd] at hl
    exact List.mem_of_getLast?_eq_some hl
  | list e nn =>
    simp only [AstType.NonNull] at h
    subst h
    have hd : (typeString (.list e false)).data = ('[' :: (typeString e).data) ++ [']'] := by
      simp [typeString, String.data_append]
    rw [hd, List.getLast?_concat]
    decide

theorem typeString_ne_of_nonNull_of_nullable (o n : AstType) (ho : o.NonNull = true)
    (hn : n.NonNull = false) (hname : '!' ∉ n.NamedType.data) :
    typeString o ≠ typeString n := by
  intro h
  apply typeString_getLast_nullable n hn hname
  rw [← h]
  exact typeString_getLast_nonNull o ho

theorem isSafeChangeForFieldType_of_nonNull_of_nullable (o n : AstType) (ho : o.NonNull = true)
    (hn : n.NonNull = false) : isSafeChangeForFieldType o n = false := by
  cases o <;> cases n <;> simp only [AstType.NonNull] at ho hn <;> subst ho <;> subst hn <;>
    simp [isSafeChangeForFieldType_named_named, isSafeChangeForFieldType_list_list,
      isSafeChangeForFieldType_named_list, isSafeChangeForFieldType_list_named]

theorem checkFieldTypeChanged_subset_changeInFields (oDef nDef : Definition)
    (of nf : FieldDefinition) (hof : of ∈ oDef.Fields)
    (hnf : FieldList.ForName nDef.Fields of.Name = some nf) :
    ∀ c ∈ checkFieldTypeChanged oDef of nf, c ∈ changeInFields oDef nDef := by
  intro c hc
  unfold changeInFields
  refine List.mem_append_left _ (List.mem_flatMap.mpr ⟨of, hof, ?_⟩)
  simp only [hnf]
  simp only [List.append_assoc]
  exact List.mem_append_left _ hc

/-- C1: for a field `of` of the old version of a type whose name is found as
`nf` in the new version, `checkFieldTypeChanged` emits a `FieldTypeChanged`
change if and only if the printed types differ; what it emits is one such
change at most, of criticality Breaking when `isSafeChangeForFieldType` is
false and NonBreaking otherwise, and it is part of the result of
`changeInFields`. `String!` to `Int!` is unsafe and `String` to `String!` is
safe. -/
theorem checkFieldTypeChanged_spec (oDef nDef : Definition) (of nf : FieldDefinition)
    (hof : of ∈ oDef.Fields) (hnf : FieldList.ForName nDef.Fields of.Name = some nf) :
    ((∃ c ∈ checkFieldTypeChanged oDef of nf, c.changeType = .FieldTypeChanged) ↔
      typeString of.Type_ ≠ typeString nf.Type_) ∧
    (∀ c ∈ checkFieldTypeChanged oDef of nf,
      c.changeType = .FieldTypeChanged ∧
      c.criticalityLevel =
        if isSafeChangeForFieldType of.Type_ nf.Type_ = false then .Breaking
        else .NonBreaking) ∧
    (checkFieldTypeChanged oDef of nf).length ≤ 1 ∧
    (∀ c ∈ checkFieldTypeChanged oDef of nf, c ∈ changeInFields oDef nDef) ∧
    isSafeChangeForFieldType (.named "String" true) (.named "Int" true) = false ∧
    isSafeChangeForFieldType (.named "String" false) (.named "String" true) = true := by
  refine ⟨?_, ?_, ?_, checkFieldTypeChanged_subset_changeInFields oDef nDef of nf hof hnf,
    by decide, by decide⟩
  · by_cases h : typeString of.Type_ = typeString nf.Type_ <;> simp [checkFieldTypeChanged, h]
  · by_cases h : typeString of.Type_ = typeString nf.Type_
    · simp [checkFieldTypeChanged, h]
    · cases hs : isSafeChangeForFieldType of.Type_ nf.Type_ <;>
        simp [checkFieldTypeChanged, h, hs]
  · by_cases h : typeString of.Type_ = typeString nf.Type_ <;> simp [checkFieldTypeChanged, h]

/-- C1 (witness): in the test schema `type Employee { name: String! }` changed
to `name: Int!`, the comparison of the fields reports a Breaking
`FieldTypeChanged`. -/
theorem checkFieldTypeChanged_spec_witness :
    ∃ c ∈ changeInFields (employee (.named "String" true)) (employee (.named "Int" true)),
      c.changeType = .FieldTypeChanged ∧ c.criticalityLevel = .Breaking := by
  have h := checkFieldTypeChanged_spec (employee (.named "String" true))
    (employee (.named "Int" true)) (exampleField "name" (.named "String" true) 2)
    (exampleField "name" (.named "Int" true) 2) (by decide) (by decide)
  obtain ⟨c, hc, -⟩ := h.1.mpr (by decide)
  exact ⟨c, h.2.2.2.1 c hc, (h.2.1 c hc).1, by rw [(h.2.1 c hc).2]; decide⟩

/-- C6: when the old type of a field is non-null at the top level and the new
type is nullable at the top level, `isSafeChangeForFieldType` is false; and, the
name of a type holding no `!`, `checkFieldTypeChanged` reports the change as
one Breaking `FieldTypeChanged`. -/
theorem isSafeChangeForFieldType_required_to_optional (oDef : Definition)
    (of nf : FieldDefinition) (ho : of.Type_.NonNull = true) (hn : nf.Type_.NonNull = false) :
    isSafeChangeForFieldType of.Type_ nf.Type_ = false ∧
    ('!' ∉ nf.Type_.NamedType.data →
      ∃ c, checkFieldTypeChanged oDef of nf = [c] ∧ c.changeType = .FieldTypeChanged ∧
        c.criticalityLevel = .Breaking) := by
  have hs := isSafeChangeForFieldType_of_nonNull_of_nullable _ _ ho hn
  refine ⟨hs, fun hname => ?_⟩
  have hne := typeString_ne_of_nonNull_of_nullable _ _ ho hn hname
  simp [checkFieldTypeChanged, hne, hs]

/-- C6 (witness): the test `name: String!` changed to `name: String`. -/
theorem isSafeChangeForFieldType_required_to_optional_witness :
    isSafeChangeForFieldType (.named "String" true) (.named "String" false) = false ∧
    ∃ c, checkFieldTypeChanged (employee (.named "String" true))
        (exampleField "name" (.named "String" true) 2)
        (exampleField "name" (.named "String" false) 2) = [c] ∧
      c.changeType = .FieldTypeChanged ∧ c.criticalityLevel = .Breaking :=
  have h := isSafeChangeForFieldType_required_to_optional (employee (.named "String" true))
    (exampleField "name" (.named "String" true) 2)
    (exampleField "name" (.named "String" false) 2) rfl rfl
  ⟨h.1, h.2 (by decide)⟩

theorem checkFieldArgumentTypeChanged_spec (oArg nArg : ArgumentDefinition)
    (typeName fieldName : String) :
    ((∃ c ∈ checkFieldArgumentTypeChanged oArg nArg typeName fieldName,
        c.changeType = .FieldArgumentTypeChanged) ↔
      typeString oArg.Type_ ≠ typeString nArg.Type_) ∧
    (∀ c ∈ checkFieldArgumentTypeChanged oArg nArg typeName fieldName,
      c.changeType = .FieldArgumentTypeChanged ∧
      c.criticalityLevel =
        if isSafeChangeForInputValue oArg.Type_ nArg.Type_ = false then .Breaking
        else .NonBreaking) ∧
    (checkFieldArgumentTypeChanged oArg nArg typeName fieldName).length ≤ 1 := by
  by_cases h : typeString oArg.Type_ = typeString nArg.Type_
  · simp [checkFieldArgumentTypeChanged, h]
  · cases hs : isSafeChangeForInputValue oArg.Type_ nArg.Type_ <;>
      simp [checkFieldArgumentTypeChanged, h, hs]

theorem checkInputFieldTypeValueChanged_spec (oDef : Definition) (of nf : FieldDefinition) :
    ((∃ c ∈ checkInputFieldTypeValueChanged oDef of nf,
        c.changeType = .InputFieldTypeChanged) ↔
      typeString of.Type_ ≠ typeString nf.Type_) ∧
    (∀ c ∈ checkInputFieldTypeValueChanged oDef of nf,
      c.changeType = .InputFieldTypeChanged →
      c.criticalityLevel =
        if isSafeChangeForInputValue of.Type_ nf.Type_ = false then .Breaking
        else .NonBreaking) ∧
    ((checkInputFieldTypeValueChanged oDef of nf).filter
      (fun c => c.changeType = .InputFieldTypeChanged)).length ≤ 1 := by
  by_cases h : typeString of.Type_ = typeString nf.Type_ <;>
    by_cases hv : valueString of.DefaultValue = valueString nf.DefaultValue <;>
    cases hs : isSafeChangeForInputValue of.Type_ nf.Type_ <;>
    simp [checkInputFieldTypeValueChanged, h, hv, hs, List.filter_cons]

theorem checkDirectiveArgumentTypeChanged_spec (od : DirectiveDefinition)
    (oArg nArg : ArgumentDefinition) :
    ((∃ c ∈ checkDirectiveArgumentTypeChanged od oArg nArg,
        c.changeType = .DirectiveArgumentTypeChanged) ↔
      typeString oArg.Type_ ≠ typeString nArg.Type_) ∧
    (∀ c ∈ checkDirectiveArgumentTypeChanged od oArg nArg,
      c.changeType = .DirectiveArgumentTypeChanged →
      c.criticalityLevel =
        if isSafeChangeForInputValue oArg.Type_ nArg.Type_ = false then .Breaking
        else .NonBreaking) ∧
    ((checkDirectiveArgumentTypeChanged od oArg nArg).filter
      (fun c => c.changeType = .DirectiveArgumentTypeChanged)).length ≤ 1 := by
  by_cases h : typeString oArg.Type_ = typeString nArg.Type_ <;>
    by_cases hv : valueString oArg.DefaultValue = valueString nArg.DefaultValue <;>
    cases hs : isSafeChangeForInputValue oArg.Type_ nArg.Type_ <;>
    simp [checkDirectiveArgumentTypeChanged, h, hv, hs, List.filter_cons]

theorem checkFieldArgumentTypeChanged_subset_changeInArgument (oDef nDef : FieldDefinition)
    (typeName : String) (oArg nArg : ArgumentDefinition) (ho : oArg ∈ oDef.Arguments)
    (hn : ArgumentDefinitionList.ForName nDef.Arguments oArg.Name = some nArg) :
    ∀ c ∈ checkFieldArgumentTypeChanged oArg nArg typeName oDef.Name,
      c ∈ changeInArgument oDef nDef typeName := by
  intro c hc
  unfold changeInArgument
  refine List.mem_append_left _ (List.mem_flatMap.mpr ⟨oArg, ho, ?_⟩)
  simp only [hn, List.append_assoc]
  exact List.mem_append_left _ hc

theorem checkInputFieldTypeValueChanged_subset_changeInInputFields (oDef nDef : Definition)
    (of nf : FieldDefinition) (ho : of ∈ oDef.Fields)
    (hn : FieldList.ForName nDef.Fields of.Name = some nf) :
    ∀ c ∈ checkInputFieldTypeValueChanged oDef of nf, c ∈ changeInInputFields oDef nDef := by
  intro c hc
  unfold changeInInputFields
  refine List.mem_append_left _ (List.mem_flatMap.mpr ⟨of, ho, ?_⟩)
  simp only [hn, List.append_assoc]
  exact List.mem_append_left _ hc

theorem checkDirectiveArgumentTypeChanged_subset_changeInDirectiveArguments
    (od nd : DirectiveDefinition) (oArg nArg : ArgumentDefinition) (ho : oArg ∈ od.Arguments)
    (hn : ArgumentDefinitionList.ForName nd.Arguments oArg.Name = some nArg) :
    ∀ c ∈ checkDirectiveArgumentTypeChanged od oArg nArg,
      c ∈ changeInDirectiveArguments od nd := by
  intro c hc
  unfold changeInDirectiveArguments
  refine List.mem_flatMap.mpr ⟨oArg, ho, ?_⟩
  simp only [hn]
  exact List.mem_append_left _ hc

/-- C2: for a field argument, an input-object field and a directive-definition
argument found by name on both sides, the kind `FieldArgumentTypeChanged`,
`InputFieldTypeChanged` or `DirectiveArgumentTypeChanged` is emitted if and only
if the printed types differ, once at most, with criticality Breaking when
`isSafeChangeForInputValue` is false and NonBreaking otherwise, and it is part
of the result of `changeInArgument`, `changeInInputFields` or
`changeInDirectiveArguments`. `[String]!` to `[String]` is safe and `String` to
`String!` is unsafe. -/
theorem inputTypeChanged_spec :
    (∀ (oDef nDef : FieldDefinition) (typeName : String) (oArg nArg : ArgumentDefinition),
      oArg ∈ oDef.Arguments →
      ArgumentDefinitionList.ForName nDef.Arguments oArg.Name = some nArg →
      ((∃ c ∈ checkFieldArgumentTypeChanged oArg nArg typeName oDef.Name,
          c.changeType = .FieldArgumentTypeChanged) ↔
        typeString oArg.Type_ ≠ typeString nArg.Type_) ∧
      (∀ c ∈ checkFieldArgumentTypeChanged oArg nArg typeName oDef.Name,
        c.changeType = .FieldArgumentTypeChanged ∧
        c.criticalityLevel =
          if isSafeChangeForInputValue oArg.Type_ nArg.Type_ = false then .Breaking
          else .NonBreaking) ∧
      (checkFieldArgumentTypeChanged oArg nArg typeName oDef.Name).length ≤ 1 ∧
      (∀ c ∈ checkFieldArgumentTypeChanged oArg nArg typeName oDef.Name,
        c ∈ changeInArgument oDef nDef typeName)) ∧
    (∀ (oDef nDef : Definition) (of nf : FieldDefinition),
      of ∈ oDef.Fields →
      FieldList.ForName nDef.Fields of.Name = some nf →
      ((∃ c ∈ checkInputFieldTypeValueChanged oDef of nf,
          c.changeType = .InputFieldTypeChanged) ↔
        typeString of.Type_ ≠ typeString nf.Type_) ∧
      (∀ c ∈ checkInputFieldTypeValueChanged oDef of nf,
        c.changeType = .InputFieldTypeChanged →
        c.criticalityLevel =
          if isSafeChangeForInputValue of.Type_ nf.Type_ = false then .Breaking
          else .NonBreaking) ∧
      ((checkInputFieldTypeValueChanged oDef of nf).filter
        (fun c => c.changeType = .InputFieldTypeChanged)).length ≤ 1 ∧
      (∀ c ∈ checkInputFieldTypeValueChanged oDef of nf, c ∈ changeInInputFields oDef nDef)) ∧
    (∀ (od nd : DirectiveDefinition) (oArg nArg : ArgumentDefinition),
      oArg ∈ od.Arguments →
      ArgumentDefinitionList.ForName nd.Arguments oArg.Name = some nArg →
      ((∃ c ∈ checkDirectiveArgumentTypeChanged od oArg nArg,
          c.changeType = .DirectiveArgumentTypeChanged) ↔
        typeString oArg.Type_ ≠ typeString nArg.Type_) ∧
      (∀ c ∈ checkDirectiveArgumentTypeChanged od oArg nArg,
        c.changeType = .DirectiveArgumentTypeChanged →
        c.criticalityLevel =
          if isSafeChangeForInputValue oArg.Type_ nArg.Type_ = false then .Breaking
          else .NonBreaking) ∧
      ((checkDirectiveArgumentTypeChanged od oArg nArg).filter
        (fun c => c.changeType = .DirectiveArgumentTypeChanged)).length ≤ 1 ∧
      (∀ c ∈ checkDirectiveArgumentTypeChanged od oArg nArg,
        c ∈ changeInDirectiveArguments od nd)) ∧
    isSafeChangeForInputValue (.list (.named "String" false) true)
      (.list (.named "String" false) false) = true ∧
    isSafeChangeForInputValue (.named "String" false) (.named "String" true) = false := by
  refine ⟨?_, ?_, ?_, by decide, by decide⟩
  · intro oDef nDef typeName oArg nArg ho hn
    have h := checkFieldArgumentTypeChanged_spec oArg nArg typeName oDef.Name
    exact ⟨h.1, h.2.1, h.2.2,
      checkFieldArgumentTypeChanged_subset_changeInArgument oDef nDef typeName oArg nArg ho hn⟩
  · intro oDef nDef of nf ho hn
    have h := checkInputFieldTypeValueChanged_spec oDef of nf
    exact ⟨h.1, h.2.1, h.2.2,
      checkInputFieldTypeValueChanged_subset_changeInInputFields oDef nDef of nf ho hn⟩
  · intro od nd oArg nArg ho hn
    have h := checkDirectiveArgumentTypeChanged_spec od oArg nArg
    exact ⟨h.1, h.2.1, h.2.2,
      checkDirectiveArgumentTypeChanged_subset_changeInDirectiveArguments od nd oArg nArg ho hn⟩

/-! ## Theorems: the comparison of two documents -/

theorem MapOrder.range_eq_of_length_le_one (ord : MapOrder) (m : PersistedType)
    (h : m.length ≤ 1) : ord.range m = m := by
  have hp := ord.perm m
  match m, h, hp with
  | [], _, hp => exact List.perm_nil.mp hp
  | [a], _, hp => exact List.perm_singleton.mp hp

/-- The schema `type T @a @a { x: Int }`, in which a directive is applied
twice without arguments, compared with itself yields two `DirectiveChanged`
changes, in every order of ranging over the map of persisted types. -/
theorem FindChangesInSchemas_self_repeatedDirective (ord : MapOrder) :
    FindChangesInSchemas ord repeatedDirectiveSchema repeatedDirectiveSchema =
      [{ changeType := .DirectiveChanged
         criticalityLevel := .Dangerous
         message := "Directive '@a' was changed on 'T'"
         path := "T"
         position := examplePos 1 6 },
       { changeType := .DirectiveChanged
         criticalityLevel := .Dangerous
         message := "Directive '@a' was changed on 'T'"
         path := "T"
         position := examplePos 1 6 }] := by
  simp only [FindChangesInSchemas, changeInTypes]
  rw [MapOrder.range_eq_of_length_le_one ord]
  · decide
  · decide

/-- C4 (the code at the failing input): the object type `T` is defined in both
schemas and its field `b` is dropped, yet with an extension of `T` in both
schemas no change at all is reported, in every order of ranging over the map of
persisted types; without the extensions the Breaking `FieldRemoved` of path
`T.b` is reported. -/
theorem FindChangesInSchemas_extension_hides_definition (ord : MapOrder) :
    FindChangesInSchemas ord extendedOldSchema extendedNewSchema = [] ∧
    FindChangesInSchemas ord
      (exampleDocument extendedOldSchema.Definitions [])
      (exampleDocument extendedNewSchema.Definitions []) =
      [{ changeType := .FieldRemoved
         criticalityLevel := .Breaking
         message := "Field 'T.b' was removed from OBJECT"
         path := "T.b"
         position := examplePos 1 6 }] := by
  constructor
  · simp only [FindChangesInSchemas, changeInTypes]
    rw [MapOrder.range_eq_of_length_le_one ord]
    · decide
    · decide
  · simp only [FindChangesInSchemas, changeInTypes]
    rw [MapOrder.range_eq_of_length_le_one ord]
    · decide
    · decide

/-! ## Theorems: criticality by kind -/

theorem allFixed_nil : allFixed [] := by
  intro c hc
  cases hc

theorem allFixed_append {l₁ l₂ : List Change} : allFixed (l₁ ++ l₂) ↔ allFixed l₁ ∧ allFixed l₂ := by
  simp only [allFixed, List.mem_append]
  constructor
  · intro h
    exact ⟨fun c hc => h c (Or.inl hc), fun c hc => h c (Or.inr hc)⟩
  · rintro ⟨h₁, h₂⟩ c (hc | hc)
    · exact h₁ c hc
    · exact h₂ c hc

theorem allFixed_flatMap {α : Type} {l : List α} {f : α → List Change} :
    allFixed (l.flatMap f) ↔ ∀ a ∈ l, allFixed (f a) := by
  simp only [allFixed, List.mem_flatMap]
  constructor
  · intro h a ha c hc
    exact h c ⟨a, ha, hc⟩
  · rintro h c ⟨a, ha, hc⟩
    exact h a ha c hc

theorem allFixed_singleton {c : Change} : allFixed [c] ↔ c.fixed := by
  simp [allFixed]

theorem allFixed_cons {c : Change} {l : List Change} :
    allFixed (c :: l) ↔ c.fixed ∧ allFixed l := by
  simp [allFixed]

theorem checkFieldDirectiveArgumentAdded_fixed (od nd : Directive) (typeName : String) :
    allFixed (checkFieldDirectiveArgumentAdded od nd typeName) := by
  simp only [checkFieldDirectiveArgumentAdded, allFixed_flatMap]
  intro a _
  split <;> simp [allFixed_nil, allFixed_singleton, Change.fixed, fixedCriticality]

theorem checkFieldDirectiveArgumentChanged_fixed (od nd : Directive) (typeName : String)
    (pos : Option Position) :
    allFixed (checkFieldDirectiveArgumentChanged od nd typeName pos) := by
  simp only [checkFieldDirectiveArgumentChanged, allFixed_flatMap]
  intro a _
  split
  · simp [allFixed_singleton, Change.fixed, fixedCriticality]
  · split <;> simp [allFixed_nil, allFixed_singleton, Change.fixed, fixedCriticality]

theorem checkFieldDirectiveAdded_fixed (oDirs nDirs : List Directive) (typeName : String) :
    allFixed (checkFieldDirectiveAdded oDirs nDirs typeName) := by
  simp only [checkFieldDirectiveAdded, allFixed_flatMap]
  intro a _
  split
  · split <;> simp [allFixed_nil, allFixed_singleton, Change.fixed, fixedCriticality]
  · exact allFixed_nil

theorem changeInTypeFieldDirectives_fixed (oDirs nDirs : List Directive) (typeName : String)
    (pos : Option Position) :
    allFixed (changeInTypeFieldDirectives oDirs nDirs typeName pos) := by
  simp only [changeInTypeFieldDirectives, allFixed_append, allFixed_flatMap]
  refine ⟨?_, checkFieldDirectiveAdded_fixed oDirs nDirs typeName⟩
  intro od _
  split
  · split
    · simp [allFixed_singleton, Change.fixed, fixedCriticality]
    · split
      · split
        · exact allFixed_append.mpr
            ⟨checkFieldDirectiveArgumentChanged_fixed _ _ _ _,
              checkFieldDirectiveArgumentAdded_fixed _ _ _⟩
        · exact allFixed_nil
      · split <;> simp [allFixed_nil, allFixed_singleton, Change.fixed, fixedCriticality]
  · exact allFixed_nil

theorem checkInputFieldsAdded_fixed (oDef nDef : Definition) :
    allFixed (checkInputFieldsAdded oDef nDef) := by
  simp only [checkInputFieldsAdded, allFixed_flatMap]
  intro a _
  split
  · split <;> simp [allFixed_singleton, Change.fixed, fixedCriticality]
  · exact allFixed_nil

theorem checkInputFieldTypeValueChanged_fixed (oDef : Definition) (of nf : FieldDefinition) :
    allFixed (checkInputFieldTypeValueChanged oDef of nf) := by
  simp only [checkInputFieldTypeValueChanged, allFixed_append]
  constructor <;> split <;>
    simp [allFixed_nil, allFixed_singleton, Change.fixed, fixedCriticality]

theorem changeInInputFields_fixed (oDef nDef : Definition) :
    allFixed (changeInInputFields oDef nDef) := by
  simp only [changeInInputFields, allFixed_append, allFixed_flatMap]
  refine ⟨?_, checkInputFieldsAdded_fixed oDef nDef⟩
  intro of _
  split
  · simp [allFixed_singleton, Change.fixed, fixedCriticality]
  · refine allFixed_append.mpr ⟨allFixed_append.mpr
      ⟨checkInputFieldTypeValueChanged_fixed _ _ _, ?_⟩,
      changeInTypeFieldDirectives_fixed _ _ _ _⟩
    split <;> simp [allFixed_nil, allFixed_singleton, Change.fixed, fixedCriticality]

theorem checkFieldArgumentAdded_fixed (oDef nDef : FieldDefinition) (typeName : String) :
    allFixed (checkFieldArgumentAdded oDef nDef typeName) := by
  simp only [checkFieldArgumentAdded, allFixed_flatMap]
  intro a _
  split
  · split <;> simp [allFixed_singleton, Change.fixed, fixedCriticality]
  · exact allFixed_nil

theorem checkFieldArgumentTypeChanged_fixed (oArg nArg : ArgumentDefinition)
    (typeName fieldName : String) :
    allFixed (checkFieldArgumentTypeChanged oArg nArg typeName fieldName) := by
  simp only [checkFieldArgumentTypeChanged]
  split <;> simp [allFixed_nil, allFixed_singleton, Change.fixed, fixedCriticality]

theorem changeInArgument_fixed (oDef nDef : FieldDefinition) (typeName : String) :
    allFixed (changeInArgument oDef nDef typeName) := by
  simp only [changeInArgument, allFixed_append, allFixed_flatMap]
  refine ⟨?_, checkFieldArgumentAdded_fixed oDef nDef typeName⟩
  intro oArg _
  split
  · simp [allFixed_singleton, Change.fixed, fixedCriticality]
  · refine allFixed_append.mpr ⟨allFixed_append.mpr
      ⟨checkFieldArgumentTypeChanged_fixed _ _ _ _, ?_⟩, ?_⟩ <;>
    split <;> simp [allFixed_nil, allFixed_singleton, Change.fixed, fixedCriticality]

theorem checkFieldsAdded_fixed (oDef nDef : Definition) :
    allFixed (checkFieldsAdded oDef nDef) := by
  simp only [checkFieldsAdded, allFixed_flatMap]
  intro a _
  split <;> simp [allFixed_nil, allFixed_singleton, Change.fixed, fixedCriticality]

theorem checkFieldDeprecationChanged_fixed (oDef : Definition) (nf of : FieldDefinition) :
    allFixed (checkFieldDeprecationChanged oDef nf of) := by
  simp only [checkFieldDeprecationChanged, allFixed_append]
  refine ⟨⟨?_, ?_⟩, ?_⟩
  · split <;> simp [allFixed_nil, allFixed_singleton, Change.fixed, fixedCriticality]
  · split <;> simp [allFixed_nil, allFixed_singleton, Change.fixed, fixedCriticality]
  · split
    · split <;> simp [allFixed_nil, allFixed_singleton, Change.fixed, fixedCriticality]
    · exact allFixed_nil

theorem checkFieldTypeChanged_fixed (oDef : Definition) (of nf : FieldDefinition) :
    allFixed (checkFieldTypeChanged oDef of nf) := by
  simp only [checkFieldTypeChanged]
  split <;> simp [allFixed_nil, allFixed_singleton, Change.fixed, fixedCriticality]

theorem changeInFields_fixed (oDef nDef : Definition) :
    allFixed (changeInFields oDef nDef) := by
  simp only [changeInFields, allFixed_append, allFixed_flatMap]
  refine ⟨?_, checkFieldsAdded_fixed oDef nDef⟩
  intro of _
  split
  · simp [allFixed_singleton, Change.fixed, fixedCriticality]
  · refine allFixed_append.mpr ⟨allFixed_append.mpr ⟨allFixed_append.mpr
      ⟨allFixed_append.mpr ⟨checkFieldTypeChanged_fixed _ _ _, ?_⟩,
        checkFieldDeprecationChanged_fixed _ _ _⟩,
      changeInArgument_fixed _ _ _⟩, changeInTypeFieldDirectives_fixed _ _ _ _⟩
    split <;> simp [allFixed_nil, allFixed_singleton, Change.fixed, fixedCriticality]

theorem changeInUnion_fixed (oDef nDef : Definition) : allFixed (changeInUnion oDef nDef) := by
  simp only [changeInUnion, checkUnionMemberRemoved, checkUnionMemberAdded, allFixed_append,
    allFixed_flatMap]
  constructor <;> intro a _ <;> split <;>
    simp [allFixed_nil, allFixed_singleton, Change.fixed, fixedCriticality]

theorem changeInObject_fixed (oDef nDef : Definition) : allFixed (changeInObject oDef nDef) := by
  simp only [changeInObject, checkTypeInterfaceRemoved, checkTypeInterfacesAdded,
    allFixed_append, allFixed_flatMap]
  refine ⟨⟨⟨?_, ?_⟩, changeInTypeFieldDirectives_fixed _ _ _ _⟩, changeInFields_fixed _ _⟩ <;>
    intro a _ <;> split <;>
    simp [allFixed_nil, allFixed_singleton, Change.fixed, fixedCriticality]

theorem checkEnumValueDeprecationChanged_fixed (oDef : Definition)
    (nv ov : EnumValueDefinition) :
    allFixed (checkEnumValueDeprecationChanged oDef nv ov) := by
  simp only [checkEnumValueDeprecationChanged, allFixed_append]
  refine ⟨?_, ?_⟩
  · split <;> simp [allFixed_nil, allFixed_singleton, Change.fixed, fixedCriticality]
  · split
    · split <;> simp [allFixed_nil, allFixed_singleton, Change.fixed, fixedCriticality]
    · exact allFixed_nil

theorem changeInEnum_fixed (oDef nDef : Definition) : allFixed (changeInEnum oDef nDef) := by
  simp only [changeInEnum, checkEnumValuesAdded, allFixed_append, allFixed_flatMap]
  constructor
  · intro ov _
    split
    · simp [allFixed_singleton, Change.fixed, fixedCriticality]
    · refine allFixed_append.mpr ⟨?_, checkEnumValueDeprecationChanged_fixed _ _ _⟩
      split <;> simp [allFixed_nil, allFixed_singleton, Change.fixed, fixedCriticality]
  · intro nv _
    split <;> simp [allFixed_nil, allFixed_singleton, Change.fixed, fixedCriticality]

theorem checkDirectiveAdded_fixed (oDirs nDirs : List DirectiveDefinition) :
    allFixed (checkDirectiveAdded oDirs nDirs) := by
  simp only [checkDirectiveAdded, allFixed_flatMap]
  intro a _
  split <;> simp [allFixed_nil, allFixed_singleton, Change.fixed, fixedCriticality]

theorem checkDirectiveLocationChanged_fixed (od nd : DirectiveDefinition) :
    allFixed (checkDirectiveLocationChanged od nd) := by
  simp only [checkDirectiveLocationChanged, allFixed_append, allFixed_flatMap]
  constructor <;> intro a _ <;> split <;>
    simp [allFixed_nil, allFixed_singleton, Change.fixed, fixedCriticality]

theorem checkDirectiveRepeatableChanged_fixed (od nd : DirectiveDefinition) :
    allFixed (checkDirectiveRepeatableChanged od nd) := by
  simp only [checkDirectiveRepeatableChanged, allFixed_append]
  constructor <;> split <;>
    simp [allFixed_nil, allFixed_singleton, Change.fixed, fixedCriticality]

theorem checkDirectiveArgumentTypeChanged_fixed (od : DirectiveDefinition)
    (oArg nArg : ArgumentDefinition) :
    allFixed (checkDirectiveArgumentTypeChanged od oArg nArg) := by
  simp only [checkDirectiveArgumentTypeChanged, allFixed_append]
  constructor <;> split <;>
    simp [allFixed_nil, allFixed_singleton, Change.fixed, fixedCriticality]

theorem changeInDirectiveArguments_fixed (od nd : DirectiveDefinition) :
    allFixed (changeInDirectiveArguments od nd) := by
  simp only [changeInDirectiveArguments, allFixed_flatMap]
  intro oArg _
  split
  · simp [allFixed_singleton, Change.fixed, fixedCriticality]
  · refine allFixed_append.mpr ⟨checkDirectiveArgumentTypeChanged_fixed _ _ _, ?_⟩
    split <;> simp [allFixed_nil, allFixed_singleton, Change.fixed, fixedCriticality]

theorem checkDirectiveArgumentAdded_fixed (od nd : DirectiveDefinition) :
    allFixed (checkDirectiveArgumentAdded od nd) := by
  simp only [checkDirectiveArgumentAdded, allFixed_flatMap]
  intro a _
  split
  · split <;> simp [allFixed_singleton, Change.fixed, fixedCriticality]
  · exact allFixed_nil

theorem changeInDirective_fixed (oDirs nDirs : List DirectiveDefinition) :
    allFixed (changeInDirective oDirs nDirs) := by
  simp only [changeInDirective, allFixed_append, allFixed_flatMap]
  refine ⟨?_, checkDirectiveAdded_fixed oDirs nDirs⟩
  intro od _
  split
  · simp [allFixed_singleton, Change.fixed, fixedCriticality]
  · refine allFixed_append.mpr ⟨allFixed_append.mpr ⟨allFixed_append.mpr
      ⟨allFixed_append.mpr ⟨?_, checkDirectiveLocationChanged_fixed _ _⟩,
        checkDirectiveRepeatableChanged_fixed _ _⟩,
      changeInDirectiveArguments_fixed _ _⟩, checkDirectiveArgumentAdded_fixed _ _⟩
    split <;> simp [allFixed_nil, allFixed_singleton, Change.fixed, fixedCriticality]

theorem checkTypeAdded_fixed (oldSchemaDefs newSchemaDefs : List Definition)
    (isExtended : Bool) : allFixed (checkTypeAdded oldSchemaDefs newSchemaDefs isExtended) := by
  simp only [checkTypeAdded, allFixed_flatMap]
  intro a _
  split <;> simp [allFixed_nil, allFixed_singleton, Change.fixed, fixedCriticality]

theorem checkTypeRemoved_fixed (oldSchemaDefs newSchemaDefs : List Definition)
    (persistedType : PersistedType) (isExtended : Bool) :
    allFixed (checkTypeRemoved oldSchemaDefs newSchemaDefs persistedType isExtended).1 := by
  induction oldSchemaDefs generalizing persistedType with
  | nil => exact allFixed_nil
  | cons ot rest ih =>
    simp only [checkTypeRemoved]
    split
    · exact allFixed_cons.mpr ⟨by simp [Change.fixed, fixedCriticality], ih _⟩
    · exact ih _

theorem changeInPersistedType_fixed (ot nt : Definition) :
    allFixed (changeInPersistedType ot nt) := by
  simp only [changeInPersistedType, allFixed_append]
  refine ⟨⟨⟨⟨⟨⟨?_, ?_⟩, ?_⟩, ?_⟩, ?_⟩, ?_⟩, ?_⟩
  · split
    · exact changeInEnum_fixed _ _
    · exact allFixed_nil
  · split
    · exact changeInInputFields_fixed _ _
    · exact allFixed_nil
  · split
    · exact allFixed_append.mpr
        ⟨changeInTypeFieldDirectives_fixed _ _ _ _, changeInFields_fixed _ _⟩
    · exact allFixed_nil
  · split
    · exact changeInObject_fixed _ _
    · exact allFixed_nil
  · split
    · exact changeInUnion_fixed _ _
    · exact allFixed_nil
  · split <;> simp [allFixed_nil, allFixed_singleton, Change.fixed, fixedCriticality]
  · split <;> simp [allFixed_nil, allFixed_singleton, Change.fixed, fixedCriticality]

theorem changeInTypes_fixed (ord : MapOrder) (oldSchema newSchema : SchemaDocument) :
    allFixed (changeInTypes ord oldSchema newSchema) := by
  simp only [changeInTypes, allFixed_append, allFixed_flatMap]
  exact ⟨⟨⟨⟨checkTypeRemoved_fixed _ _ _ _, checkTypeAdded_fixed _ _ _⟩,
    checkTypeRemoved_fixed _ _ _ _⟩, checkTypeAdded_fixed _ _ _⟩,
    fun defs _ => changeInPersistedType_fixed _ _⟩

theorem changesInSchemaOperation_fixed (oldOp newOp : Option OperationTypeDefinition)
    (op : Operation) : allFixed (changesInSchemaOperation oldOp newOp op) := by
  cases op <;> cases oldOp <;> cases newOp <;>
    simp only [changesInSchemaOperation, allFixed_append] <;>
    refine ⟨⟨?_, ?_⟩, ?_⟩ <;>
    first
      | exact allFixed_nil
      | (split <;> simp [allFixed_nil, allFixed_singleton, Change.fixed, fixedCriticality])
      | simp [allFixed_nil, allFixed_singleton, Change.fixed, fixedCriticality]

theorem changeInSchema_fixed (oldSchemaDefs newSchemaDefs : List SchemaDefinition) :
    allFixed (changeInSchema oldSchemaDefs newSchemaDefs) := by
  cases oldSchemaDefs <;> cases newSchemaDefs <;>
    simp only [changeInSchema, allFixed_append] <;>
    first
      | exact allFixed_nil
      | exact ⟨⟨changesInSchemaOperation_fixed _ _ _, changesInSchemaOperation_fixed _ _ _⟩,
          changesInSchemaOperation_fixed _ _ _⟩

theorem FindChangesInSchemas_fixed (ord : MapOrder) (oldSchema newSchema : SchemaDocument) :
    allFixed (FindChangesInSchemas ord oldSchema newSchema) := by
  simp only [FindChangesInSchemas, allFixed_append]
  exact ⟨⟨⟨changeInSchema_fixed _ _, changeInSchema_fixed _ _⟩, changeInTypes_fixed _ _ _⟩,
    changeInDirective_fixed _ _⟩

/-- C10 (counterexample): between `mixedOldSchema` and `mixedNewSchema` the
changes have the kinds and criticalities listed, so that eight kinds outside
the four type-changed kinds occur with two criticalities each; two changes of
one such kind with different criticalities show that the kind alone does not fix
the criticality. -/
theorem FindChangesInSchemas_criticality_varies :
    kindsAndCriticalities
        (FindChangesInSchemas MapOrder.insertion mixedOldSchema mixedNewSchema) =
      [(.SchemaQueryTypeChanged, .Breaking),
       (.SchemaMutationTypeChanged, .Breaking),
       (.SchemaSubscriptionTypeChanged, .Breaking),
       (.SchemaQueryTypeChanged, .NonBreaking),
       (.SchemaMutationTypeChanged, .NonBreaking),
       (.SchemaSubscriptionTypeChanged, .NonBreaking),
       (.DirectiveArgumentRemoved, .Dangerous),
       (.DirectiveRemoved, .Dangerous),
       (.FieldArgumentAdded, .Breaking),
       (.FieldArgumentAdded, .Dangerous),
       (.InputFieldAdded, .Breaking),
       (.InputFieldAdded, .Dangerous),
       (.DirectiveArgumentRemoved, .Breaking),
       (.DirectiveArgumentAdded, .Breaking),
       (.DirectiveArgumentAdded, .NonBreaking),
       (.DirectiveRemoved, .Breaking)] ∧
    ¬ (∀ c₁ ∈ FindChangesInSchemas MapOrder.insertion mixedOldSchema mixedNewSchema,
        ∀ c₂ ∈ FindChangesInSchemas MapOrder.insertion mixedOldSchema mixedNewSchema,
          c₁.changeType = c₂.changeType →
          c₁.changeType ∉ [ChangeType.FieldTypeChanged, .FieldArgumentTypeChanged,
            .InputFieldTypeChanged, .DirectiveArgumentTypeChanged] →
          c₁.criticalityLevel = c₂.criticalityLevel) := by
  constructor
  · decide
  · decide

/-- C10 (amended): two changes produced by `FindChangesInSchemas` that have the
same kind have the same criticality, for every kind other than the four
type-changed kinds, `FieldArgumentAdded`, `InputFieldAdded`,
`DirectiveArgumentAdded`, `DirectiveArgumentRemoved`, `DirectiveRemoved` and the
three schema root kinds. -/
theorem FindChangesInSchemas_criticality_of_kind (ord : MapOrder)
    (oldSchema newSchema : SchemaDocument) (c₁ c₂ : Change)
    (h₁ : c₁ ∈ FindChangesInSchemas ord oldSchema newSchema)
    (h₂ : c₂ ∈ FindChangesInSchemas ord oldSchema newSchema)
    (hk : c₁.changeType = c₂.changeType)
    (hv : c₁.changeType ∉ [ChangeType.FieldTypeChanged, .FieldArgumentTypeChanged,
      .InputFieldTypeChanged, .DirectiveArgumentTypeChanged, .FieldArgumentAdded,
      .InputFieldAdded, .DirectiveArgumentAdded, .DirectiveArgumentRemoved, .DirectiveRemoved,
      .SchemaQueryTypeChanged, .SchemaMutationTypeChanged, .SchemaSubscriptionTypeChanged]) :
    c₁.criticalityLevel = c₂.criticalityLevel := by
  have f₁ := FindChangesInSchemas_fixed ord oldSchema newSchema c₁ h₁
  have f₂ := FindChangesInSchemas_fixed ord oldSchema newSchema c₂ h₂
  unfold Change.fixed at f₁ f₂
  rw [← hk] at f₂
  cases hc : c₁.changeType <;> rw [hc] at f₁ f₂ hv <;>
    first
      | exact absurd hv (by decide)
      | (simp only [fixedCriticality] at f₁ f₂
         rw [f₁, f₂])

/-- C10 (witness): the two `FieldRemoved` changes reported when the fields `a`
and `b` of `type T { a: Int b: Int }` are both dropped. -/
theorem FindChangesInSchemas_criticality_of_kind_witness :
    kindsAndCriticalities
        (FindChangesInSchemas MapOrder.insertion
          (exampleDocument extendedOldSchema.Definitions [])
          (exampleDocument [exampleObject "T" [] []] [])) =
      [(.FieldRemoved, .Breaking), (.FieldRemoved, .Breaking)] ∧
    (Change.mk "Field 'T.a' was removed from OBJECT" .FieldRemoved .Breaking "T.a"
        (examplePos 1 6)).criticalityLevel =
      (Change.mk "Field 'T.b' was removed from OBJECT" .FieldRemoved .Breaking "T.b"
        (examplePos 1 6)).criticalityLevel :=
  ⟨by decide,
    FindChangesInSchemas_criticality_of_kind MapOrder.insertion
      (exampleDocument extendedOldSchema.Definitions [])
      (exampleDocument [exampleObject "T" [] []] []) _ _ (by decide) (by decide) rfl
      (by decide)⟩

/-! ## Theorems: a document compared with itself -/

theorem find?_name_of_mem {α : Type} (name : α → String) (l : List α) (x : α) (hx : x ∈ l) :
    ∃ y, l.find? (fun it => name it == name x) = some y := by
  induction l with
  | nil => cases hx
  | cons a l ih =>
    by_cases h : name a = name x
    · exact ⟨a, by simp [List.find?_cons, h]⟩
    · rcases List.mem_cons.mp hx with rfl | hx
      · exact absurd rfl h
      · obtain ⟨y, hy⟩ := ih hx
        exact ⟨y, by simp [List.find?_cons, h, hy]⟩

theorem find?_name_of_nodup {α : Type} (name : α → String) (l : List α)
    (h : (l.map name).Nodup) (x : α) (hx : x ∈ l) :
    l.find? (fun it => name it == name x) = some x := by
  induction l with
  | nil => cases hx
  | cons a l ih =>
    rw [List.map_cons, List.nodup_cons] at h
    rcases List.mem_cons.mp hx with rfl | hx
    · simp [List.find?_cons]
    · have hne : name a ≠ name x := by
        intro he
        exact h.1 (he ▸ List.mem_map_of_mem name hx)
      simp [List.find?_cons, hne, ih h.2 hx]

theorem changesInSchemaOperation_self (o : Option OperationTypeDefinition) (op : Operation) :
    changesInSchemaOperation o o op = [] := by
  cases o <;> simp [changesInSchemaOperation]

theorem changeInSchema_self (l : List SchemaDefinition) : changeInSchema l l = [] := by
  cases l <;> simp [changeInSchema, changesInSchemaOperation_self]

theorem checkFieldDirectiveArgumentChanged_self (d : Directive) (typeName : String)
    (pos : Option Position) (h : (d.Arguments.map fun a => a.Name).Nodup) :
    checkFieldDirectiveArgumentChanged d d typeName pos = [] := by
  simp only [checkFieldDirectiveArgumentChanged, List.flatMap_eq_nil_iff]
  intro a ha
  have hf : ArgumentList.ForName d.Arguments a.Name = some a :=
    find?_name_of_nodup (fun a : Argument => a.Name) d.Arguments h a ha
  simp [hf]

theorem checkFieldDirectiveArgumentAdded_self (d : Directive) (typeName : String) :
    checkFieldDirectiveArgumentAdded d d typeName = [] := by
  simp only [checkFieldDirectiveArgumentAdded, List.flatMap_eq_nil_iff]
  intro a ha
  obtain ⟨y, hy⟩ := find?_name_of_mem (fun a : Argument => a.Name) d.Arguments a ha
  have hf : ArgumentList.ForName d.Arguments a.Name = some y := hy
  simp [hf]

theorem checkFieldDirectiveAdded_self (ds : List Directive) (typeName : String) :
    checkFieldDirectiveAdded ds ds typeName = [] := by
  simp only [checkFieldDirectiveAdded, List.flatMap_eq_nil_iff]
  intro d hd
  obtain ⟨y, hy⟩ := find?_name_of_mem (fun d : Directive => d.Name) ds d hd
  have hf : DirectiveList.ForName ds d.Name = some y := hy
  simp [hf]

theorem sameArgValsLoop_self_aux (d : Directive) (h : (d.Arguments.map fun a => a.Name).Nodup)
    (args : List Argument) (hsub : ∀ a ∈ args, a ∈ d.Arguments) (flag : Bool)
    (hflag : args = [] → flag = true) : sameArgValsLoop d args flag = true := by
  induction args generalizing flag with
  | nil => simpa [sameArgValsLoop] using hflag rfl
  | cons a rest ih =>
    have hf : ArgumentList.ForName d.Arguments a.Name = some a :=
      find?_name_of_nodup (fun a : Argument => a.Name) d.Arguments h a (hsub a (List.mem_cons_self _ _))
    simp only [sameArgValsLoop, hf, if_true]
    exact ih (fun b hb => hsub b (List.mem_cons_of_mem _ hb)) true (fun _ => rfl)

theorem sameArgValsLoop_self (d : Directive) (h : (d.Arguments.map fun a => a.Name).Nodup)
    (hne : d.Arguments ≠ []) (flag : Bool) : sameArgValsLoop d d.Arguments flag = true :=
  sameArgValsLoop_self_aux d h d.Arguments (fun _ ha => ha) flag (fun he => absurd he hne)

theorem haveSameArgValsLoop_of_mem (od : Directive)
    (h : (od.Arguments.map fun a => a.Name).Nodup) (hne : od.Arguments ≠ [])
    (l : List Directive) (hmem : od ∈ l) (flag : Bool) :
    haveSameArgValsLoop od l flag = true := by
  induction l generalizing flag with
  | nil => cases hmem
  | cons nd rest ih =>
    simp only [haveSameArgValsLoop]
    by_cases hnd : nd = od
    · subst hnd
      simp [sameArgValsLoop_self nd h hne]
    · have hrest : od ∈ rest := by
        rcases List.mem_cons.mp hmem with he | hr
        · exact absurd he.symm hnd
        · exact hr
      split
      · split
        · assumption
        · exact ih hrest _
      · exact ih hrest _

theorem changeInTypeFieldDirectives_self (ds : List Directive) (typeName : String)
    (pos : Option Position) (h : DirectiveList.regular ds) :
    changeInTypeFieldDirectives ds ds typeName pos = [] := by
  simp only [changeInTypeFieldDirectives, checkFieldDirectiveAdded_self, List.append_nil,
    List.flatMap_eq_nil_iff]
  intro od hod
  have hmem : od ∈ DirectiveList.ForNames ds od.Name := by
    simp [DirectiveList.ForNames, List.mem_filter, hod]
  split
  · rename_i hdep
    split
    · rename_i hlen
      rw [List.length_eq_zero] at hlen
      rw [hlen] at hmem
      cases hmem
    · split
      · rename_i hone
        split
        · rename_i nd tl heq
          rw [heq] at hone hmem
          have htl : tl = [] := by
            have := hone.1
            simpa using this
          subst htl
          have hnd : od = nd := by simpa using hmem
          subst hnd
          simp [checkFieldDirectiveArgumentChanged_self od typeName pos (h od hod).1,
            checkFieldDirectiveArgumentAdded_self]
        · rfl
      · rename_i hzero hone
        have hne : od.Arguments ≠ [] := by
          intro he
          have hle := (h od hod).2 hdep he
          have hpos : (DirectiveList.ForNames ds od.Name).length ≠ 0 := hzero
          exact hone ⟨by omega, by omega⟩
        simp [haveSameArgValsLoop_of_mem od (h od hod).1 hne _ hmem]
  · rfl

theorem checkInputFieldsAdded_self (t : Definition) : checkInputFieldsAdded t t = [] := by
  simp only [checkInputFieldsAdded, List.flatMap_eq_nil_iff]
  intro f hf
  obtain ⟨y, hy⟩ := find?_name_of_mem (fun f : FieldDefinition => f.Name) t.Fields f hf
  have hy' : FieldList.ForName t.Fields f.Name = some y := hy
  simp [hy']

theorem checkInputFieldTypeValueChanged_self (t : Definition) (f : FieldDefinition) :
    checkInputFieldTypeValueChanged t f f = [] := by
  simp [checkInputFieldTypeValueChanged]

theorem changeInInputFields_self (t : Definition) (h : t.regular) :
    changeInInputFields t t = [] := by
  simp only [changeInInputFields, checkInputFieldsAdded_self, List.append_nil,
    List.flatMap_eq_nil_iff]
  intro f hf
  have hy : FieldList.ForName t.Fields f.Name = some f :=
    find?_name_of_nodup (fun f : FieldDefinition => f.Name) t.Fields h.1 f hf
  simp [hy, checkInputFieldTypeValueChanged_self,
    changeInTypeFieldDirectives_self _ _ _ (h.2.2.2 f hf).2]

theorem checkFieldArgumentAdded_self (f : FieldDefinition) (typeName : String) :
    checkFieldArgumentAdded f f typeName = [] := by
  simp only [checkFieldArgumentAdded, List.flatMap_eq_nil_iff]
  intro a ha
  obtain ⟨y, hy⟩ := find?_name_of_mem (fun a : ArgumentDefinition => a.Name) f.Arguments a ha
  have hy' : ArgumentDefinitionList.ForName f.Arguments a.Name = some y := hy
  simp [hy']

theorem changeInArgument_self (f : FieldDefinition) (typeName : String)
    (h : (f.Arguments.map fun a => a.Name).Nodup) : changeInArgument f f typeName = [] := by
  simp only [changeInArgument, checkFieldArgumentAdded_self, List.append_nil,
    List.flatMap_eq_nil_iff]
  intro a ha
  have hy : ArgumentDefinitionList.ForName f.Arguments a.Name = some a :=
    find?_name_of_nodup (fun a : ArgumentDefinition => a.Name) f.Arguments h a ha
  simp [hy, checkFieldArgumentTypeChanged]

theorem checkFieldsAdded_self (t : Definition) : checkFieldsAdded t t = [] := by
  simp only [checkFieldsAdded, List.flatMap_eq_nil_iff]
  intro f hf
  obtain ⟨y, hy⟩ := find?_name_of_mem (fun f : FieldDefinition => f.Name) t.Fields f hf
  have hy' : FieldList.ForName t.Fields f.Name = some y := hy
  simp [hy']

theorem checkFieldDeprecationChanged_self (t : Definition) (f : FieldDefinition) :
    checkFieldDeprecationChanged t f f = [] := by
  simp only [checkFieldDeprecationChanged]
  cases DirectiveList.ForName f.Directives deprecatedDirective <;> simp

theorem changeInFields_self (t : Definition) (h : t.regular) : changeInFields t t = [] := by
  simp only [changeInFields, checkFieldsAdded_self, List.append_nil, List.flatMap_eq_nil_iff]
  intro f hf
  have hy : FieldList.ForName t.Fields f.Name = some f :=
    find?_name_of_nodup (fun f : FieldDefinition => f.Name) t.Fields h.1 f hf
  simp [hy, checkFieldTypeChanged, checkFieldDeprecationChanged_self,
    changeInArgument_self _ _ (h.2.2.2 f hf).1,
    changeInTypeFieldDirectives_self _ _ _ (h.2.2.2 f hf).2]

theorem changeInUnion_self (t : Definition) : changeInUnion t t = [] := by
  simp only [changeInUnion, checkUnionMemberRemoved, checkUnionMemberAdded,
    List.append_eq_nil, List.flatMap_eq_nil_iff]
  constructor <;> intro m hm <;> simp [hm]

theorem changeInObject_self (t : Definition) (h : t.regular) : changeInObject t t = [] := by
  simp only [changeInObject, changeInFields_self t h,
    changeInTypeFieldDirectives_self _ _ _ h.2.2.1, List.append_nil, checkTypeInterfaceRemoved,
    checkTypeInterfacesAdded, List.append_eq_nil, List.flatMap_eq_nil_iff]
  constructor <;> intro m hm <;> simp [hm]

theorem checkEnumValueDeprecationChanged_self (t : Definition) (v : EnumValueDefinition) :
    checkEnumValueDeprecationChanged t v v = [] := by
  simp only [checkEnumValueDeprecationChanged]
  cases DirectiveList.ForName v.Directives deprecatedDirective <;> simp

theorem changeInEnum_self (t : Definition) (h : t.regular) : changeInEnum t t = [] := by
  simp only [changeInEnum, checkEnumValuesAdded, List.append_eq_nil, List.flatMap_eq_nil_iff]
  constructor
  · intro v hv
    have hy : EnumValueList.ForName t.EnumValues v.Name = some v :=
      find?_name_of_nodup (fun v : EnumValueDefinition => v.Name) t.EnumValues h.2.1 v hv
    simp [hy, checkEnumValueDeprecationChanged_self]
  · intro v hv
    have hy : EnumValueList.ForName t.EnumValues v.Name = some v :=
      find?_name_of_nodup (fun v : EnumValueDefinition => v.Name) t.EnumValues h.2.1 v hv
    simp [hy]

theorem changeInPersistedType_self (t : Definition) (h : t.regular) :
    changeInPersistedType t t = [] := by
  simp [changeInPersistedType, changeInEnum_self t h, changeInInputFields_self t h,
    changeInTypeFieldDirectives_self _ _ _ h.2.2.1, changeInFields_self t h,
    changeInObject_self t h, changeInUnion_self]

theorem changeInDirective_self (ds : List DirectiveDefinition)
    (h : (ds.map fun d => d.Name).Nodup)
    (ha : ∀ d ∈ ds, (d.Arguments.map fun a => a.Name).Nodup) : changeInDirective ds ds = [] := by
  simp only [changeInDirective, checkDirectiveAdded, List.append_eq_nil,
    List.flatMap_eq_nil_iff]
  constructor
  · intro d hd
    have hy : DirectiveDefinitionList.ForName ds d.Name = some d :=
      find?_name_of_nodup (fun d : DirectiveDefinition => d.Name) ds h d hd
    simp only [hy, ne_eq, not_true_eq_false, if_false, List.nil_append, List.append_eq_nil,
      checkDirectiveLocationChanged, checkDirectiveRepeatableChanged,
      changeInDirectiveArguments, checkDirectiveArgumentAdded, List.flatMap_eq_nil_iff]
    refine ⟨⟨⟨⟨?_, ?_⟩, ?_⟩, ?_⟩, ?_⟩
    · intro l hl
      simp [hl]
    · intro l hl
      simp [hl]
    · cases d.IsRepeatable <;> simp
    · intro a haa
      have hz : ArgumentDefinitionList.ForName d.Arguments a.Name = some a :=
        find?_name_of_nodup (fun a : ArgumentDefinition => a.Name) d.Arguments (ha d hd) a haa
      simp [hz, checkDirectiveArgumentTypeChanged]
    · intro a haa
      have hz : ArgumentDefinitionList.ForName d.Arguments a.Name = some a :=
        find?_name_of_nodup (fun a : ArgumentDefinition => a.Name) d.Arguments (ha d hd) a haa
      simp [hz]
  · intro d hd
    have hy : DirectiveDefinitionList.ForName ds d.Name = some d :=
      find?_name_of_nodup (fun d : DirectiveDefinition => d.Name) ds h d hd
    simp [hy]

theorem checkTypeAdded_self (ds : List Definition) (isExtended : Bool) :
    checkTypeAdded ds ds isExtended = [] := by
  simp only [checkTypeAdded, List.flatMap_eq_nil_iff]
  intro t ht
  obtain ⟨y, hy⟩ := find?_name_of_mem (fun t : Definition => t.Name) ds t ht
  have hy' : DefinitionList.ForName ds t.Name = some y := hy
  simp [hy']

theorem PersistedType.mem_set (m : PersistedType) (k : String) (v : Definition × Definition)
    (e : String × (Definition × Definition)) (he : e ∈ m.set k v) : e ∈ m ∨ e = (k, v) := by
  unfold PersistedType.set at he
  split at he
  · obtain ⟨x, hx, hxe⟩ := List.mem_map.mp he
    split at hxe
    · exact Or.inr hxe.symm
    · exact Or.inl (hxe ▸ hx)
  · rcases List.mem_append.mp he with h | h
    · exact Or.inl h
    · exact Or.inr (by simpa using h)

theorem checkTypeRemoved_self (ds : List Definition) (h : (ds.map fun t => t.Name).Nodup)
    (isExtended : Bool) (rest : List Definition) (hrest : ∀ t ∈ rest, t ∈ ds)
    (m : PersistedType) :
    (checkTypeRemoved rest ds m isExtended).1 = [] ∧
    ∀ e ∈ (checkTypeRemoved rest ds m isExtended).2, e ∈ m ∨ (e.2.1 = e.2.2 ∧ e.2.1 ∈ ds) := by
  induction rest generalizing m with
  | nil => exact ⟨rfl, fun e he => Or.inl he⟩
  | cons t rest ih =>
    have hy : DefinitionList.ForName ds t.Name = some t :=
      find?_name_of_nodup (fun t : Definition => t.Name) ds h t (hrest t (List.mem_cons_self _ _))
    simp only [checkTypeRemoved, hy]
    have ih' := ih (fun x hx => hrest x (List.mem_cons_of_mem _ hx)) (m.set t.Name (t, t))
    refine ⟨ih'.1, fun e he => ?_⟩
    rcases ih'.2 e he with hm | hs
    · rcases PersistedType.mem_set m _ _ e hm with hm' | heq
      · exact Or.inl hm'
      · exact Or.inr (by rw [heq]; exact ⟨rfl, hrest t (List.mem_cons_self _ _)⟩)
    · exact Or.inr hs

theorem changeInTypes_self (ord : MapOrder) (s : SchemaDocument) (h : s.regular) :
    changeInTypes ord s s = [] := by
  obtain ⟨hd, he, -, -, hrd, hre⟩ := h
  have h1 := checkTypeRemoved_self s.Definitions hd false s.Definitions (fun _ ht => ht) []
  have h2 := checkTypeRemoved_self s.Extensions he true s.Extensions (fun _ ht => ht)
    (checkTypeRemoved s.Definitions s.Definitions [] false).2
  simp only [changeInTypes, h1.1, h2.1, checkTypeAdded_self, List.nil_append,
    List.flatMap_eq_nil_iff]
  intro e hmem
  have hmem' := (ord.perm _).mem_iff.mp hmem
  have hself : e.2.1 = e.2.2 ∧ e.2.1.regular := by
    rcases h2.2 e hmem' with hm | hs
    · rcases h1.2 e hm with hm' | hs'
      · cases hm'
      · exact ⟨hs'.1, hrd _ hs'.2⟩
    · exact ⟨hs.1, hre _ hs.2⟩
  rw [← hself.1]
  exact changeInPersistedType_self _ hself.2

/-- C3 (counterexample): the schema `type T { x: Int }  scalar T` parses, and
compared with itself it yields a `TypeKindChanged` change. -/
theorem FindChangesInSchemas_self_duplicateType :
    FindChangesInSchemas MapOrder.insertion duplicateTypeSchema duplicateTypeSchema =
      [{ changeType := .TypeKindChanged
         criticalityLevel := .Breaking
         message := "Type 'T' kind changed from 'SCALAR' to 'OBJECT'"
         path := "T"
         position := examplePos 1 6 }] := by
  decide

/-- C3 (amended): for every regular schema document `s`, that is one whose
names are distinct and in which no directive is applied more than once without
arguments, `FindChangesInSchemas (s, s)` is the empty list, in every order of
ranging over the map of persisted types. -/
theorem FindChangesInSchemas_regular_self (ord : MapOrder) (s : SchemaDocument) (h : s.regular) :
    FindChangesInSchemas ord s s = [] := by
  simp [FindChangesInSchemas, changeInSchema_self, changeInTypes_self ord s h,
    changeInDirective_self s.Directives h.2.2.1 h.2.2.2.1]

/-- C3 (witness): the schema `bookSchema` of the tests, in which `@graph` is
applied twice with arguments, is regular and compared with itself yields no
change. -/
theorem FindChangesInSchemas_regular_self_witness :
    bookSchema.regular ∧
    FindChangesInSchemas MapOrder.insertion bookSchema bookSchema = [] :=
  ⟨by decide, FindChangesInSchemas_regular_self MapOrder.insertion bookSchema (by decide)⟩

/-! ## Theorems: the kinds each comparison produces -/

theorem producesOnly_nil (ks : List ChangeType) : producesOnly ks [] := by
  intro c hc
  cases hc

theorem producesOnly_append {ks : List ChangeType} {l₁ l₂ : List Change} :
    producesOnly ks (l₁ ++ l₂) ↔ producesOnly ks l₁ ∧ producesOnly ks l₂ := by
  simp only [producesOnly, List.mem_append]
  constructor
  · intro h
    exact ⟨fun c hc => h c (Or.inl hc), fun c hc => h c (Or.inr hc)⟩
  · rintro ⟨h₁, h₂⟩ c (hc | hc)
    · exact h₁ c hc
    · exact h₂ c hc

theorem producesOnly_flatMap {α : Type} {ks : List ChangeType} {l : List α}
    {f : α → List Change} :
    producesOnly ks (l.flatMap f) ↔ ∀ a ∈ l, producesOnly ks (f a) := by
  simp only [producesOnly, List.mem_flatMap]
  constructor
  · intro h a ha c hc
    exact h c ⟨a, ha, hc⟩
  · rintro h c ⟨a, ha, hc⟩
    exact h a ha c hc

theorem producesOnly_singleton {ks : List ChangeType} {c : Change} :
    producesOnly ks [c] ↔ c.changeType ∈ ks := by
  simp [producesOnly]

theorem producesOnly_cons {ks : List ChangeType} {c : Change} {l : List Change} :
    producesOnly ks (c :: l) ↔ c.changeType ∈ ks ∧ producesOnly ks l := by
  simp [producesOnly]

theorem producesOnly_mono {ks ks' : List ChangeType} {l : List Change}
    (h : producesOnly ks l) (hs : ks ⊆ ks') : producesOnly ks' l :=
  fun c hc => hs (h c hc)

theorem ofKind_eq_nil_of_producesOnly {ks : List ChangeType} {l : List Change}
    (h : producesOnly ks l) (k : ChangeType) (hk : k ∉ ks) : ofKind k l = [] := by
  simp only [ofKind, List.filter_eq_nil_iff, decide_eq_true_eq]
  intro c hc he
  exact hk (he ▸ h c hc)

theorem ofKind_append (k : ChangeType) (l₁ l₂ : List Change) :
    ofKind k (l₁ ++ l₂) = ofKind k l₁ ++ ofKind k l₂ := by
  simp [ofKind]

theorem changeInTypeFieldDirectives_kinds (oDirs nDirs : List Directive) (typeName : String)
    (pos : Option Position) :
    producesOnly directiveApplicationKinds
      (changeInTypeFieldDirectives oDirs nDirs typeName pos) := by
  simp only [changeInTypeFieldDirectives, checkFieldDirectiveAdded,
    checkFieldDirectiveArgumentChanged, checkFieldDirectiveArgumentAdded, producesOnly_append,
    producesOnly_flatMap]
  constructor
  · intro od _
    split
    · split
      · simp [producesOnly_singleton, directiveApplicationKinds]
      · split
        · split
          · simp only [producesOnly_append, producesOnly_flatMap]
            refine ⟨?_, ?_⟩
            · intro a _
              split
              · simp [producesOnly_singleton, directiveApplicationKinds]
              · split <;>
                  simp [producesOnly_nil, producesOnly_singleton, directiveApplicationKinds]
            · intro a _
              split <;>
                simp [producesOnly_nil, producesOnly_singleton, directiveApplicationKinds]
          · exact producesOnly_nil _
        · split <;> simp [producesOnly_nil, producesOnly_singleton, directiveApplicationKinds]
    · exact producesOnly_nil _
  · intro nd _
    split
    · split <;> simp [producesOnly_nil, producesOnly_singleton, directiveApplicationKinds]
    · exact producesOnly_nil _

theorem changeInInputFields_kinds (oDef nDef : Definition) :
    producesOnly inputFieldKinds (changeInInputFields oDef nDef) := by
  simp only [changeInInputFields, checkInputFieldsAdded, checkInputFieldTypeValueChanged,
    producesOnly_append, producesOnly_flatMap]
  constructor
  · intro of _
    split
    · simp [producesOnly_singleton, inputFieldKinds]
    · simp only [producesOnly_append]
      refine ⟨⟨⟨?_, ?_⟩, ?_⟩, ?_⟩
      · split <;> simp [producesOnly_nil, producesOnly_singleton, inputFieldKinds]
      · split <;> simp [producesOnly_nil, producesOnly_singleton, inputFieldKinds]
      · split <;> simp [producesOnly_nil, producesOnly_singleton, inputFieldKinds]
      · exact producesOnly_mono (changeInTypeFieldDirectives_kinds _ _ _ _) (by decide)
  · intro nf _
    split
    · split <;> simp [producesOnly_singleton, inputFieldKinds]
    · exact producesOnly_nil _

theorem changeInArgument_kinds (oDef nDef : FieldDefinition) (typeName : String) :
    producesOnly argumentKinds (changeInArgument oDef nDef typeName) := by
  simp only [changeInArgument, checkFieldArgumentAdded, checkFieldArgumentTypeChanged,
    producesOnly_append, producesOnly_flatMap]
  constructor
  · intro oArg _
    split
    · simp [producesOnly_singleton, argumentKinds]
    · simp only [producesOnly_append]
      refine ⟨⟨?_, ?_⟩, ?_⟩ <;> split <;>
        simp [producesOnly_nil, producesOnly_singleton, argumentKinds]
  · intro nArg _
    split
    · split <;> simp [producesOnly_singleton, argumentKinds]
    · exact producesOnly_nil _

theorem checkFieldDeprecationChanged_kinds (oDef : Definition) (nf of : FieldDefinition) :
    producesOnly fieldKinds (checkFieldDeprecationChanged oDef nf of) := by
  simp only [checkFieldDeprecationChanged, producesOnly_append]
  refine ⟨⟨?_, ?_⟩, ?_⟩
  · split <;> simp [producesOnly_nil, producesOnly_singleton, fieldKinds]
  · split <;> simp [producesOnly_nil, producesOnly_singleton, fieldKinds]
  · split
    · split <;> simp [producesOnly_nil, producesOnly_singleton, fieldKinds]
    · exact producesOnly_nil _

theorem changeInFields_kinds (oDef nDef : Definition) :
    producesOnly fieldKinds (changeInFields oDef nDef) := by
  simp only [changeInFields, checkFieldsAdded, checkFieldTypeChanged, producesOnly_append,
    producesOnly_flatMap]
  constructor
  · intro of _
    split
    · simp [producesOnly_singleton, fieldKinds]
    · simp only [producesOnly_append]
      refine ⟨⟨⟨⟨?_, ?_⟩, checkFieldDeprecationChanged_kinds _ _ _⟩, ?_⟩, ?_⟩
      · split <;> simp [producesOnly_nil, producesOnly_singleton, fieldKinds]
      · split <;> simp [producesOnly_nil, producesOnly_singleton, fieldKinds]
      · exact producesOnly_mono (changeInArgument_kinds _ _ _) (by decide)
      · exact producesOnly_mono (changeInTypeFieldDirectives_kinds _ _ _ _) (by decide)
  · intro nf _
    split <;> simp [producesOnly_nil, producesOnly_singleton, fieldKinds]

theorem changeInUnion_kinds (oDef nDef : Definition) :
    producesOnly unionKinds (changeInUnion oDef nDef) := by
  simp only [changeInUnion, checkUnionMemberRemoved, checkUnionMemberAdded,
    producesOnly_append, producesOnly_flatMap]
  constructor <;> intro a _ <;> split <;>
    simp [producesOnly_nil, producesOnly_singleton, unionKinds]

theorem changeInObject_kinds (oDef nDef : Definition) :
    producesOnly objectKinds (changeInObject oDef nDef) := by
  simp only [changeInObject, checkTypeInterfaceRemoved, checkTypeInterfacesAdded,
    producesOnly_append, producesOnly_flatMap]
  refine ⟨⟨⟨?_, ?_⟩, ?_⟩, ?_⟩
  · intro a _
    split <;> simp [producesOnly_nil, producesOnly_singleton, objectKinds]
  · intro a _
    split <;> simp [producesOnly_nil, producesOnly_singleton, objectKinds]
  · exact producesOnly_mono (changeInTypeFieldDirectives_kinds _ _ _ _) (by decide)
  · exact producesOnly_mono (changeInFields_kinds _ _) (by decide)

theorem changeInEnum_kinds (oDef nDef : Definition) :
    producesOnly enumKinds (changeInEnum oDef nDef) := by
  simp only [changeInEnum, checkEnumValuesAdded, checkEnumValueDeprecationChanged,
    producesOnly_append, producesOnly_flatMap]
  constructor
  · intro ov _
    split
    · simp [producesOnly_singleton, enumKinds]
    · simp only [producesOnly_append]
      refine ⟨?_, ?_, ?_⟩
      · split <;> simp [producesOnly_nil, producesOnly_singleton, enumKinds]
      · split <;> simp [producesOnly_nil, producesOnly_singleton, enumKinds]
      · split
        · split <;> simp [producesOnly_nil, producesOnly_singleton, enumKinds]
        · exact producesOnly_nil _
  · intro nv _
    split <;> simp [producesOnly_nil, producesOnly_singleton, enumKinds]

theorem changeInPersistedType_kinds (ot nt : Definition) :
    producesOnly persistedKinds (changeInPersistedType ot nt) := by
  simp only [changeInPersistedType, producesOnly_append]
  refine ⟨⟨⟨⟨⟨⟨?_, ?_⟩, ?_⟩, ?_⟩, ?_⟩, ?_⟩, ?_⟩
  · split
    · exact producesOnly_mono (changeInEnum_kinds _ _) (by decide)
    · exact producesOnly_nil _
  · split
    · exact producesOnly_mono (changeInInputFields_kinds _ _) (by decide)
    · exact producesOnly_nil _
  · split
    · exact producesOnly_append.mpr
        ⟨producesOnly_mono (changeInTypeFieldDirectives_kinds _ _ _ _) (by decide),
          producesOnly_mono (changeInFields_kinds _ _) (by decide)⟩
    · exact producesOnly_nil _
  · split
    · exact producesOnly_mono (changeInObject_kinds _ _) (by decide)
    · exact producesOnly_nil _
  · split
    · exact producesOnly_mono (changeInUnion_kinds _ _) (by decide)
    · exact producesOnly_nil _
  · split <;> simp [producesOnly_nil, producesOnly_singleton, persistedKinds]
  · split <;> simp [producesOnly_nil, producesOnly_singleton, persistedKinds]

theorem changeInDirective_kinds (oDirs nDirs : List DirectiveDefinition) :
    producesOnly directiveDefinitionKinds (changeInDirective oDirs nDirs) := by
  simp only [changeInDirective, checkDirectiveAdded, checkDirectiveLocationChanged,
    checkDirectiveRepeatableChanged, changeInDirectiveArguments, checkDirectiveArgumentAdded,
    checkDirectiveArgumentTypeChanged, producesOnly_append, producesOnly_flatMap]
  constructor
  · intro od _
    split
    · simp [producesOnly_singleton, directiveDefinitionKinds]
    · simp only [producesOnly_append, producesOnly_flatMap]
      refine ⟨⟨⟨⟨?_, ⟨?_, ?_⟩⟩, ⟨?_, ?_⟩⟩, ?_⟩, ?_⟩
      · split <;> simp [producesOnly_nil, producesOnly_singleton, directiveDefinitionKinds]
      · intro a _
        split <;> simp [producesOnly_nil, producesOnly_singleton, directiveDefinitionKinds]
      · intro a _
        split <;> simp [producesOnly_nil, producesOnly_singleton, directiveDefinitionKinds]
      · split <;> simp [producesOnly_nil, producesOnly_singleton, directiveDefinitionKinds]
      · split <;> simp [producesOnly_nil, producesOnly_singleton, directiveDefinitionKinds]
      · intro a _
        split
        · simp [producesOnly_singleton, directiveDefinitionKinds]
        · simp only [producesOnly_append]
          refine ⟨⟨?_, ?_⟩, ?_⟩ <;> split <;>
            simp [producesOnly_nil, producesOnly_singleton, directiveDefinitionKinds]
      · intro a _
        split
        · split <;> simp [producesOnly_singleton, directiveDefinitionKinds]
        · exact producesOnly_nil _
  · intro nd _
    split <;> simp [producesOnly_nil, producesOnly_singleton, directiveDefinitionKinds]

theorem changesInSchemaOperation_kinds (oldOp newOp : Option OperationTypeDefinition)
    (op : Operation) : producesOnly schemaKinds (changesInSchemaOperation oldOp newOp op) := by
  cases op <;> cases oldOp <;> cases newOp <;>
    simp only [changesInSchemaOperation, producesOnly_append] <;>
    refine ⟨⟨?_, ?_⟩, ?_⟩ <;>
    first
      | exact producesOnly_nil _
      | (split <;> simp [producesOnly_nil, producesOnly_singleton, schemaKinds])
      | simp [producesOnly_nil, producesOnly_singleton, schemaKinds]

theorem changeInSchema_kinds (oldSchemaDefs newSchemaDefs : List SchemaDefinition) :
    producesOnly schemaKinds (changeInSchema oldSchemaDefs newSchemaDefs) := by
  cases oldSchemaDefs <;> cases newSchemaDefs <;>
    simp only [changeInSchema, producesOnly_append] <;>
    first
      | exact producesOnly_nil _
      | exact ⟨⟨changesInSchemaOperation_kinds _ _ _, changesInSchemaOperation_kinds _ _ _⟩,
          changesInSchemaOperation_kinds _ _ _⟩

/-! ## Theorems: changes of one kind -/

theorem ofKind_nil (k : ChangeType) : ofKind k [] = [] := rfl

theorem ofKind_flatMap {α : Type} (k : ChangeType) (l : List α) (f : α → List Change) :
    ofKind k (l.flatMap f) = l.flatMap fun a => ofKind k (f a) := by
  simp [ofKind, List.filter_flatMap]

theorem ofKind_eq_self_of_producesOnly {k : ChangeType} {l : List Change}
    (h : producesOnly [k] l) : ofKind k l = l := by
  simp only [ofKind, List.filter_eq_self, decide_eq_true_eq]
  intro c hc
  simpa using h c hc

theorem map_ofKind_flatMap_filterMap {α σ : Type} (s : Change → σ) (k : ChangeType)
    (l : List α) (f : α → List Change) (q : α → Option σ)
    (h : ∀ a ∈ l, (ofKind k (f a)).map s = (q a).toList) :
    (ofKind k (l.flatMap f)).map s = l.filterMap q := by
  induction l with
  | nil => rfl
  | cons a rest ih =>
    rw [List.flatMap_cons, ofKind_append, List.map_append, h a (List.mem_cons_self _ _),
      ih fun b hb => h b (List.mem_cons_of_mem _ hb)]
    cases hq : q a <;> simp [List.filterMap_cons, hq]

theorem map_ofKind_flatMap_filter {α σ : Type} (s : Change → σ) (k : ChangeType)
    (l : List α) (f : α → List Change) (p : α → Bool) (g : α → σ)
    (h : ∀ a ∈ l, (ofKind k (f a)).map s = if p a = true then [g a] else []) :
    (ofKind k (l.flatMap f)).map s = (l.filter p).map g := by
  induction l with
  | nil => rfl
  | cons a rest ih =>
    rw [List.flatMap_cons, ofKind_append, List.map_append, h a (List.mem_cons_self _ _),
      ih fun b hb => h b (List.mem_cons_of_mem _ hb)]
    cases hp : p a <;> simp [List.filter_cons, hp]

theorem find?_name_eq_none {α : Type} (name : α → String) (l : List α) (n : String) :
    l.find? (fun it => name it == n) = none ↔ n ∉ l.map name := by
  simp only [List.find?_eq_none, beq_iff_eq, List.mem_map, not_exists, not_and]

theorem find?_name_isNone {α : Type} (name : α → String) (l : List α) (n : String) :
    (l.find? (fun it => name it == n)).isNone = decide (n ∉ l.map name) := by
  by_cases h : n ∈ l.map name
  · have hne : l.find? (fun it => name it == n) ≠ none := fun he =>
      (find?_name_eq_none name l n).mp he h
    cases hf : l.find? (fun it => name it == n) with
    | none => exact absurd hf hne
    | some y => simp [h]
  · simp [(find?_name_eq_none name l n).mpr h, h]

/-! ## Theorems: the type set diff -/

theorem checkTypeRemoved_producesOnly (oldSchemaDefs newSchemaDefs : List Definition)
    (persistedType : PersistedType) (isExtended : Bool) :
    producesOnly [.TypeRemoved]
      (checkTypeRemoved oldSchemaDefs newSchemaDefs persistedType isExtended).1 := by
  induction oldSchemaDefs generalizing persistedType with
  | nil => exact producesOnly_nil _
  | cons ot rest ih =>
    simp only [checkTypeRemoved]
    split
    · exact producesOnly_cons.mpr ⟨by simp, ih _⟩
    · exact ih _

theorem checkTypeAdded_producesOnly (oldSchemaDefs newSchemaDefs : List Definition)
    (isExtended : Bool) :
    producesOnly [.TypeAdded] (checkTypeAdded oldSchemaDefs newSchemaDefs isExtended) := by
  simp only [checkTypeAdded, producesOnly_flatMap]
  intro a _
  split <;> simp [producesOnly_nil, producesOnly_singleton]

theorem checkTypeRemoved_summary (oldSchemaDefs newSchemaDefs : List Definition)
    (persistedType : PersistedType) (isExtended : Bool) :
    (checkTypeRemoved oldSchemaDefs newSchemaDefs persistedType isExtended).1.map
        Change.summary =
      (oldSchemaDefs.filter fun ot => ot.Name ∉ newSchemaDefs.map fun nt => nt.Name).map
        fun ot => (ChangeType.TypeRemoved, Criticality.Breaking, ot.Name, ot.Position) := by
  induction oldSchemaDefs generalizing persistedType with
  | nil => rfl
  | cons ot rest ih =>
    simp only [checkTypeRemoved, List.filter_cons]
    by_cases h : ot.Name ∈ newSchemaDefs.map fun nt => nt.Name
    · have hne : DefinitionList.ForName newSchemaDefs ot.Name ≠ none := fun he =>
        (find?_name_eq_none (fun t : Definition => t.Name) newSchemaDefs ot.Name).mp he h
      cases hf : DefinitionList.ForName newSchemaDefs ot.Name with
      | none => exact absurd hf hne
      | some nt => simpa [h] using ih _
    · have hf : DefinitionList.ForName newSchemaDefs ot.Name = none :=
        (find?_name_eq_none (fun t : Definition => t.Name) newSchemaDefs ot.Name).mpr h
      simp [hf, h, Change.summary, ih]

theorem checkTypeAdded_summary (oldSchemaDefs newSchemaDefs : List Definition)
    (isExtended : Bool) :
    (checkTypeAdded oldSchemaDefs newSchemaDefs isExtended).map Change.summary =
      (newSchemaDefs.filter fun nt => nt.Name ∉ oldSchemaDefs.map fun ot => ot.Name).map
        fun nt => (ChangeType.TypeAdded, Criticality.NonBreaking, nt.Name, nt.Position) := by
  rw [← ofKind_eq_self_of_producesOnly (checkTypeAdded_producesOnly _ _ _)]
  unfold checkTypeAdded
  apply map_ofKind_flatMap_filter
  intro nt _
  by_cases h : nt.Name ∈ oldSchemaDefs.map fun ot => ot.Name
  · have hne : DefinitionList.ForName oldSchemaDefs nt.Name ≠ none := fun he =>
      (find?_name_eq_none (fun t : Definition => t.Name) oldSchemaDefs nt.Name).mp he h
    cases hf : DefinitionList.ForName oldSchemaDefs nt.Name with
    | none => exact absurd hf hne
    | some ot => simp [h, ofKind]
  · have hf : DefinitionList.ForName oldSchemaDefs nt.Name = none :=
      (find?_name_eq_none (fun t : Definition => t.Name) oldSchemaDefs nt.Name).mpr h
    simp [hf, h, ofKind, Change.summary]

theorem ofKind_TypeRemoved_FindChangesInSchemas (ord : MapOrder)
    (oldSchema newSchema : SchemaDocument) :
    ofKind .TypeRemoved (FindChangesInSchemas ord oldSchema newSchema) =
      (checkTypeRemoved oldSchema.Definitions newSchema.Definitions [] false).1 ++
      (checkTypeRemoved oldSchema.Extensions newSchema.Extensions
        (checkTypeRemoved oldSchema.Definitions newSchema.Definitions [] false).2 true).1 := by
  simp only [FindChangesInSchemas, changeInTypes, ofKind_append, ofKind_flatMap]
  rw [ofKind_eq_nil_of_producesOnly (changeInSchema_kinds _ _) _ (by decide),
    ofKind_eq_nil_of_producesOnly (changeInSchema_kinds _ _) _ (by decide),
    ofKind_eq_nil_of_producesOnly (changeInDirective_kinds _ _) _ (by decide),
    ofKind_eq_nil_of_producesOnly (checkTypeAdded_producesOnly _ _ _) _ (by decide),
    ofKind_eq_nil_of_producesOnly (checkTypeAdded_producesOnly _ _ _) _ (by decide),
    ofKind_eq_self_of_producesOnly (checkTypeRemoved_producesOnly _ _ _ _),
    ofKind_eq_self_of_producesOnly (checkTypeRemoved_producesOnly _ _ _ _)]
  have hp : (List.flatMap
      (ord.range (checkTypeRemoved oldSchema.Extensions newSchema.Extensions
        (checkTypeRemoved oldSchema.Definitions newSchema.Definitions [] false).2 true).2)
      fun a => ofKind ChangeType.TypeRemoved (changeInPersistedType a.2.1 a.2.2)) = [] := by
    rw [List.flatMap_eq_nil_iff]
    intro e _
    exact ofKind_eq_nil_of_producesOnly (changeInPersistedType_kinds _ _) _ (by decide)
  rw [hp]
  simp

theorem ofKind_TypeAdded_FindChangesInSchemas (ord : MapOrder)
    (oldSchema newSchema : SchemaDocument) :
    ofKind .TypeAdded (FindChangesInSchemas ord oldSchema newSchema) =
      checkTypeAdded oldSchema.Definitions newSchema.Definitions false ++
      checkTypeAdded oldSchema.Extensions newSchema.Extensions true := by
  simp only [FindChangesInSchemas, changeInTypes, ofKind_append, ofKind_flatMap]
  rw [ofKind_eq_nil_of_producesOnly (changeInSchema_kinds _ _) _ (by decide),
    ofKind_eq_nil_of_producesOnly (changeInSchema_kinds _ _) _ (by decide),
    ofKind_eq_nil_of_producesOnly (changeInDirective_kinds _ _) _ (by decide),
    ofKind_eq_nil_of_producesOnly (checkTypeRemoved_producesOnly _ _ _ _) _ (by decide),
    ofKind_eq_nil_of_producesOnly (checkTypeRemoved_producesOnly _ _ _ _) _ (by decide),
    ofKind_eq_self_of_producesOnly (checkTypeAdded_producesOnly _ _ _),
    ofKind_eq_self_of_producesOnly (checkTypeAdded_producesOnly _ _ _)]
  have hp : (List.flatMap
      (ord.range (checkTypeRemoved oldSchema.Extensions newSchema.Extensions
        (checkTypeRemoved oldSchema.Definitions newSchema.Definitions [] false).2 true).2)
      fun a => ofKind ChangeType.TypeAdded (changeInPersistedType a.2.1 a.2.2)) = [] := by
    rw [List.flatMap_eq_nil_iff]
    intro e _
    exact ofKind_eq_nil_of_producesOnly (changeInPersistedType_kinds _ _) _ (by decide)
  rw [hp]
  simp

/-- C13: the `TypeRemoved` changes of `FindChangesInSchemas` are, in order, one
for each old definition whose name no new definition has and then one for each
old extension whose name no new extension has, each Breaking with the type name
as path and the position of the old entry; the `TypeAdded` changes are likewise
one for each new definition and each new extension whose name no old entry of
the same list has, each NonBreaking with the position of the new entry. -/
theorem FindChangesInSchemas_type_set_diff (ord : MapOrder)
    (oldSchema newSchema : SchemaDocument) :
    (ofKind .TypeRemoved (FindChangesInSchemas ord oldSchema newSchema)).map Change.summary =
      ((oldSchema.Definitions.filter fun ot =>
          ot.Name ∉ newSchema.Definitions.map fun nt => nt.Name).map
        fun ot => (ChangeType.TypeRemoved, Criticality.Breaking, ot.Name, ot.Position)) ++
      ((oldSchema.Extensions.filter fun ot =>
          ot.Name ∉ newSchema.Extensions.map fun nt => nt.Name).map
        fun ot => (ChangeType.TypeRemoved, Criticality.Breaking, ot.Name, ot.Position)) ∧
    (ofKind .TypeAdded (FindChangesInSchemas ord oldSchema newSchema)).map Change.summary =
      ((newSchema.Definitions.filter fun nt =>
          nt.Name ∉ oldSchema.Definitions.map fun ot => ot.Name).map
        fun nt => (ChangeType.TypeAdded, Criticality.NonBreaking, nt.Name, nt.Position)) ++
      ((newSchema.Extensions.filter fun nt =>
          nt.Name ∉ oldSchema.Extensions.map fun ot => ot.Name).map
        fun nt => (ChangeType.TypeAdded, Criticality.NonBreaking, nt.Name, nt.Position)) := by
  rw [ofKind_TypeRemoved_FindChangesInSchemas, ofKind_TypeAdded_FindChangesInSchemas,
    List.map_append, List.map_append, checkTypeRemoved_summary, checkTypeRemoved_summary,
    checkTypeAdded_summary, checkTypeAdded_summary]
  exact ⟨rfl, rfl⟩

theorem map_path_eq_map_summary (l : List Change) :
    l.map (fun c => c.path) = (l.map Change.summary).map fun s => s.2.2.1 := by
  simp [Change.summary]

/-- C15: for all schema documents `a` and `b`, the paths of the `TypeAdded`
changes of `FindChangesInSchemas (a, b)` are, in order, the paths of the
`TypeRemoved` changes of `FindChangesInSchemas (b, a)`, and the paths of the
`TypeRemoved` changes of the first are those of the `TypeAdded` changes of the
second, in whatever order the two calls range over their maps. -/
theorem FindChangesInSchemas_added_removed_symmetry (ord₁ ord₂ : MapOrder)
    (a b : SchemaDocument) :
    (ofKind .TypeAdded (FindChangesInSchemas ord₁ a b)).map (fun c => c.path) =
      (ofKind .TypeRemoved (FindChangesInSchemas ord₂ b a)).map (fun c => c.path) ∧
    (ofKind .TypeRemoved (FindChangesInSchemas ord₁ a b)).map (fun c => c.path) =
      (ofKind .TypeAdded (FindChangesInSchemas ord₂ b a)).map (fun c => c.path) := by
  simp only [map_path_eq_map_summary, ofKind_TypeRemoved_FindChangesInSchemas,
    ofKind_TypeAdded_FindChangesInSchemas, List.map_append, checkTypeRemoved_summary,
    checkTypeAdded_summary, List.map_map]
  exact ⟨rfl, rfl⟩

/-! ## Theorems: added arguments and input fields, enum values, union members -/

theorem checkFieldArgumentAdded_summary (oDef nDef : FieldDefinition) (typeName : String) :
    (ofKind .FieldArgumentAdded (checkFieldArgumentAdded oDef nDef typeName)).map
        Change.summary =
      (nDef.Arguments.filter fun nArg => nArg.Name ∉ oDef.Arguments.map fun a => a.Name).map
        fun nArg =>
          (ChangeType.FieldArgumentAdded,
            if nArg.Type_.NonNull then Criticality.Breaking else Criticality.Dangerous,
            typeName ++ "." ++ oDef.Name ++ "." ++ nArg.Name, nArg.Position) := by
  unfold checkFieldArgumentAdded
  apply map_ofKind_flatMap_filter
  intro nArg _
  by_cases h : nArg.Name ∈ oDef.Arguments.map fun a => a.Name
  · have hne : ArgumentDefinitionList.ForName oDef.Arguments nArg.Name ≠ none := fun he =>
      (find?_name_eq_none (fun a : ArgumentDefinition => a.Name) oDef.Arguments nArg.Name).mp
        he h
    cases hf : ArgumentDefinitionList.ForName oDef.Arguments nArg.Name with
    | none => exact absurd hf hne
    | some oArg => simp [h, ofKind]
  · have hf : ArgumentDefinitionList.ForName oDef.Arguments nArg.Name = none :=
      (find?_name_eq_none (fun a : ArgumentDefinition => a.Name) oDef.Arguments nArg.Name).mpr h
    cases hn : nArg.Type_.NonNull <;> simp [hf, h, hn, ofKind, Change.summary]

theorem append_eq_right_of_nil {α : Type} {l₁ l₂ : List α} (h : l₁ = []) : l₁ ++ l₂ = l₂ := by
  rw [h, List.nil_append]

theorem append_eq_left_of_nil {α : Type} {l₁ l₂ : List α} (h : l₂ = []) : l₁ ++ l₂ = l₁ := by
  rw [h, List.append_nil]

theorem ofKind_flatMap_eq_nil {α : Type} (k : ChangeType) (l : List α) (f : α → List Change)
    (h : ∀ a ∈ l, ofKind k (f a) = []) : ofKind k (l.flatMap f) = [] := by
  rw [ofKind_flatMap, List.flatMap_eq_nil_iff]
  exact h

theorem ofKind_FieldArgumentAdded_changeInArgument (oDef nDef : FieldDefinition)
    (typeName : String) :
    ofKind .FieldArgumentAdded (changeInArgument oDef nDef typeName) =
      ofKind .FieldArgumentAdded (checkFieldArgumentAdded oDef nDef typeName) := by
  simp only [changeInArgument, ofKind_append]
  apply append_eq_right_of_nil
  apply ofKind_flatMap_eq_nil
  intro oArg _
  split
  · simp [ofKind]
  · simp only [ofKind_append, checkFieldArgumentTypeChanged]
    split <;> split <;> split <;> simp [ofKind]

theorem checkInputFieldsAdded_summary (oDef nDef : Definition) :
    (ofKind .InputFieldAdded (checkInputFieldsAdded oDef nDef)).map Change.summary =
      (nDef.Fields.filter fun nf => nf.Name ∉ oDef.Fields.map fun f => f.Name).map
        fun nf =>
          (ChangeType.InputFieldAdded,
            if nf.Type_.NonNull then Criticality.Breaking else Criticality.Dangerous,
            oDef.Name ++ "." ++ nf.Name, nf.Position) := by
  unfold checkInputFieldsAdded
  apply map_ofKind_flatMap_filter
  intro nf _
  by_cases h : nf.Name ∈ oDef.Fields.map fun f => f.Name
  · have hne : FieldList.ForName oDef.Fields nf.Name ≠ none := fun he =>
      (find?_name_eq_none (fun f : FieldDefinition => f.Name) oDef.Fields nf.Name).mp he h
    cases hf : FieldList.ForName oDef.Fields nf.Name with
    | none => exact absurd hf hne
    | some of => simp [h, ofKind]
  · have hf : FieldList.ForName oDef.Fields nf.Name = none :=
      (find?_name_eq_none (fun f : FieldDefinition => f.Name) oDef.Fields nf.Name).mpr h
    cases hn : nf.Type_.NonNull <;> simp [hf, h, hn, ofKind, Change.summary]

theorem ofKind_InputFieldAdded_changeInInputFields (oDef nDef : Definition) :
    ofKind .InputFieldAdded (changeInInputFields oDef nDef) =
      ofKind .InputFieldAdded (checkInputFieldsAdded oDef nDef) := by
  simp only [changeInInputFields, ofKind_append]
  apply append_eq_right_of_nil
  apply ofKind_flatMap_eq_nil
  intro of _
  split
  · simp [ofKind]
  · simp only [ofKind_append, checkInputFieldTypeValueChanged]
    rw [ofKind_eq_nil_of_producesOnly (changeInTypeFieldDirectives_kinds _ _ _ _) _
      (by decide)]
    split <;> split <;> split <;> simp [ofKind]

/-- C12: among the changes of `changeInArgument` for a field present on both
sides, the `FieldArgumentAdded` changes are, in order, one for each new argument
whose name no old argument has, Breaking when its type is non-null at the top
level and Dangerous otherwise; among the changes of `changeInInputFields` for an
input object present on both sides, the `InputFieldAdded` changes are likewise
one for each new field whose name no old field has. -/
theorem added_arguments_and_input_fields (oField nField : FieldDefinition)
    (typeName : String) (oDef nDef : Definition) :
    (ofKind .FieldArgumentAdded (changeInArgument oField nField typeName)).map
        Change.summary =
      ((nField.Arguments.filter fun nArg =>
          nArg.Name ∉ oField.Arguments.map fun a => a.Name).map
        fun nArg =>
          (ChangeType.FieldArgumentAdded,
            if nArg.Type_.NonNull then Criticality.Breaking else Criticality.Dangerous,
            typeName ++ "." ++ oField.Name ++ "." ++ nArg.Name, nArg.Position)) ∧
    (ofKind .InputFieldAdded (changeInInputFields oDef nDef)).map Change.summary =
      ((nDef.Fields.filter fun nf => nf.Name ∉ oDef.Fields.map fun f => f.Name).map
        fun nf =>
          (ChangeType.InputFieldAdded,
            if nf.Type_.NonNull then Criticality.Breaking else Criticality.Dangerous,
            oDef.Name ++ "." ++ nf.Name, nf.Position)) :=
  ⟨by rw [ofKind_FieldArgumentAdded_changeInArgument, checkFieldArgumentAdded_summary],
    by rw [ofKind_InputFieldAdded_changeInInputFields, checkInputFieldsAdded_summary]⟩

theorem checkEnumValueDeprecationChanged_kinds (oDef : Definition)
    (nv ov : EnumValueDefinition) :
    producesOnly [.EnumValueDeprecationAdded, .EnumValueDeprecationReasonChanged]
      (checkEnumValueDeprecationChanged oDef nv ov) := by
  simp only [checkEnumValueDeprecationChanged, producesOnly_append]
  refine ⟨?_, ?_⟩
  · split <;> simp [producesOnly_nil, producesOnly_singleton]
  · split
    · split <;> simp [producesOnly_nil, producesOnly_singleton]
    · exact producesOnly_nil _

theorem checkEnumValuesAdded_summary (oDef nDef : Definition) :
    (ofKind .EnumValueAdded (checkEnumValuesAdded oDef nDef)).map Change.summary =
      (nDef.EnumValues.filter fun nv => nv.Name ∉ oDef.EnumValues.map fun v => v.Name).map
        fun nv =>
          (ChangeType.EnumValueAdded, Criticality.Dangerous, oDef.Name ++ "." ++ nv.Name,
            nv.Position) := by
  unfold checkEnumValuesAdded
  apply map_ofKind_flatMap_filter
  intro nv _
  by_cases h : nv.Name ∈ oDef.EnumValues.map fun v => v.Name
  · have hne : EnumValueList.ForName oDef.EnumValues nv.Name ≠ none := fun he =>
      (find?_name_eq_none (fun v : EnumValueDefinition => v.Name) oDef.EnumValues
        nv.Name).mp he h
    cases hf : EnumValueList.ForName oDef.EnumValues nv.Name with
    | none => exact absurd hf hne
    | some ov => simp [h, ofKind]
  · have hf : EnumValueList.ForName oDef.EnumValues nv.Name = none :=
      (find?_name_eq_none (fun v : EnumValueDefinition => v.Name) oDef.EnumValues
        nv.Name).mpr h
    simp [hf, h, ofKind, Change.summary]

/-- C17: among the changes of `changeInEnum`, the `EnumValueRemoved` changes
are, in order, one for each old value whose name no new value has, each
Breaking, and the `EnumValueAdded` changes are one for each new value whose name
no old value has, each Dangerous. -/
theorem changeInEnum_value_set_diff (oDef nDef : Definition) :
    (ofKind .EnumValueRemoved (changeInEnum oDef nDef)).map Change.summary =
      ((oDef.EnumValues.filter fun ov => ov.Name ∉ nDef.EnumValues.map fun v => v.Name).map
        fun ov =>
          (ChangeType.EnumValueRemoved, Criticality.Breaking, oDef.Name ++ "." ++ ov.Name,
            ov.Position)) ∧
    (ofKind .EnumValueAdded (changeInEnum oDef nDef)).map Change.summary =
      ((nDef.EnumValues.filter fun nv => nv.Name ∉ oDef.EnumValues.map fun v => v.Name).map
        fun nv =>
          (ChangeType.EnumValueAdded, Criticality.Dangerous, oDef.Name ++ "." ++ nv.Name,
            nv.Position)) := by
  have hadd : producesOnly [ChangeType.EnumValueAdded] (checkEnumValuesAdded oDef nDef) := by
    simp only [checkEnumValuesAdded, producesOnly_flatMap]
    intro nv _
    split <;> simp [producesOnly_nil, producesOnly_singleton]
  constructor
  · simp only [changeInEnum, ofKind_append, List.map_append]
    rw [ofKind_eq_nil_of_producesOnly hadd _ (by decide), List.map_nil, List.append_nil]
    apply map_ofKind_flatMap_filter
    intro ov _
    by_cases h : ov.Name ∈ nDef.EnumValues.map fun v => v.Name
    · have hne : EnumValueList.ForName nDef.EnumValues ov.Name ≠ none := fun he =>
        (find?_name_eq_none (fun v : EnumValueDefinition => v.Name) nDef.EnumValues
          ov.Name).mp he h
      cases hf : EnumValueList.ForName nDef.EnumValues ov.Name with
      | none => exact absurd hf hne
      | some nv =>
        simp only [ofKind_append]
        rw [ofKind_eq_nil_of_producesOnly (checkEnumValueDeprecationChanged_kinds _ _ _) _
          (by decide)]
        split <;> simp [h, ofKind]
    · have hf : EnumValueList.ForName nDef.EnumValues ov.Name = none :=
        (find?_name_eq_none (fun v : EnumValueDefinition => v.Name) nDef.EnumValues
          ov.Name).mpr h
      simp [hf, h, ofKind, Change.summary]
  · simp only [changeInEnum, ofKind_append, List.map_append]
    rw [checkEnumValuesAdded_summary]
    apply append_eq_right_of_nil
    rw [List.map_eq_nil_iff]
    apply ofKind_flatMap_eq_nil
    intro ov _
    split
    · simp [ofKind]
    · simp only [ofKind_append]
      rw [ofKind_eq_nil_of_producesOnly (checkEnumValueDeprecationChanged_kinds _ _ _) _
        (by decide)]
      split <;> simp [ofKind]

theorem flatMap_ite_singleton {α β : Type} (l : List α) (p : α → Bool) (f : α → β) :
    (l.flatMap fun a => if p a = true then [f a] else []) = (l.filter p).map f := by
  induction l with
  | nil => rfl
  | cons a rest ih =>
    rw [List.flatMap_cons, ih]
    cases hp : p a <;> simp [List.filter_cons, hp]

theorem not_any_eq (l : List String) (x : String) :
    (!(l.any fun y => decide (x = y))) = decide (x ∉ l) := by
  by_cases h : x ∈ l
  · have : (l.any fun y => decide (x = y)) = true := by
      simp only [List.any_eq_true, decide_eq_true_eq]
      exact ⟨x, h, rfl⟩
    simp [this, h]
  · have : (l.any fun y => decide (x = y)) = false := by
      rw [Bool.eq_false_iff]
      simp only [ne_eq, List.any_eq_true, decide_eq_true_eq, not_exists, not_and]
      intro y hy he
      exact h (he ▸ hy)
    simp [this, h]

theorem not_any_eq' (l : List String) (x : String) :
    (!(l.any fun y => decide (y = x))) = decide (x ∉ l) := by
  rw [← not_any_eq]
  congr 2
  funext y
  simp [eq_comm]

/-- C18: the changes of `changeInUnion` are, in order, one `UnionMemberRemoved`,
Breaking, for each old member that is not a new member, then one
`UnionMemberAdded`, Dangerous, for each new member that is not an old member,
and nothing else; two unions with the same members, in any order, yield no
change. -/
theorem changeInUnion_member_set_diff (oDef nDef : Definition) :
    changeInUnion oDef nDef =
      ((oDef.Types.filter fun ot => ot ∉ nDef.Types).map fun ot =>
        { changeType := .UnionMemberRemoved
          criticalityLevel := .Breaking
          message := "Member '" ++ ot ++ "' was removed from Union type '" ++ oDef.Name ++ "'"
          path := oDef.Name
          position := nDef.Position }) ++
      ((nDef.Types.filter fun nt => nt ∉ oDef.Types).map fun nt =>
        { changeType := .UnionMemberAdded
          criticalityLevel := .Dangerous
          message := "Member '" ++ nt ++ "' was added to Union type '" ++ nDef.Name ++ "'"
          path := oDef.Name
          position := nDef.Position }) ∧
    ((∀ m, m ∈ oDef.Types ↔ m ∈ nDef.Types) → changeInUnion oDef nDef = []) := by
  have h : changeInUnion oDef nDef =
      ((oDef.Types.filter fun ot => ot ∉ nDef.Types).map fun ot =>
        { changeType := .UnionMemberRemoved
          criticalityLevel := .Breaking
          message := "Member '" ++ ot ++ "' was removed from Union type '" ++ oDef.Name ++ "'"
          path := oDef.Name
          position := nDef.Position }) ++
      ((nDef.Types.filter fun nt => nt ∉ oDef.Types).map fun nt =>
        { changeType := .UnionMemberAdded
          criticalityLevel := .Dangerous
          message := "Member '" ++ nt ++ "' was added to Union type '" ++ nDef.Name ++ "'"
          path := oDef.Name
          position := nDef.Position }) := by
    simp only [changeInUnion, checkUnionMemberRemoved, checkUnionMemberAdded, not_any_eq,
      not_any_eq']
    rw [flatMap_ite_singleton, flatMap_ite_singleton]
  refine ⟨h, fun hm => ?_⟩
  rw [h]
  have h₁ : (oDef.Types.filter fun ot => decide (ot ∉ nDef.Types)) = [] := by
    rw [List.filter_eq_nil_iff]
    intro m hmem
    simp [(hm m).mp hmem]
  have h₂ : (nDef.Types.filter fun nt => decide (nt ∉ oDef.Types)) = [] := by
    rw [List.filter_eq_nil_iff]
    intro m hmem
    simp [(hm m).mpr hmem]
  rw [h₁, h₂]
  rfl

/-- C11: every change of `FindChangesInSchemas` whose kind is one of the seven
description-changed kinds has criticality NonBreaking. -/
theorem FindChangesInSchemas_description_changed_nonBreaking (ord : MapOrder)
    (oldSchema newSchema : SchemaDocument) (c : Change)
    (hc : c ∈ FindChangesInSchemas ord oldSchema newSchema)
    (hk : c.changeType ∈ [ChangeType.TypeDescriptionChanged, .FieldDescriptionChanged,
      .FieldArgumentDescriptionChanged, .InputFieldDescriptionChanged,
      .EnumValueDescriptionChanged, .DirectiveDescriptionChanged,
      .DirectiveArgumentDescriptionChanged]) :
    c.criticalityLevel = .NonBreaking := by
  have hf := FindChangesInSchemas_fixed ord oldSchema newSchema c hc
  unfold Change.fixed at hf
  simp only [List.mem_cons, List.mem_singleton, List.not_mem_nil, or_false] at hk
  rcases hk with h | h | h | h | h | h | h <;> rw [h] at hf <;> exact hf

/-! ## Theorems: directive applications -/

theorem changeInTypeFieldDirectives_eq_flatMap (oDirs nDirs : List Directive)
    (typeName : String) (pos : Option Position) :
    changeInTypeFieldDirectives oDirs nDirs typeName pos =
      oDirs.flatMap (changeInTypeFieldDirectivesBody oDirs nDirs typeName pos) ++
        checkFieldDirectiveAdded oDirs nDirs typeName := rfl

theorem changeInTypeFieldDirectivesBody_one_to_one (oDirs nDirs : List Directive)
    (typeName : String) (pos : Option Position) (od nd : Directive)
    (hname : od.Name ≠ deprecatedDirective)
    (ho : DirectiveList.ForNames oDirs od.Name = [od])
    (hn : DirectiveList.ForNames nDirs od.Name = [nd]) :
    changeInTypeFieldDirectivesBody oDirs nDirs typeName pos od =
      checkFieldDirectiveArgumentChanged od nd typeName pos ++
        checkFieldDirectiveArgumentAdded od nd typeName := by
  simp [changeInTypeFieldDirectivesBody, hname, ho, hn]

theorem checkFieldDirectiveAdded_of_applied (oDirs : List Directive) (typeName : String)
    (od nd : Directive) (hod : od ∈ oDirs) (hnd : nd.Name = od.Name) :
    checkFieldDirectiveAdded oDirs [nd] typeName = [] := by
  obtain ⟨y, hy⟩ := find?_name_of_mem (fun d : Directive => d.Name) oDirs od hod
  have hf : DirectiveList.ForName oDirs nd.Name = some y := by
    rw [hnd]
    exact hy
  simp [checkFieldDirectiveAdded, hf]

theorem checkFieldDirectiveArgumentChanged_kinds (od nd : Directive) (typeName : String)
    (pos : Option Position) :
    producesOnly [.DirectiveArgumentRemoved, .DirectiveArgumentValueChanged]
      (checkFieldDirectiveArgumentChanged od nd typeName pos) := by
  simp only [checkFieldDirectiveArgumentChanged, producesOnly_flatMap]
  intro a _
  split
  · simp [producesOnly_singleton]
  · split <;> simp [producesOnly_nil, producesOnly_singleton]

theorem checkFieldDirectiveArgumentAdded_kinds (od nd : Directive) (typeName : String) :
    producesOnly [.DirectiveArgumentAdded]
      (checkFieldDirectiveArgumentAdded od nd typeName) := by
  simp only [checkFieldDirectiveArgumentAdded, producesOnly_flatMap]
  intro a _
  split <;> simp [producesOnly_nil, producesOnly_singleton]

theorem checkFieldDirectiveArgumentChanged_removed (od nd : Directive) (typeName : String)
    (pos : Option Position) :
    (ofKind .DirectiveArgumentRemoved
        (checkFieldDirectiveArgumentChanged od nd typeName pos)).map Change.summary =
      (od.Arguments.filter fun a => a.Name ∉ nd.Arguments.map fun b => b.Name).map
        fun a =>
          (ChangeType.DirectiveArgumentRemoved, Criticality.Dangerous,
            "@" ++ od.Name ++ "." ++ a.Name, pos) := by
  unfold checkFieldDirectiveArgumentChanged
  apply map_ofKind_flatMap_filter
  intro a _
  by_cases h : a.Name ∈ nd.Arguments.map fun b => b.Name
  · have hne : ArgumentList.ForName nd.Arguments a.Name ≠ none := fun he =>
      (find?_name_eq_none (fun b : Argument => b.Name) nd.Arguments a.Name).mp he h
    cases hf : ArgumentList.ForName nd.Arguments a.Name with
    | none => exact absurd hf hne
    | some n =>
      by_cases hv : valueString a.Value = valueString n.Value <;> simp [h, hv, ofKind]
  · have hf : ArgumentList.ForName nd.Arguments a.Name = none :=
      (find?_name_eq_none (fun b : Argument => b.Name) nd.Arguments a.Name).mpr h
    simp [hf, h, ofKind, Change.summary]

theorem checkFieldDirectiveArgumentChanged_valueChanged (od nd : Directive)
    (typeName : String) (pos : Option Position) :
    (ofKind .DirectiveArgumentValueChanged
        (checkFieldDirectiveArgumentChanged od nd typeName pos)).map Change.summary =
      od.Arguments.filterMap fun a =>
        match ArgumentList.ForName nd.Arguments a.Name with
        | some n =>
          if valueString a.Value ≠ valueString n.Value then
            some (ChangeType.DirectiveArgumentValueChanged, Criticality.Dangerous,
              "@" ++ od.Name ++ "." ++ a.Name, n.Position)
          else none
        | none => none := by
  unfold checkFieldDirectiveArgumentChanged
  apply map_ofKind_flatMap_filterMap
  intro a _
  cases hf : ArgumentList.ForName nd.Arguments a.Name with
  | none => simp [ofKind]
  | some n =>
    by_cases hv : valueString a.Value = valueString n.Value <;>
      simp [hv, ofKind, Change.summary]

theorem checkFieldDirectiveArgumentAdded_added (od nd : Directive) (typeName : String) :
    (ofKind .DirectiveArgumentAdded
        (checkFieldDirectiveArgumentAdded od nd typeName)).map Change.summary =
      (nd.Arguments.filter fun a => a.Name ∉ od.Arguments.map fun b => b.Name).map
        fun a =>
          (ChangeType.DirectiveArgumentAdded, Criticality.NonBreaking,
            typeName ++ ".@" ++ od.Name, a.Position) := by
  unfold checkFieldDirectiveArgumentAdded
  apply map_ofKind_flatMap_filter
  intro a _
  by_cases h : a.Name ∈ od.Arguments.map fun b => b.Name
  · have hne : ArgumentList.ForName od.Arguments a.Name ≠ none := fun he =>
      (find?_name_eq_none (fun b : Argument => b.Name) od.Arguments a.Name).mp he h
    cases hf : ArgumentList.ForName od.Arguments a.Name with
    | none => exact absurd hf hne
    | some n => simp [h, ofKind]
  · have hf : ArgumentList.ForName od.Arguments a.Name = none :=
      (find?_name_eq_none (fun b : Argument => b.Name) od.Arguments a.Name).mpr h
    simp [hf, h, ofKind, Change.summary]

/-- C19: when a directive other than `@deprecated` is applied exactly once on
the old side, as `od`, and exactly once on the new side, as `nd`, what
`changeInTypeFieldDirectives` appends for `od` is the comparison of the
arguments of `od` and `nd`, and the new application is not reported as added.
That comparison holds, in order, one `DirectiveArgumentRemoved`, Dangerous, for
each old argument whose name `nd` lacks, one `DirectiveArgumentValueChanged`,
Dangerous, for each old argument whose name `nd` has with another printed
value, one `DirectiveArgumentAdded`, NonBreaking, for each new argument whose
name `od` lacks, and no change of another kind. -/
theorem changeInTypeFieldDirectives_one_to_one (oDirs nDirs : List Directive)
    (typeName : String) (pos : Option Position) (od nd : Directive)
    (hname : od.Name ≠ deprecatedDirective)
    (ho : DirectiveList.ForNames oDirs od.Name = [od])
    (hn : DirectiveList.ForNames nDirs od.Name = [nd]) :
    changeInTypeFieldDirectives oDirs nDirs typeName pos =
      oDirs.flatMap (changeInTypeFieldDirectivesBody oDirs nDirs typeName pos) ++
        checkFieldDirectiveAdded oDirs nDirs typeName ∧
    checkFieldDirectiveAdded oDirs [nd] typeName = [] ∧
    producesOnly [.DirectiveArgumentRemoved, .DirectiveArgumentValueChanged,
        .DirectiveArgumentAdded]
      (changeInTypeFieldDirectivesBody oDirs nDirs typeName pos od) ∧
    (ofKind .DirectiveArgumentRemoved
        (changeInTypeFieldDirectivesBody oDirs nDirs typeName pos od)).map Change.summary =
      ((od.Arguments.filter fun a => a.Name ∉ nd.Arguments.map fun b => b.Name).map
        fun a =>
          (ChangeType.DirectiveArgumentRemoved, Criticality.Dangerous,
            "@" ++ od.Name ++ "." ++ a.Name, pos)) ∧
    (ofKind .DirectiveArgumentValueChanged
        (changeInTypeFieldDirectivesBody oDirs nDirs typeName pos od)).map Change.summary =
      (od.Arguments.filterMap fun a =>
        match ArgumentList.ForName nd.Arguments a.Name with
        | some n =>
          if valueString a.Value ≠ valueString n.Value then
            some (ChangeType.DirectiveArgumentValueChanged, Criticality.Dangerous,
              "@" ++ od.Name ++ "." ++ a.Name, n.Position)
          else none
        | none => none) ∧
    (ofKind .DirectiveArgumentAdded
        (changeInTypeFieldDirectivesBody oDirs nDirs typeName pos od)).map Change.summary =
      ((nd.Arguments.filter fun a => a.Name ∉ od.Arguments.map fun b => b.Name).map
        fun a =>
          (ChangeType.DirectiveArgumentAdded, Criticality.NonBreaking,
            typeName ++ ".@" ++ od.Name, a.Position)) := by
  have hod : od ∈ oDirs := by
    have hm : od ∈ DirectiveList.ForNames oDirs od.Name := by simp [ho]
    exact (List.mem_filter.mp hm).1
  have hnd : nd.Name = od.Name := by
    have hm : nd ∈ DirectiveList.ForNames nDirs od.Name := by simp [hn]
    simpa using (List.mem_filter.mp hm).2
  have hb := changeInTypeFieldDirectivesBody_one_to_one oDirs nDirs typeName pos od nd hname
    ho hn
  have hc := checkFieldDirectiveArgumentChanged_kinds od nd typeName pos
  have ha := checkFieldDirectiveArgumentAdded_kinds od nd typeName
  refine ⟨rfl, checkFieldDirectiveAdded_of_applied oDirs typeName od nd hod hnd, ?_, ?_, ?_, ?_⟩
  · rw [hb]
    exact producesOnly_append.mpr
      ⟨producesOnly_mono hc (by decide), producesOnly_mono ha (by decide)⟩
  · rw [hb, ofKind_append, ofKind_eq_nil_of_producesOnly ha _ (by decide), List.append_nil,
      checkFieldDirectiveArgumentChanged_removed]
  · rw [hb, ofKind_append, ofKind_eq_nil_of_producesOnly ha _ (by decide), List.append_nil,
      checkFieldDirectiveArgumentChanged_valueChanged]
  · rw [hb, ofKind_append, ofKind_eq_nil_of_producesOnly hc _ (by decide), List.nil_append,
      checkFieldDirectiveArgumentAdded_added]

/-- C19 (witness): `@key(field1: "isbn", field2: "title")` changed to
`@key(field1: "isbn title", field3: "x")` on the type `Book`: one argument is
removed, one has its value changed and one is added. -/
theorem changeInTypeFieldDirectives_one_to_one_witness :
    (changeInTypeFieldDirectives
        [keyDirective [exampleValue 1 "field1" "isbn", exampleValue 2 "field2" "title"]]
        [keyDirective [exampleValue 3 "field1" "isbn title", exampleValue 4 "field3" "x"]]
        "Book" (examplePos 1 6)).map Change.summary =
      [(.DirectiveArgumentValueChanged, .Dangerous, "@key.field1", examplePos 1 13),
       (.DirectiveArgumentRemoved, .Dangerous, "@key.field2", examplePos 1 6),
       (.DirectiveArgumentAdded, .NonBreaking, "Book.@key", examplePos 1 14)] ∧
    (ofKind .DirectiveArgumentAdded
        (changeInTypeFieldDirectivesBody
          [keyDirective [exampleValue 1 "field1" "isbn", exampleValue 2 "field2" "title"]]
          [keyDirective [exampleValue 3 "field1" "isbn title", exampleValue 4 "field3" "x"]]
          "Book" (examplePos 1 6)
          (keyDirective [exampleValue 1 "field1" "isbn", exampleValue 2 "field2" "title"]))).map
        Change.summary =
      [(.DirectiveArgumentAdded, .NonBreaking, "Book.@key", examplePos 1 14)] :=
  ⟨by decide,
    (changeInTypeFieldDirectives_one_to_one
      [keyDirective [exampleValue 1 "field1" "isbn", exampleValue 2 "field2" "title"]]
      [keyDirective [exampleValue 3 "field1" "isbn title", exampleValue 4 "field3" "x"]]
      "Book" (examplePos 1 6)
      (keyDirective [exampleValue 1 "field1" "isbn", exampleValue 2 "field2" "title"])
      (keyDirective [exampleValue 3 "field1" "isbn title", exampleValue 4 "field3" "x"])
      (by decide) (by decide) (by decide)).2.2.2.2.2⟩

theorem sameArgValsLoop_eq_true (nd : Directive) (args : List Argument) (flag : Bool)
    (h : sameArgValsLoop nd args flag = true) :
    (flag = true ∧ args = []) ∨
    ∀ oArg ∈ args,
      (ArgumentList.ForName nd.Arguments oArg.Name).map (fun n => valueString n.Value) =
        some (valueString oArg.Value) := by
  induction args generalizing flag with
  | nil => exact Or.inl ⟨by simpa [sameArgValsLoop] using h, rfl⟩
  | cons a rest ih =>
    right
    simp only [sameArgValsLoop] at h
    cases hf : ArgumentList.ForName nd.Arguments a.Name with
    | none => simp [hf] at h
    | some n =>
      simp only [hf] at h
      split at h
      · rename_i hv
        intro oArg ho
        rcases List.mem_cons.mp ho with rfl | ho
        · simp [hf, hv]
        · rcases ih true h with ⟨-, hnil⟩ | hall
          · rw [hnil] at ho
            cases ho
          · exact hall oArg ho
      · cases h

theorem haveSameArgValsLoop_eq_true (od : Directive) (l : List Directive) (flag : Bool)
    (h : haveSameArgValsLoop od l flag = true) :
    flag = true ∨
    ∃ nd ∈ l, od.Arguments.length = nd.Arguments.length ∧
      ∀ oArg ∈ od.Arguments,
        (ArgumentList.ForName nd.Arguments oArg.Name).map (fun n => valueString n.Value) =
          some (valueString oArg.Value) := by
  induction l generalizing flag with
  | nil => exact Or.inl (by simpa [haveSameArgValsLoop] using h)
  | cons nd rest ih =>
    simp only [haveSameArgValsLoop] at h
    split at h
    · rename_i hlen
      split at h
      · rename_i hs
        rcases sameArgValsLoop_eq_true nd od.Arguments flag hs with ⟨hfl, -⟩ | hall
        · exact Or.inl hfl
        · exact Or.inr ⟨nd, List.mem_cons_self _ _, hlen, hall⟩
      · rename_i hs
        rcases ih _ h with hfl | ⟨x, hx, hm⟩
        · exact absurd hfl hs
        · exact Or.inr ⟨x, List.mem_cons_of_mem _ hx, hm⟩
    · rcases ih _ h with hfl | ⟨x, hx, hm⟩
      · exact Or.inl hfl
      · exact Or.inr ⟨x, List.mem_cons_of_mem _ hx, hm⟩

/-- C20: when a directive other than `@deprecated` is applied more than once
on the old or on the new side and at least once on the new side, and an old
application `od` of it has no new application with as many arguments that gives
every argument name of `od` the printed value `od` gives it, then
`changeInTypeFieldDirectives` emits a `DirectiveChanged` change of criticality
Dangerous. -/
theorem changeInTypeFieldDirectives_repeated_changed (oDirs nDirs : List Directive)
    (typeName : String) (pos : Option Position) (od : Directive) (hod : od ∈ oDirs)
    (hname : od.Name ≠ deprecatedDirective)
    (hrep : 1 < (DirectiveList.ForNames oDirs od.Name).length ∨
      1 < (DirectiveList.ForNames nDirs od.Name).length)
    (hnew : 1 ≤ (DirectiveList.ForNames nDirs od.Name).length)
    (hno : ∀ nd ∈ DirectiveList.ForNames nDirs od.Name,
      ¬ (od.Arguments.length = nd.Arguments.length ∧
        ∀ oArg ∈ od.Arguments,
          (ArgumentList.ForName nd.Arguments oArg.Name).map (fun n => valueString n.Value) =
            some (valueString oArg.Value))) :
    ∃ c ∈ changeInTypeFieldDirectives oDirs nDirs typeName pos,
      c.changeType = .DirectiveChanged ∧ c.criticalityLevel = .Dangerous ∧
        c.path = typeName := by
  have hloop : haveSameArgValsLoop od (DirectiveList.ForNames nDirs od.Name) false = false := by
    rw [← Bool.not_eq_true]
    intro ht
    rcases haveSameArgValsLoop_eq_true od _ false ht with hf | ⟨nd, hnd, hm⟩
    · cases hf
    · exact hno nd hnd hm
  have hzero : ¬ (DirectiveList.ForNames nDirs od.Name).length = 0 := by omega
  have hone : ¬ ((DirectiveList.ForNames nDirs od.Name).length = 1 ∧
      (DirectiveList.ForNames oDirs od.Name).length = 1) := by omega
  refine ⟨{ changeType := .DirectiveChanged
            criticalityLevel := .Dangerous
            message := "Directive '@" ++ od.Name ++ "' was changed on '" ++ typeName ++ "'"
            path := typeName
            position := pos }, ?_, rfl, rfl, rfl⟩
  rw [changeInTypeFieldDirectives_eq_flatMap]
  refine List.mem_append_left _ (List.mem_flatMap.mpr ⟨od, hod, ?_⟩)
  simp [changeInTypeFieldDirectivesBody, hname, hzero, hone, hloop]

/-- C20 (witness): the test in which `type Book` loses the second of its two
applications of `@graph`: the dropped application `graphLibrary` has no
counterpart and a Dangerous `DirectiveChanged` is emitted. -/
theorem changeInTypeFieldDirectives_repeated_changed_witness :
    ∃ c ∈ changeInTypeFieldDirectives [graphBook, graphLibrary] [graphBook] "Book"
        (examplePos 1 6),
      c.changeType = .DirectiveChanged ∧ c.criticalityLevel = .Dangerous ∧ c.path = "Book" :=
  changeInTypeFieldDirectives_repeated_changed [graphBook, graphLibrary] [graphBook] "Book"
    (examplePos 1 6) graphLibrary (by decide) (by decide) (by decide) (by decide) (by decide)

/-- C11 (witness): the test in which the description of `type User` changes
yields a `TypeDescriptionChanged` change, which is NonBreaking. -/
theorem FindChangesInSchemas_description_changed_nonBreaking_witness :
    Change.mk "Type 'User' description changed" .TypeDescriptionChanged .NonBreaking "User"
        (examplePos 1 6) ∈
      FindChangesInSchemas MapOrder.insertion (userSchema "User description")
        (userSchema "User description changed") ∧
    (Change.mk "Type 'User' description changed" .TypeDescriptionChanged .NonBreaking "User"
        (examplePos 1 6)).criticalityLevel = .NonBreaking :=
  ⟨by decide,
    FindChangesInSchemas_description_changed_nonBreaking MapOrder.insertion
      (userSchema "User description") (userSchema "User description changed") _ (by decide)
      (by decide)⟩

/-- C16 (the code at the failing input): the field
`name: String @deprecated(reason: "some reason")` is the same in the old and in
the new schema, parsed apart so that the two `reason` arguments are the nodes 1
and 2, and `checkFieldDeprecationChanged` emits a
`FieldDeprecationReasonChanged`; it is the one change `FindChangesInSchemas`
reports between the two parses of that schema. -/
theorem checkFieldDeprecationChanged_same_reason (ord : MapOrder) :
    checkFieldDeprecationChanged (exampleObject "Employee" [] [deprecatedField 1])
        (deprecatedField 2) (deprecatedField 1) =
      [{ changeType := .FieldDeprecationReasonChanged
         criticalityLevel := .NonBreaking
         message := "Field 'Employee.name' deprecation reason changed in OBJECT "
         path := "Employee.name"
         position := examplePos 2 3 }] ∧
    (deprecatedField 1).Directives.map
        (fun d => (d.Name, d.Arguments.map fun a => (a.Name, valueString a.Value))) =
      (deprecatedField 2).Directives.map
        (fun d => (d.Name, d.Arguments.map fun a => (a.Name, valueString a.Value))) ∧
    FindChangesInSchemas ord (deprecatedSchema 1) (deprecatedSchema 2) =
      [{ changeType := .FieldDeprecationReasonChanged
         criticalityLevel := .NonBreaking
         message := "Field 'Employee.name' deprecation reason changed in OBJECT "
         path := "Employee.name"
         position := examplePos 2 3 }] := by
  refine ⟨by decide, by decide, ?_⟩
  simp only [FindChangesInSchemas, changeInTypes]
  rw [MapOrder.range_eq_of_length_le_one ord]
  · decide
  · decide

theorem changeInPersistedType_of_kind_ne (ot nt : Definition) (h : ot.Kind ≠ nt.Kind) :
    changeInPersistedType ot nt =
      [{ changeType := .TypeKindChanged
         criticalityLevel := .Breaking
         message := "Type '" ++ ot.Name ++ "' kind changed from '" ++ ot.Kind.str ++
           "' to '" ++ nt.Kind.str ++ "'"
         path := nt.Name
         position := nt.Position }] ++
      (if ot.Description ≠ nt.Description then
        [{ changeType := .TypeDescriptionChanged
           criticalityLevel := .NonBreaking
           message := "Type '" ++ ot.Name ++ "' description changed"
           path := nt.Name
           position := nt.Position }]
      else []) := by
  have h1 : ¬ (ot.Kind = .Enum ∧ nt.Kind = .Enum) := fun ⟨a, b⟩ => h (a.trans b.symm)
  have h2 : ¬ (ot.Kind = .InputObject ∧ nt.Kind = .InputObject) :=
    fun ⟨a, b⟩ => h (a.trans b.symm)
  have h3 : ¬ (ot.Kind = .Interface ∧ nt.Kind = .Interface) := fun ⟨a, b⟩ => h (a.trans b.symm)
  have h4 : ¬ (ot.Kind = .Object ∧ nt.Kind = .Object) := fun ⟨a, b⟩ => h (a.trans b.symm)
  have h5 : ¬ (ot.Kind = .Union ∧ nt.Kind = .Union) := fun ⟨a, b⟩ => h (a.trans b.symm)
  simp only [changeInPersistedType, h1, h2, h3, h4, h5, if_false, List.nil_append, ne_eq, h,
    not_false_eq_true, if_true]

/-- C14 (the code at the failing input): for a pair of definitions of
different kinds the loop over the persisted types yields one Breaking
`TypeKindChanged` and a `TypeDescriptionChanged` exactly when the descriptions
differ; but between `kindOldSchema` and `kindNewSchema`, where `T` is an object
type described "old" and then an interface described "new" and is extended in
both, the pair of the definitions is never compared: the one change reported is
the `TypeKindChanged` of the pair of extensions, at the position of the new
extension, and no `TypeDescriptionChanged`. Without the extensions both changes
are reported. -/
theorem FindChangesInSchemas_kind_changed_with_extension (ord : MapOrder) :
    (∀ ot nt : Definition, ot.Kind ≠ nt.Kind →
      (changeInPersistedType ot nt).map Change.summary =
        (ChangeType.TypeKindChanged, Criticality.Breaking, nt.Name, nt.Position) ::
          (if ot.Description ≠ nt.Description then
            [(ChangeType.TypeDescriptionChanged, Criticality.NonBreaking, nt.Name, nt.Position)]
          else [])) ∧
    (FindChangesInSchemas ord kindOldSchema kindNewSchema).map Change.summary =
      [(.TypeKindChanged, .Breaking, "T", examplePos 4 6)] ∧
    (FindChangesInSchemas ord (exampleDocument kindOldSchema.Definitions [])
        (exampleDocument kindNewSchema.Definitions [])).map Change.summary =
      [(.TypeKindChanged, .Breaking, "T", examplePos 1 6),
       (.TypeDescriptionChanged, .NonBreaking, "T", examplePos 1 6)] := by
  refine ⟨?_, ?_, ?_⟩
  · intro ot nt h
    rw [changeInPersistedType_of_kind_ne ot nt h]
    by_cases hd : ot.Description = nt.Description <;> simp [hd, Change.summary]
  · simp only [FindChangesInSchemas, changeInTypes]
    rw [MapOrder.range_eq_of_length_le_one ord]
    · decide
    · decide
  · simp only [FindChangesInSchemas, changeInTypes]
    rw [MapOrder.range_eq_of_length_le_one ord]
    · decide
    · decide

/-! ## Theorems: repeated and deprecated directive applications -/

theorem checkFieldDirectiveAdded_kinds (oDirs nDirs : List Directive) (typeName : String) :
    producesOnly [.DirectiveAdded] (checkFieldDirectiveAdded oDirs nDirs typeName) := by
  simp only [checkFieldDirectiveAdded, producesOnly_flatMap]
  intro nd _
  split
  · split <;> simp [producesOnly_nil, producesOnly_singleton]
  · exact producesOnly_nil _

theorem ofKind_DirectiveChanged_body (oDirs nDirs : List Directive) (typeName : String)
    (pos : Option Position) (od : Directive) :
    ofKind .DirectiveChanged (changeInTypeFieldDirectivesBody oDirs nDirs typeName pos od) = [] ∨
    ofKind .DirectiveChanged (changeInTypeFieldDirectivesBody oDirs nDirs typeName pos od) =
      [Change.mk ("Directive '@" ++ od.Name ++ "' was changed on '" ++ typeName ++ "'")
        .DirectiveChanged .Dangerous typeName pos] := by
  unfold changeInTypeFieldDirectivesBody
  simp only []
  split
  · split
    · left; simp [ofKind]
    · split
      · left
        split
        · rw [ofKind_append]
          rw [ofKind_eq_nil_of_producesOnly (checkFieldDirectiveArgumentChanged_kinds _ _ _ _)
              _ (by decide),
            ofKind_eq_nil_of_producesOnly (checkFieldDirectiveArgumentAdded_kinds _ _ _)
              _ (by decide)]
          rfl
        · rfl
      · split
        · right; simp [ofKind]
        · left; rfl
  · left; rfl

theorem length_flatMap_le {α β : Type} (l : List α) (f : α → List β)
    (h : ∀ a, (f a).length ≤ 1) : (l.flatMap f).length ≤ l.length := by
  induction l with
  | nil => simp
  | cons a rest ih =>
    rw [List.flatMap_cons, List.length_append, List.length_cons]
    have := h a
    omega

/-- C21 (counterexample): when `type Book` applies `@graph` twice and the new
schema applies it once with other values, `changeInTypeFieldDirectives` emits
two `DirectiveChanged` changes for the one directive name `graph`, one for
each old application. -/
theorem changeInTypeFieldDirectives_changed_twice_for_one_name :
    changeInTypeFieldDirectives [graphBook, graphLibrary] [graphUser] "Book" (examplePos 1 6) =
      [Change.mk "Directive '@graph' was changed on 'Book'" .DirectiveChanged .Dangerous "Book"
         (examplePos 1 6),
       Change.mk "Directive '@graph' was changed on 'Book'" .DirectiveChanged .Dangerous "Book"
         (examplePos 1 6)] := by
  decide

/-- C21 (amended): the `DirectiveChanged` changes of
`changeInTypeFieldDirectives` are those its loop appends for the old
applications, in order; for one old application the loop appends at most one,
which names the directive of that application; so for every directive name at
most as many are appended as the old list applies the name. -/
theorem changeInTypeFieldDirectives_changed_per_application (oDirs nDirs : List Directive)
    (typeName : String) (pos : Option Position) (name : String) :
    ofKind .DirectiveChanged (changeInTypeFieldDirectives oDirs nDirs typeName pos) =
      oDirs.flatMap (fun od =>
        ofKind .DirectiveChanged (changeInTypeFieldDirectivesBody oDirs nDirs typeName pos od)) ∧
    (∀ od : Directive,
      ofKind .DirectiveChanged (changeInTypeFieldDirectivesBody oDirs nDirs typeName pos od) = [] ∨
      ofKind .DirectiveChanged (changeInTypeFieldDirectivesBody oDirs nDirs typeName pos od) =
        [Change.mk ("Directive '@" ++ od.Name ++ "' was changed on '" ++ typeName ++ "'")
          .DirectiveChanged .Dangerous typeName pos]) ∧
    ((DirectiveList.ForNames oDirs name).flatMap (fun od =>
        ofKind .DirectiveChanged
          (changeInTypeFieldDirectivesBody oDirs nDirs typeName pos od))).length ≤
      (DirectiveList.ForNames oDirs name).length := by
  refine ⟨?_, ofKind_DirectiveChanged_body oDirs nDirs typeName pos, ?_⟩
  · rw [changeInTypeFieldDirectives_eq_flatMap, ofKind_append, ofKind_flatMap,
      ofKind_eq_nil_of_producesOnly (checkFieldDirectiveAdded_kinds _ _ _) _ (by decide),
      List.append_nil]
  · apply length_flatMap_le
    intro od
    rcases ofKind_DirectiveChanged_body oDirs nDirs typeName pos od with h | h <;> simp [h]

theorem ForNames_withoutDeprecated (l : List Directive) (name : String)
    (h : name ≠ deprecatedDirective) :
    DirectiveList.ForNames (withoutDeprecated l) name = DirectiveList.ForNames l name := by
  simp only [DirectiveList.ForNames, withoutDeprecated, List.filter_filter]
  apply List.filter_congr
  intro d _
  by_cases hd : d.Name = name
  · simp [hd, h]
  · simp [hd]

theorem ForName_withoutDeprecated (l : List Directive) (name : String)
    (h : name ≠ deprecatedDirective) :
    DirectiveList.ForName (withoutDeprecated l) name = DirectiveList.ForName l name := by
  simp only [DirectiveList.ForName, withoutDeprecated, List.find?_filter]
  congr 1
  funext d
  by_cases hd : d.Name = name
  · simp [hd, h]
  · simp [hd]

theorem changeInTypeFieldDirectivesBody_withoutDeprecated (oDirs nDirs : List Directive)
    (typeName : String) (pos : Option Position) (od : Directive) :
    changeInTypeFieldDirectivesBody (withoutDeprecated oDirs) (withoutDeprecated nDirs) typeName
        pos od =
      changeInTypeFieldDirectivesBody oDirs nDirs typeName pos od := by
  by_cases h : od.Name = deprecatedDirective
  · simp [changeInTypeFieldDirectivesBody, h]
  · simp only [changeInTypeFieldDirectivesBody, ForNames_withoutDeprecated _ _ h]

theorem changeInTypeFieldDirectivesBody_deprecated (oDirs nDirs : List Directive)
    (typeName : String) (pos : Option Position) (od : Directive)
    (h : od.Name = deprecatedDirective) :
    changeInTypeFieldDirectivesBody oDirs nDirs typeName pos od = [] := by
  simp [changeInTypeFieldDirectivesBody, h]

theorem flatMap_filter_of_nil {α β : Type} (l : List α) (p : α → Bool) (f : α → List β)
    (h : ∀ a, p a = false → f a = []) : (l.filter p).flatMap f = l.flatMap f := by
  induction l with
  | nil => rfl
  | cons a rest ih =>
    cases hp : p a
    · simp [List.filter_cons, hp, h a hp, ih]
    · simp [List.filter_cons, hp, ih]

theorem flatMap_congr_all {α β : Type} (l : List α) (f g : α → List β)
    (h : ∀ a, f a = g a) : l.flatMap f = l.flatMap g := by
  rw [funext h]

theorem checkFieldDirectiveAdded_withoutDeprecated (oDirs nDirs : List Directive)
    (typeName : String) :
    checkFieldDirectiveAdded (withoutDeprecated oDirs) (withoutDeprecated nDirs) typeName =
      checkFieldDirectiveAdded oDirs nDirs typeName := by
  unfold checkFieldDirectiveAdded
  refine Eq.trans (flatMap_congr_all _ _ _ ?_) (flatMap_filter_of_nil _ _ _ ?_)
  · intro nd
    by_cases h : nd.Name = deprecatedDirective
    · simp [h]
    · rw [ForName_withoutDeprecated _ _ h]
  · intro nd hnd
    have : nd.Name = deprecatedDirective := by simpa using hnd
    simp [this]

theorem changeInTypeFieldDirectives_eq_withoutDeprecated (oDirs nDirs : List Directive)
    (typeName : String) (pos : Option Position) :
    changeInTypeFieldDirectives oDirs nDirs typeName pos =
      changeInTypeFieldDirectives (withoutDeprecated oDirs) (withoutDeprecated nDirs) typeName
        pos := by
  rw [changeInTypeFieldDirectives_eq_flatMap, changeInTypeFieldDirectives_eq_flatMap,
    checkFieldDirectiveAdded_withoutDeprecated]
  congr 1
  have hb : changeInTypeFieldDirectivesBody (withoutDeprecated oDirs) (withoutDeprecated nDirs)
      typeName pos = changeInTypeFieldDirectivesBody oDirs nDirs typeName pos :=
    funext (changeInTypeFieldDirectivesBody_withoutDeprecated oDirs nDirs typeName pos)
  rw [hb]
  unfold withoutDeprecated
  symm
  apply flatMap_filter_of_nil
  intro od hod
  apply changeInTypeFieldDirectivesBody_deprecated
  simpa using hod

/-- C22: `changeInTypeFieldDirectives` returns for two directive-application
lists what it returns for the lists with every application named `deprecated`
removed; so two pairs of lists that differ only in applications of
`@deprecated` yield the same changes. -/
theorem changeInTypeFieldDirectives_without_deprecated (oDirs nDirs oDirs' nDirs' : List Directive)
    (typeName : String) (pos : Option Position)
    (ho : withoutDeprecated oDirs' = withoutDeprecated oDirs)
    (hn : withoutDeprecated nDirs' = withoutDeprecated nDirs) :
    changeInTypeFieldDirectives oDirs nDirs typeName pos =
      changeInTypeFieldDirectives (withoutDeprecated oDirs) (withoutDeprecated nDirs) typeName
        pos ∧
    changeInTypeFieldDirectives oDirs' nDirs' typeName pos =
      changeInTypeFieldDirectives oDirs nDirs typeName pos := by
  refine ⟨changeInTypeFieldDirectives_eq_withoutDeprecated oDirs nDirs typeName pos, ?_⟩
  rw [changeInTypeFieldDirectives_eq_withoutDeprecated oDirs' nDirs',
    changeInTypeFieldDirectives_eq_withoutDeprecated oDirs nDirs, ho, hn]

/-- C22 (witness): on a type that applies `@key(fields: "id")`, adding
`@deprecated`, removing it and changing its reason are none of them reported:
the comparison is that of `@key` with itself. -/
theorem changeInTypeFieldDirectives_without_deprecated_witness :
    withoutDeprecated
        [keyDirective [exampleValue 1 "fields" "id"], deprecatedApplication 2 "old"] =
      withoutDeprecated [keyDirective [exampleValue 1 "fields" "id"]] ∧
    withoutDeprecated
        [deprecatedApplication 3 "new", keyDirective [exampleValue 1 "fields" "id"]] =
      withoutDeprecated [keyDirective [exampleValue 1 "fields" "id"]] ∧
    changeInTypeFieldDirectives [keyDirective [exampleValue 1 "fields" "id"]]
        [keyDirective [exampleValue 1 "fields" "id"]] "T" (examplePos 1 6) = [] ∧
    changeInTypeFieldDirectives
        [keyDirective [exampleValue 1 "fields" "id"], deprecatedApplication 2 "old"]
        [deprecatedApplication 3 "new", keyDirective [exampleValue 1 "fields" "id"]] "T"
        (examplePos 1 6) = [] := by
  have h := changeInTypeFieldDirectives_without_deprecated
    [keyDirective [exampleValue 1 "fields" "id"]] [keyDirective [exampleValue 1 "fields" "id"]]
    [keyDirective [exampleValue 1 "fields" "id"], deprecatedApplication 2 "old"]
    [deprecatedApplication 3 "new", keyDirective [exampleValue 1 "fields" "id"]] "T"
    (examplePos 1 6) (by decide) (by decide)
  have hself : changeInTypeFieldDirectives [keyDirective [exampleValue 1 "fields" "id"]]
      [keyDirective [exampleValue 1 "fields" "id"]] "T" (examplePos 1 6) = [] := by decide
  exact ⟨by decide, by decide, hself, h.2.trans hself⟩

/-! ## Theorems: arguments of directive definitions, schema roots -/

theorem changeInDirective_eq_flatMap (oDirs nDirs : List DirectiveDefinition) :
    changeInDirective oDirs nDirs =
      (oDirs.flatMap fun od =>
        match DirectiveDefinitionList.ForName nDirs od.Name with
        | none =>
          [{ changeType := .DirectiveRemoved
             criticalityLevel := .Breaking
             message := "Directive '@" ++ od.Name ++ "' was removed "
             path := "@" ++ od.Name
             position := od.Position }]
        | some nd => changeInDirectivePair od nd) ++
      checkDirectiveAdded oDirs nDirs := rfl

theorem checkDirectiveLocationChanged_kinds (od nd : DirectiveDefinition) :
    producesOnly [.DirectiveLocationRemoved, .DirectiveLocationAdded]
      (checkDirectiveLocationChanged od nd) := by
  simp only [checkDirectiveLocationChanged, producesOnly_append, producesOnly_flatMap]
  refine ⟨?_, ?_⟩ <;> intro l _ <;> split <;> simp [producesOnly_nil, producesOnly_singleton]

theorem checkDirectiveRepeatableChanged_kinds (od nd : DirectiveDefinition) :
    producesOnly [.DirectiveRepeatableRemoved, .DirectiveRepeatableAdded]
      (checkDirectiveRepeatableChanged od nd) := by
  simp only [checkDirectiveRepeatableChanged, producesOnly_append]
  refine ⟨?_, ?_⟩ <;> split <;> simp [producesOnly_nil, producesOnly_singleton]

theorem checkDirectiveArgumentAdded_kinds (od nd : DirectiveDefinition) :
    producesOnly [.DirectiveArgumentAdded] (checkDirectiveArgumentAdded od nd) := by
  simp only [checkDirectiveArgumentAdded, producesOnly_flatMap]
  intro a _
  split
  · split <;> simp [producesOnly_singleton]
  · exact producesOnly_nil _

theorem checkDirectiveAdded_kinds (oDirs nDirs : List DirectiveDefinition) :
    producesOnly [.DirectiveAdded] (checkDirectiveAdded oDirs nDirs) := by
  simp only [checkDirectiveAdded, producesOnly_flatMap]
  intro a _
  split <;> simp [producesOnly_nil, producesOnly_singleton]

theorem changeInDirectiveArguments_kinds (od nd : DirectiveDefinition) :
    producesOnly [.DirectiveArgumentRemoved, .DirectiveArgumentTypeChanged,
      .DirectiveArgumentDefaultValueChanged, .DirectiveArgumentDescriptionChanged]
      (changeInDirectiveArguments od nd) := by
  simp only [changeInDirectiveArguments, checkDirectiveArgumentTypeChanged, producesOnly_flatMap]
  intro a _
  split
  · simp [producesOnly_singleton]
  · simp only [producesOnly_append]
    refine ⟨⟨?_, ?_⟩, ?_⟩ <;> split <;> simp [producesOnly_nil, producesOnly_singleton]

theorem changeInDirectiveArguments_removed (od nd : DirectiveDefinition) :
    (ofKind .DirectiveArgumentRemoved (changeInDirectiveArguments od nd)).map Change.summary =
      (od.Arguments.filter fun oArg => oArg.Name ∉ nd.Arguments.map fun a => a.Name).map
        fun oArg =>
          (ChangeType.DirectiveArgumentRemoved, Criticality.Breaking,
            "@" ++ od.Name ++ "." ++ oArg.Name, nd.Position) := by
  unfold changeInDirectiveArguments
  apply map_ofKind_flatMap_filter
  intro oArg _
  by_cases h : oArg.Name ∈ nd.Arguments.map fun a => a.Name
  · have hne : ArgumentDefinitionList.ForName nd.Arguments oArg.Name ≠ none := fun he =>
      (find?_name_eq_none (fun a : ArgumentDefinition => a.Name) nd.Arguments
        oArg.Name).mp he h
    cases hf : ArgumentDefinitionList.ForName nd.Arguments oArg.Name with
    | none => exact absurd hf hne
    | some nArg =>
      simp only [h, ofKind_append, checkDirectiveArgumentTypeChanged]
      split <;> split <;> split <;> simp [ofKind]
  · have hf : ArgumentDefinitionList.ForName nd.Arguments oArg.Name = none :=
      (find?_name_eq_none (fun a : ArgumentDefinition => a.Name) nd.Arguments
        oArg.Name).mpr h
    simp [hf, h, ofKind, Change.summary]

theorem checkDirectiveArgumentAdded_summary (od nd : DirectiveDefinition) :
    (ofKind .DirectiveArgumentAdded (checkDirectiveArgumentAdded od nd)).map Change.summary =
      (nd.Arguments.filter fun nArg => nArg.Name ∉ od.Arguments.map fun a => a.Name).map
        fun nArg =>
          (ChangeType.DirectiveArgumentAdded,
            if nArg.Type_.NonNull then Criticality.Breaking else Criticality.NonBreaking,
            "@" ++ od.Name ++ "." ++ nArg.Name, nArg.Position) := by
  unfold checkDirectiveArgumentAdded
  apply map_ofKind_flatMap_filter
  intro nArg _
  by_cases h : nArg.Name ∈ od.Arguments.map fun a => a.Name
  · have hne : ArgumentDefinitionList.ForName od.Arguments nArg.Name ≠ none := fun he =>
      (find?_name_eq_none (fun a : ArgumentDefinition => a.Name) od.Arguments
        nArg.Name).mp he h
    cases hf : ArgumentDefinitionList.ForName od.Arguments nArg.Name with
    | none => exact absurd hf hne
    | some oArg => simp [h, ofKind]
  · have hf : ArgumentDefinitionList.ForName od.Arguments nArg.Name = none :=
      (find?_name_eq_none (fun a : ArgumentDefinition => a.Name) od.Arguments
        nArg.Name).mpr h
    cases hnn : nArg.Type_.NonNull <;> simp [hf, h, hnn, ofKind, Change.summary]

theorem ofKind_changeInDirectivePair_removed (od nd : DirectiveDefinition) :
    ofKind .DirectiveArgumentRemoved (changeInDirectivePair od nd) =
      ofKind .DirectiveArgumentRemoved (changeInDirectiveArguments od nd) := by
  simp only [changeInDirectivePair, ofKind_append]
  rw [ofKind_eq_nil_of_producesOnly (checkDirectiveLocationChanged_kinds od nd) _ (by decide),
    ofKind_eq_nil_of_producesOnly (checkDirectiveRepeatableChanged_kinds od nd) _ (by decide),
    ofKind_eq_nil_of_producesOnly (checkDirectiveArgumentAdded_kinds od nd) _ (by decide)]
  split <;> simp [ofKind]

theorem ofKind_changeInDirectivePair_added (od nd : DirectiveDefinition) :
    ofKind .DirectiveArgumentAdded (changeInDirectivePair od nd) =
      ofKind .DirectiveArgumentAdded (checkDirectiveArgumentAdded od nd) := by
  simp only [changeInDirectivePair, ofKind_append]
  rw [ofKind_eq_nil_of_producesOnly (checkDirectiveLocationChanged_kinds od nd) _ (by decide),
    ofKind_eq_nil_of_producesOnly (checkDirectiveRepeatableChanged_kinds od nd) _ (by decide),
    ofKind_eq_nil_of_producesOnly (changeInDirectiveArguments_kinds od nd) _ (by decide)]
  split <;> simp [ofKind]

theorem ofKind_changeInDirective_pairs (oDirs nDirs : List DirectiveDefinition)
    (k : ChangeType) (hk : k ≠ .DirectiveRemoved) (hk' : k ≠ .DirectiveAdded) :
    ofKind k (changeInDirective oDirs nDirs) =
      oDirs.flatMap fun od =>
        match DirectiveDefinitionList.ForName nDirs od.Name with
        | none => []
        | some nd => ofKind k (changeInDirectivePair od nd) := by
  rw [changeInDirective_eq_flatMap, ofKind_append, ofKind_flatMap,
    ofKind_eq_nil_of_producesOnly (checkDirectiveAdded_kinds oDirs nDirs) _
      (by simpa using hk'), List.append_nil]
  apply flatMap_congr_all
  intro od
  cases DirectiveDefinitionList.ForName nDirs od.Name with
  | none => simpa [ofKind] using fun h => hk h.symm
  | some nd => rfl

/-- C23: for an old directive definition `od` and the new definition `nd` of
the same name, the changes `changeInDirective` appends for the pair contain, in
order, one `DirectiveArgumentRemoved` change, Breaking, for each argument of
`od` whose name no argument of `nd` has, and one `DirectiveArgumentAdded` change
for each argument of `nd` whose name no argument of `od` has, Breaking when its
type is non-null and NonBreaking when it is nullable; the changes of these two
kinds in the result of `changeInDirective` are those of the pairs, in the order
of the old definitions. -/
theorem changeInDirective_argument_set_diff (oDirs nDirs : List DirectiveDefinition)
    (od nd : DirectiveDefinition) :
    (ofKind .DirectiveArgumentRemoved (changeInDirectivePair od nd)).map Change.summary =
      ((od.Arguments.filter fun oArg => oArg.Name ∉ nd.Arguments.map fun a => a.Name).map
        fun oArg =>
          (ChangeType.DirectiveArgumentRemoved, Criticality.Breaking,
            "@" ++ od.Name ++ "." ++ oArg.Name, nd.Position)) ∧
    (ofKind .DirectiveArgumentAdded (changeInDirectivePair od nd)).map Change.summary =
      ((nd.Arguments.filter fun nArg => nArg.Name ∉ od.Arguments.map fun a => a.Name).map
        fun nArg =>
          (ChangeType.DirectiveArgumentAdded,
            if nArg.Type_.NonNull then Criticality.Breaking else Criticality.NonBreaking,
            "@" ++ od.Name ++ "." ++ nArg.Name, nArg.Position)) ∧
    (∀ k ∈ [ChangeType.DirectiveArgumentRemoved, ChangeType.DirectiveArgumentAdded],
      ofKind k (changeInDirective oDirs nDirs) =
        oDirs.flatMap fun od =>
          match DirectiveDefinitionList.ForName nDirs od.Name with
          | none => []
          | some nd => ofKind k (changeInDirectivePair od nd)) := by
  refine ⟨?_, ?_, ?_⟩
  · rw [ofKind_changeInDirectivePair_removed, changeInDirectiveArguments_removed]
  · rw [ofKind_changeInDirectivePair_added, checkDirectiveArgumentAdded_summary]
  · intro k hk
    apply ofKind_changeInDirective_pairs
    · rintro rfl
      simp at hk
    · rintro rfl
      simp at hk

theorem changesInSchemaOperation_rootDiff (oldOp newOp : Option OperationTypeDefinition)
    (op : Operation) :
    kindsAndCriticalities (changesInSchemaOperation oldOp newOp op) =
      rootDiff op (oldOp.map fun o => o.Type_) (newOp.map fun o => o.Type_) := by
  cases oldOp <;> cases newOp <;> cases op <;>
    simp [changesInSchemaOperation, kindsAndCriticalities, rootDiff, rootChangeType]
  all_goals split <;> simp

theorem kindsAndCriticalities_append (l₁ l₂ : List Change) :
    kindsAndCriticalities (l₁ ++ l₂) = kindsAndCriticalities l₁ ++ kindsAndCriticalities l₂ := by
  simp [kindsAndCriticalities]

theorem getOperationForName_type (ops : List OperationTypeDefinition) (op : Operation) :
    (getOperationForName ops op).map (fun o => o.Type_) =
      ((ops.filter fun o => o.Operation = op).map fun o => o.Type_).head? := by
  unfold getOperationForName
  induction ops with
  | nil => rfl
  | cons o rest ih =>
    by_cases h : o.Operation = op
    · simp [List.find?_cons, List.filter_cons, h]
    · simp only [List.find?_cons, List.filter_cons, h, decide_False, Bool.false_eq_true,
        if_false]
      exact ih

theorem boundType_isSome (defs : List SchemaDefinition) (op : Operation) :
    (boundType defs op).isSome = true ↔
      ∃ d rest, defs = d :: rest ∧ ∃ o ∈ d.OperationTypes, o.Operation = op := by
  cases defs with
  | nil => simp [boundType, rootBindings]
  | cons d rest =>
    simp only [boundType, rootBindings]
    constructor
    · intro h
      cases hf : d.OperationTypes.filter fun o => o.Operation = op with
      | nil => rw [hf] at h; simp at h
      | cons o l =>
        have hm : o ∈ d.OperationTypes.filter fun o => o.Operation = op := by
          rw [hf]; exact List.mem_cons_self _ _
        have := List.mem_filter.mp hm
        exact ⟨d, rest, rfl, o, this.1, by simpa using this.2⟩
    · rintro ⟨d', rest', heq, o, ho, hop⟩
      cases heq
      have hm : o ∈ d.OperationTypes.filter fun o => o.Operation = op :=
        List.mem_filter.mpr ⟨ho, by simpa using hop⟩
      cases hf : d.OperationTypes.filter fun o => o.Operation = op with
      | nil => rw [hf] at hm; cases hm
      | cons o l => rfl

theorem boundType_eq_some (defs : List SchemaDefinition) (op : Operation) (t : String)
    (h : boundType defs op = some t) :
    ∃ d rest, defs = d :: rest ∧ ∃ o ∈ d.OperationTypes, o.Operation = op ∧ o.Type_ = t := by
  cases defs with
  | nil => simp [boundType, rootBindings] at h
  | cons d rest =>
    refine ⟨d, rest, rfl, ?_⟩
    simp only [boundType, rootBindings] at h
    cases hf : d.OperationTypes.filter fun o => o.Operation = op with
    | nil => rw [hf] at h; simp at h
    | cons o l =>
      rw [hf] at h
      have hm : o ∈ d.OperationTypes.filter fun o => o.Operation = op := by
        rw [hf]; exact List.mem_cons_self _ _
      have := List.mem_filter.mp hm
      exact ⟨o, this.1, by simpa using this.2, by simpa using h⟩

/-- C24: `changeInSchema` reads only the first entry of the old and of the
new list of schema definitions, and the kinds and criticalities of its changes
are, for query, mutation and subscription in this order, one
`Schema...TypeChanged`, Breaking, when the first old entry binds the operation
and the first new entry does not bind it or binds it to another type name, one,
NonBreaking, when only the first new entry binds it, and none otherwise. An
operation is bound by an entry exactly when one of the operation type
definitions of the entry names it, and the type it is bound to is the type of
such a definition. Of the schema roots `query: RootQuery, mutation:
RootMutation` and `query: RootQueryChanged, subscription: RootSubscription`
the query is changed, the mutation removed and the subscription added, and
entries after the first are not read. -/
theorem changeInSchema_root_diff (oldSchemaDefs newSchemaDefs : List SchemaDefinition) :
    changeInSchema oldSchemaDefs newSchemaDefs =
      changeInSchema (oldSchemaDefs.take 1) (newSchemaDefs.take 1) ∧
    kindsAndCriticalities (changeInSchema oldSchemaDefs newSchemaDefs) =
      rootDiff .Query (boundType oldSchemaDefs .Query)
        (boundType newSchemaDefs .Query) ++
      rootDiff .Mutation (boundType oldSchemaDefs .Mutation)
        (boundType newSchemaDefs .Mutation) ++
      rootDiff .Subscription (boundType oldSchemaDefs .Subscription)
        (boundType newSchemaDefs .Subscription) ∧
    (∀ (defs : List SchemaDefinition) (op : Operation),
      ((boundType defs op).isSome = true ↔
        ∃ d rest, defs = d :: rest ∧ ∃ o ∈ d.OperationTypes, o.Operation = op) ∧
      ∀ t, boundType defs op = some t →
        ∃ d rest, defs = d :: rest ∧
          ∃ o ∈ d.OperationTypes, o.Operation = op ∧ o.Type_ = t) ∧
    kindsAndCriticalities
        (changeInSchema
          [rootSchema [(.Query, "RootQuery"), (.Mutation, "RootMutation")],
           rootSchema [(.Subscription, "Ignored")]]
          [rootSchema [(.Query, "RootQueryChanged"), (.Subscription, "RootSubscription")],
           rootSchema [(.Mutation, "RootMutation")]]) =
      [(.SchemaQueryTypeChanged, .Breaking), (.SchemaMutationTypeChanged, .Breaking),
       (.SchemaSubscriptionTypeChanged, .NonBreaking)] ∧
    kindsAndCriticalities
        (changeInSchema
          [rootSchema [(.Query, "RootQuery"), (.Mutation, "RootMutation")]]
          [rootSchema [(.Mutation, "RootMutation"), (.Query, "RootQuery")]]) = [] := by
  refine ⟨?_, ?_, fun defs op => ⟨boundType_isSome defs op, boundType_eq_some defs op⟩,
    by decide, by decide⟩
  · cases oldSchemaDefs <;> cases newSchemaDefs <;> rfl
  · cases oldSchemaDefs <;> cases newSchemaDefs
    · rfl
    all_goals
      simp only [changeInSchema, kindsAndCriticalities_append,
        changesInSchemaOperation_rootDiff, boundType, rootBindings,
        getOperationForName_type, Option.map_none', List.map_nil, List.head?_nil]

/-! ## Theorems: suppression of findings by inline commands -/

theorem filterErrors_eq_filter (orbit : Char → Char → Bool)
    (errors : List LintErrorWithMetadata) (configs : List InlineLintConfig) :
    filterErrors orbit errors configs =
      errors.filter fun lintErr => shouldApplyRuleLoop orbit lintErr configs true := by
  unfold filterErrors
  induction errors with
  | nil => rfl
  | cons e rest ih =>
    rw [List.flatMap_cons, ih]
    cases h : shouldApplyRuleLoop orbit e configs true <;> simp [List.filter_cons, h]

theorem mem_filterErrors (orbit : Char → Char → Bool) (errors : List LintErrorWithMetadata)
    (configs : List InlineLintConfig) (f : LintErrorWithMetadata) :
    f ∈ filterErrors orbit errors configs ↔
      f ∈ errors ∧ shouldApplyRuleLoop orbit f configs true = true := by
  rw [filterErrors_eq_filter, List.mem_filter]

theorem shouldApplyRuleLoop_skip (orbit : Char → Char → Bool) (f : LintErrorWithMetadata)
    (pre post : List InlineLintConfig) (c : InlineLintConfig)
    (h : contains orbit c.rules f.Rule = false ∨
      (c.command = "lint-disable-line" ∧ c.pos ≠ f.Line)) (flag : Bool) :
    shouldApplyRuleLoop orbit f (pre ++ c :: post) flag =
      shouldApplyRuleLoop orbit f (pre ++ post) flag := by
  induction pre generalizing flag with
  | nil =>
    simp only [List.nil_append]
    rw [shouldApplyRuleLoop]
    rcases h with h | ⟨hc, hp⟩
    · simp [h]
    · have h1 : ¬ (c.command = "lint-disable-line" ∧ c.pos = f.Line) := fun h => hp h.2
      have h2 : ¬ c.command = "lint-enable" := by rw [hc]; decide
      have h3 : ¬ c.command = "lint-disable" := by rw [hc]; decide
      simp only [h1, h2, h3, if_false]
      split
      · rfl
      · split <;> rfl
  | cons a pre ih =>
    simp only [List.cons_append]
    rw [shouldApplyRuleLoop, shouldApplyRuleLoop]
    simp only [ih]

theorem shouldApplyRuleLoop_disable_line (orbit : Char → Char → Bool)
    (f : LintErrorWithMetadata) (configs : List InlineLintConfig) (c : InlineLintConfig)
    (hmem : c ∈ configs) (hc : c.command = "lint-disable-line")
    (hr : contains orbit c.rules f.Rule = true) (hp : c.pos = f.Line) (flag : Bool) :
    shouldApplyRuleLoop orbit f configs flag = false := by
  induction configs generalizing flag with
  | nil => cases hmem
  | cons a rest ih =>
    rw [shouldApplyRuleLoop]
    rcases List.mem_cons.mp hmem with rfl | hrest
    · simp [hr, hc, hp]
    · split
      · exact ih hrest _
      · split
        · rfl
        · split
          · split
            · exact ih hrest _
            · split <;> exact ih hrest _
          · exact ih hrest _

/-- C27: a `lint-disable-line` command `c` makes `filterErrors` drop every
finding on its line whose rule it lists, whatever commands stand before and
after it in the list, and a finding on another line is kept with the command
in the list exactly when it is kept without it. -/
theorem filterErrors_disable_line (orbit : Char → Char → Bool)
    (errors : List LintErrorWithMetadata) (pre post : List InlineLintConfig)
    (c : InlineLintConfig) (hc : c.command = "lint-disable-line") :
    (∀ f : LintErrorWithMetadata, f.Line = c.pos → contains orbit c.rules f.Rule = true →
      f ∉ filterErrors orbit errors (pre ++ c :: post)) ∧
    (∀ f : LintErrorWithMetadata, f.Line ≠ c.pos →
      (f ∈ filterErrors orbit errors (pre ++ c :: post) ↔
        f ∈ filterErrors orbit errors (pre ++ post))) ∧
    (filterErrors orbit errors (pre ++ c :: post)).filter (fun e => e.Line ≠ c.pos) =
      (filterErrors orbit errors (pre ++ post)).filter (fun e => e.Line ≠ c.pos) := by
  refine ⟨?_, ?_, ?_⟩
  · intro f hl hr hmem
    rw [mem_filterErrors, shouldApplyRuleLoop_disable_line orbit f (pre ++ c :: post) c
      (by simp) hc hr hl.symm] at hmem
    exact absurd hmem.2 (by decide)
  · intro f hl
    rw [mem_filterErrors, mem_filterErrors,
      shouldApplyRuleLoop_skip orbit f pre post c (Or.inr ⟨hc, fun h => hl h.symm⟩)]
  · rw [filterErrors_eq_filter, filterErrors_eq_filter, List.filter_filter, List.filter_filter]
    apply List.filter_congr
    intro e _
    by_cases hl : e.Line = c.pos
    · simp [hl]
    · rw [shouldApplyRuleLoop_skip orbit e pre post c (Or.inr ⟨hc, fun h => hl h.symm⟩)]

/-- C27 (witness): with `lint-disable-line TYPE-DESC` on line 3 after a
`lint-disable` on line 1 and a `lint-enable` on line 2, the finding of
`type-desc` on line 3 is dropped, and the findings on the lines 2 and 7 fare as
they do without the command: the first is dropped, the second kept. -/
theorem filterErrors_disable_line_witness :
    exampleFinding "type-desc" 3 ∉
      filterErrors asciiOrbit
        [exampleFinding "type-desc" 2, exampleFinding "type-desc" 3,
          exampleFinding "type-desc" 7]
        ([⟨"lint-disable", ["type-desc"], 1⟩, ⟨"lint-enable", ["type-desc"], 2⟩] ++
          ⟨"lint-disable-line", ["TYPE-DESC"], 3⟩ :: [⟨"lint-disable", ["enum-caps"], 5⟩]) ∧
    (filterErrors asciiOrbit
        [exampleFinding "type-desc" 2, exampleFinding "type-desc" 3,
          exampleFinding "type-desc" 7]
        ([⟨"lint-disable", ["type-desc"], 1⟩, ⟨"lint-enable", ["type-desc"], 2⟩] ++
          ⟨"lint-disable-line", ["TYPE-DESC"], 3⟩ ::
            [⟨"lint-disable", ["enum-caps"], 5⟩])).filter (fun e => e.Line ≠ 3) =
      [exampleFinding "type-desc" 7] ∧
    filterErrors asciiOrbit
        [exampleFinding "type-desc" 2, exampleFinding "type-desc" 3,
          exampleFinding "type-desc" 7]
        ([⟨"lint-disable", ["type-desc"], 1⟩, ⟨"lint-enable", ["type-desc"], 2⟩] ++
          [⟨"lint-disable", ["enum-caps"], 5⟩]) =
      [exampleFinding "type-desc" 3, exampleFinding "type-desc" 7] := by
  have h := filterErrors_disable_line asciiOrbit
    [exampleFinding "type-desc" 2, exampleFinding "type-desc" 3, exampleFinding "type-desc" 7]
    [⟨"lint-disable", ["type-desc"], 1⟩, ⟨"lint-enable", ["type-desc"], 2⟩]
    [⟨"lint-disable", ["enum-caps"], 5⟩] ⟨"lint-disable-line", ["TYPE-DESC"], 3⟩ rfl
  have hw : filterErrors asciiOrbit
      [exampleFinding "type-desc" 2, exampleFinding "type-desc" 3,
        exampleFinding "type-desc" 7]
      ([⟨"lint-disable", ["type-desc"], 1⟩, ⟨"lint-enable", ["type-desc"], 2⟩] ++
        [⟨"lint-disable", ["enum-caps"], 5⟩]) =
      [exampleFinding "type-desc" 3, exampleFinding "type-desc" 7] := by decide
  refine ⟨h.1 _ rfl (by decide), ?_, hw⟩
  rw [h.2.2, hw]
  decide

/-- C28: the result of `filterErrors` is a sublist of the findings it is
given: findings of the input, each at most as often as there, in their
order. -/
theorem filterErrors_sublist (orbit : Char → Char → Bool)
    (errors : List LintErrorWithMetadata) (configs : List InlineLintConfig) :
    (filterErrors orbit errors configs).Sublist errors := by
  rw [filterErrors_eq_filter]
  exact List.filter_sublist _

/-! ## Theorems: commands without rule names, unrecognised commands -/

theorem EqualFold_empty_right (orbit : Char → Char → Bool) (s : String) (h : s ≠ "") :
    EqualFold orbit s "" = false := by
  unfold EqualFold
  cases hs : s.data with
  | nil => exact absurd (String.ext hs) h
  | cons a l => rfl

theorem contains_without_rules (orbit : Char → Char → Bool) (rules : List String)
    (rule : String) (hrules : rules = [] ∨ rules = [""]) (hrule : rule ≠ "") :
    contains orbit rules rule = false := by
  rcases hrules with rfl | rfl
  · rfl
  · simp [contains, EqualFold_empty_right orbit rule hrule]

/-- C26 (counterexample): the comment `#lint-disable` on line 5 is extracted
as a `lint-disable` command whose rule list is the one empty name, and
`filterErrors` keeps the finding of `type-desc` on line 7 under this command,
as it does under a `lint-disable` command whose rule list is empty. -/
theorem filterErrors_lint_disable_without_rules :
    extractInlineLintConfiguration [commentToken "#lint-disable" 5] =
      some [⟨"lint-disable", [""], 5⟩] ∧
    filterErrors asciiOrbit [exampleFinding "type-desc" 7] [⟨"lint-disable", [""], 5⟩] =
      [exampleFinding "type-desc" 7] ∧
    filterErrors asciiOrbit [exampleFinding "type-desc" 7] [⟨"lint-disable", [], 5⟩] =
      [exampleFinding "type-desc" 7] := by
  decide

/-- C26 (amended): `sanitizeRules` turns an omitted rule list into the list
of the one empty name, and a command whose rule list is that list or is empty
matches no finding whose rule name is not empty: `filterErrors` returns for
such findings what it returns without the command. -/
theorem filterErrors_command_without_rules (orbit : Char → Char → Bool)
    (errors : List LintErrorWithMetadata) (pre post : List InlineLintConfig)
    (c : InlineLintConfig) (hc : c.rules = [] ∨ c.rules = sanitizeRules "")
    (hr : ∀ e ∈ errors, e.Rule ≠ "") :
    sanitizeRules "" = [""] ∧
    (∀ e ∈ errors, contains orbit c.rules e.Rule = false) ∧
    filterErrors orbit errors (pre ++ c :: post) = filterErrors orbit errors (pre ++ post) := by
  have hs : sanitizeRules "" = [""] := by decide
  rw [hs] at hc
  refine ⟨hs, fun e he => contains_without_rules orbit c.rules e.Rule hc (hr e he), ?_⟩
  rw [filterErrors_eq_filter, filterErrors_eq_filter]
  apply List.filter_congr
  intro e he
  rw [shouldApplyRuleLoop_skip orbit e pre post c
    (Or.inl (contains_without_rules orbit c.rules e.Rule hc (hr e he)))]

/-- C26 (witness): the findings of `type-desc` and `enum-caps` on the lines 7
and 9 are both kept under `lint-disable` without rule names on line 5, as they
are without any command. -/
theorem filterErrors_command_without_rules_witness :
    filterErrors asciiOrbit [exampleFinding "type-desc" 7, exampleFinding "enum-caps" 9]
        ([] ++ ⟨"lint-disable", [""], 5⟩ :: []) =
      [exampleFinding "type-desc" 7, exampleFinding "enum-caps" 9] :=
  ((filterErrors_command_without_rules asciiOrbit
    [exampleFinding "type-desc" 7, exampleFinding "enum-caps" 9] [] []
    ⟨"lint-disable", [""], 5⟩ (Or.inr (by decide)) (by decide)).2.2).trans (by decide)

theorem parseLoop_cons_unrecognised (linConfig : inlineLintConfigMetadata)
    (rest : List inlineLintConfigMetadata) (command rulesString : String)
    (hm : FindStringSubmatch linConfig.value = some (command, rulesString))
    (h1 : command ≠ lintDisable) (h2 : command ≠ lintEnable) (h3 : command ≠ lintDisableLine) :
    parseLoop (linConfig :: rest) = parseLoop rest := by
  rw [parseLoop]
  simp only [hm, h1, h2, h3, if_false, List.nil_append]
  cases parseLoop rest <;> rfl

/-- C29: the comment `#lint-` begins with `#lint-` and the pattern does not
match it, so that `extractInlineLintConfiguration` panics on a source that holds
it, alone or among well-formed commands; the comment `#lint-off type-desc`,
whose command is none of the three, is passed over. -/
theorem extractInlineLintConfiguration_bare_command :
    FindStringSubmatch "#lint-" = none ∧
    extractInlineLintConfiguration [commentToken "#lint-" 1] = none ∧
    extractInlineLintConfiguration
      [commentToken "#lint-disable type-desc" 1, commentToken "#lint-" 2] = none ∧
    extractInlineLintConfiguration
      [commentToken "#lint-disable type-desc" 1, commentToken "#lint-off type-desc" 2] =
        some [⟨"lint-disable", ["type-desc"], 1⟩] := by
  decide

/-! ## Theorems: the selection of rules -/

theorem any_eq_isSome_find? {α : Type} (p : α → Bool) (l : List α) :
    l.any p = (l.find? p).isSome := by
  induction l with
  | nil => rfl
  | cons a rest ih =>
    cases h : p a <;> simp [List.any_cons, List.find?_cons, h, ih]

theorem registered_eq_isSome (orbit : Char → Char → Bool) (name : String) :
    registered orbit name = (ruleFunctionFor orbit name).isSome := by
  unfold registered ruleFunctionFor
  rw [Option.isSome_map', any_eq_isSome_find?]

theorem findTheRulesToApplyLoop_eq (orbit : Char → Char → Bool) (rulesString : List String)
    (rulesToApply : List LintRuleFunc) :
    findTheRulesToApplyLoop orbit rulesString rulesToApply =
      match rulesString.find? fun name => !registered orbit name with
      | some bad => .error ("invalid rule[" ++ TrimSpace bad ++ "] passed")
      | none => .ok (rulesToApply ++ rulesString.filterMap (ruleFunctionFor orbit)) := by
  induction rulesString generalizing rulesToApply with
  | nil => simp [findTheRulesToApplyLoop]
  | cons ruleToken rest ih =>
    rw [findTheRulesToApplyLoop]
    have hreg := registered_eq_isSome orbit ruleToken
    unfold ruleFunctionFor at hreg
    cases hf : AllTheRules.find? fun rule => EqualFold orbit (TrimSpace ruleToken) rule.Name with
    | none =>
      rw [hf] at hreg
      simp [List.find?_cons, hreg]
    | some rule =>
      rw [hf] at hreg
      have hfm : ruleFunctionFor orbit ruleToken = some rule.RuleFunction := by
        simp [ruleFunctionFor, hf]
      simp only [ih, List.find?_cons, hreg, Option.map_some', Option.isSome_some, Bool.not_true,
        List.filterMap_cons, hfm, List.append_assoc, List.singleton_append]

theorem length_filterMap_ruleFunctionFor (orbit : Char → Char → Bool)
    (rulesString : List String) (h : ∀ name ∈ rulesString, registered orbit name = true) :
    (rulesString.filterMap (ruleFunctionFor orbit)).length = rulesString.length := by
  induction rulesString with
  | nil => rfl
  | cons name rest ih =>
    have hn := h name (List.mem_cons_self _ _)
    rw [registered_eq_isSome, Option.isSome_iff_exists] at hn
    obtain ⟨fn, hfn⟩ := hn
    rw [List.filterMap_cons, hfn, List.length_cons, List.length_cons,
      ih fun n hn => h n (List.mem_cons_of_mem _ hn)]

/-- C30: for a list of rule names that is not empty, `findTheRulesToApply`
returns an error exactly when some name, trimmed, equals the name of no rule of
`AllTheRules` under case folding; the message of the error then holds the
first such name, trimmed; and when there is no such name the result is, for
each input name in order, the function of the first rule of the table the name
matches, as many functions as names. -/
theorem findTheRulesToApply_selection (orbit : Char → Char → Bool)
    (rulesString : List String) (h : rulesString ≠ []) :
    ((∃ message, findTheRulesToApply orbit rulesString = .error message) ↔
      ∃ name ∈ rulesString, registered orbit name = false) ∧
    (∀ bad, (rulesString.find? fun name => !registered orbit name) = some bad →
      findTheRulesToApply orbit rulesString =
        .error ("invalid rule[" ++ TrimSpace bad ++ "] passed")) ∧
    ((∀ name ∈ rulesString, registered orbit name = true) →
      findTheRulesToApply orbit rulesString =
          .ok (rulesString.filterMap (ruleFunctionFor orbit)) ∧
        (rulesString.filterMap (ruleFunctionFor orbit)).length = rulesString.length) := by
  have hlen : ¬ rulesString.length = 0 := fun h0 => h (List.length_eq_zero.mp h0)
  have hrun : findTheRulesToApply orbit rulesString =
      match rulesString.find? fun name => !registered orbit name with
      | some bad => .error ("invalid rule[" ++ TrimSpace bad ++ "] passed")
      | none => .ok (rulesString.filterMap (ruleFunctionFor orbit)) := by
    rw [findTheRulesToApply, if_neg hlen, findTheRulesToApplyLoop_eq, List.nil_append]
  refine ⟨?_, ?_, ?_⟩
  · rw [hrun]
    cases hf : rulesString.find? fun name => !registered orbit name with
    | some bad =>
      have hb := List.find?_some hf
      have hm := List.mem_of_find?_eq_some hf
      simp only [Bool.not_eq_true', ← Bool.not_eq_true] at hb
      constructor
      · intro _
        exact ⟨bad, hm, by simpa using hb⟩
      · intro _
        exact ⟨_, rfl⟩
    | none =>
      rw [List.find?_eq_none] at hf
      constructor
      · rintro ⟨message, hmsg⟩
        cases hmsg
      · rintro ⟨name, hn, hr⟩
        have := hf name hn
        simp [hr] at this
  · intro bad hbad
    rw [hrun, hbad]
  · intro hall
    have hnone : (rulesString.find? fun name => !registered orbit name) = none := by
      rw [List.find?_eq_none]
      intro name hn
      simp [hall name hn]
    rw [hrun, hnone]
    exact ⟨rfl, length_filterMap_ruleFunctionFor orbit rulesString hall⟩

/-- C30 (witness): the names ` Type-Desc` and `ENUM-CAPS ` select the
functions of `type-desc` and `enum-caps` in this order, and in the list of
`type-desc`, ` no-such-rule ` and `nope` the error names `no-such-rule`. -/
theorem findTheRulesToApply_selection_witness :
    findTheRulesToApply asciiOrbit [" Type-Desc", "ENUM-CAPS "] =
      .ok [.TypesHaveDescription, .EnumValuesAreAllCaps] ∧
    findTheRulesToApply asciiOrbit ["type-desc", " no-such-rule ", "nope"] =
      .error "invalid rule[no-such-rule] passed" :=
  ⟨((findTheRulesToApply_selection asciiOrbit [" Type-Desc", "ENUM-CAPS "] (by decide)).2.2
      (by decide)).1.trans (congrArg Except.ok (by decide)),
    ((findTheRulesToApply_selection asciiOrbit ["type-desc", " no-such-rule ", "nope"]
      (by decide)).2.1 " no-such-rule " (by decide)).trans
      (congrArg Except.error (by decide))⟩

/-! ## Theorems: case folding of ASCII text, comments the pattern does not match -/

theorem foldEq_ascii (orbit orbit' : Char → Char → Bool) (a b : Char) (ha : a.toNat < 0x80)
    (hb : b.toNat < 0x80) : foldEq orbit a b = foldEq orbit' a b := by
  unfold foldEq
  split
  · rfl
  · by_cases hlt : b < a
    · simp only [hlt, if_true, ha]
    · simp only [hlt, if_false, hb, if_true]

theorem equalFoldLoop_ascii (orbit orbit' : Char → Char → Bool) (s t : List Char)
    (hs : ∀ c ∈ s, c.toNat < 0x80) (ht : ∀ c ∈ t, c.toNat < 0x80) :
    equalFoldLoop orbit s t = equalFoldLoop orbit' s t := by
  induction s generalizing t with
  | nil => cases t <;> rfl
  | cons a s ih =>
    cases t with
    | nil => rfl
    | cons b t =>
      simp only [equalFoldLoop]
      rw [foldEq_ascii orbit orbit' a b (hs a (List.mem_cons_self _ _))
          (ht b (List.mem_cons_self _ _)),
        ih t (fun c hc => hs c (List.mem_cons_of_mem _ hc))
          (fun c hc => ht c (List.mem_cons_of_mem _ hc))]

theorem EqualFold_ascii (orbit orbit' : Char → Char → Bool) (s t : String)
    (hs : ∀ c ∈ s.data, c.toNat < 0x80) (ht : ∀ c ∈ t.data, c.toNat < 0x80) :
    EqualFold orbit s t = EqualFold orbit' s t :=
  equalFoldLoop_ascii orbit orbit' s.data t.data hs ht

theorem parseLoop_eq_none_iff (l : List inlineLintConfigMetadata) :
    parseLoop l = none ↔ ∃ c ∈ l, FindStringSubmatch c.value = none := by
  induction l with
  | nil => simp [parseLoop]
  | cons c rest ih =>
    rw [parseLoop]
    cases hm : FindStringSubmatch c.value with
    | none => simp [hm]
    | some groups =>
      obtain ⟨command, rulesString⟩ := groups
      simp only [Option.map_eq_none', ih, List.mem_cons, exists_eq_or_imp, hm, false_or,
        reduceCtorEq]

/-! ## Theorems: composition of safe changes, a directive list compared with itself -/

/-- C39: two successive changes of the return type of a field that
`isSafeChangeForFieldType` accepts compose to a change it accepts, for all type
expressions `a`, `b` and `c`. -/
theorem isSafeChangeForFieldType_trans (a b c : AstType)
    (hab : isSafeChangeForFieldType a b = true) (hbc : isSafeChangeForFieldType b c = true) :
    isSafeChangeForFieldType a c = true := by
  induction a generalizing b c with
  | named an ax =>
    cases b with
    | named bn bx =>
      cases c with
      | named cn cx =>
        rw [isSafeChangeForFieldType_named_named] at hab hbc ⊢
        cases ax <;> cases bx <;> cases cx <;> simp_all
      | list ce cx =>
        rw [isSafeChangeForFieldType_named_list] at hbc
        cases hbc
    | list be bx =>
      rw [isSafeChangeForFieldType_named_list] at hab
      cases hab
  | list ae ax ih =>
    cases b with
    | named bn bx =>
      cases c with
      | named cn cx =>
        rw [isSafeChangeForFieldType_list_named] at hab ⊢
        rw [isSafeChangeForFieldType_named_named] at hbc
        cases bx <;> cases cx <;> simp_all
      | list ce cx =>
        rw [isSafeChangeForFieldType_named_list] at hbc
        cases hbc
    | list be bx =>
      cases c with
      | named cn cx =>
        rw [isSafeChangeForFieldType_list_named] at hbc ⊢
        exact hbc
      | list ce cx =>
        rw [isSafeChangeForFieldType_list_list] at hab hbc ⊢
        cases ax <;> cases bx <;> cases cx <;> simp_all
        all_goals exact ih _ _ hab hbc

/-- C39 (witness): `[Int]` to `[Int!]` and `[Int!]` to `[Int!]!` are safe for a
field, and so is `[Int]` to `[Int!]!`. -/
theorem isSafeChangeForFieldType_trans_witness :
    isSafeChangeForFieldType (.list (.named "Int" false) false)
        (.list (.named "Int" true) false) = true ∧
    isSafeChangeForFieldType (.list (.named "Int" true) false)
        (.list (.named "Int" true) true) = true ∧
    isSafeChangeForFieldType (.list (.named "Int" false) false)
        (.list (.named "Int" true) true) = true :=
  ⟨by decide, by decide,
    isSafeChangeForFieldType_trans (.list (.named "Int" false) false)
      (.list (.named "Int" true) false) (.list (.named "Int" true) true) (by decide)
      (by decide)⟩

/-- C40 (the code at the failing input): the list `@a @a`, which
applies a directive twice without arguments, differs from itself: for each of
the two applications the loop over its arguments, which would set
`haveSameArgVals`, does not run, and a `DirectiveChanged` change is emitted;
the list `@graph(type: "book", key: "isbn") @graph(type: "library", key: "isbn")`,
which repeats a directive with arguments, yields no change. -/
theorem changeInTypeFieldDirectives_self_repeated_bare :
    changeInTypeFieldDirectives
        [{ Name := "a", Arguments := [], Position := examplePos 1 8 },
         { Name := "a", Arguments := [], Position := examplePos 1 11 }]
        [{ Name := "a", Arguments := [], Position := examplePos 1 8 },
         { Name := "a", Arguments := [], Position := examplePos 1 11 }] "T" (examplePos 1 6) =
      [Change.mk "Directive '@a' was changed on 'T'" .DirectiveChanged .Dangerous "T"
         (examplePos 1 6),
       Change.mk "Directive '@a' was changed on 'T'" .DirectiveChanged .Dangerous "T"
         (examplePos 1 6)] ∧
    changeInTypeFieldDirectives [graphBook, graphLibrary] [graphBook, graphLibrary] "Book"
      (examplePos 1 6) = [] := by
  decide

/-! ## Theorems: grouping and reporting changes -/

theorem GroupChangesBody_apply (m : GroupedChanges) (c : Change) (k : Criticality) :
    GroupChangesBody m c k =
      if k = c.criticalityLevel then some ((m k).getD [] ++ [c]) else m k := by
  unfold GroupChangesBody
  by_cases hk : k = c.criticalityLevel
  · subst hk
    cases hm : m c.criticalityLevel <;> simp [GroupedChanges.set, hm]
  · cases hm : m c.criticalityLevel <;> simp [GroupedChanges.set, hm, hk]

theorem foldl_GroupChangesBody (changes : List Change) (m : GroupedChanges)
    (k : Criticality) :
    changes.foldl GroupChangesBody m k =
      match m k with
      | some v => some (v ++ changes.filter fun c => c.criticalityLevel = k)
      | none =>
        if (changes.filter fun c => c.criticalityLevel = k) = [] then none
        else some (changes.filter fun c => c.criticalityLevel = k) := by
  induction changes generalizing m with
  | nil => cases hm : m k <;> simp [hm]
  | cons c rest ih =>
    rw [List.foldl_cons, ih, GroupChangesBody_apply]
    by_cases hk : k = c.criticalityLevel
    · subst hk
      cases hm : m c.criticalityLevel <;> simp [List.filter_cons, hm]
    · have hk' : ¬ c.criticalityLevel = k := fun h => hk h.symm
      cases hm : m k <;> simp [List.filter_cons, hm, hk, hk']

theorem length_filter_criticality (changes : List Change) :
    (changes.filter fun c => c.criticalityLevel = .NonBreaking).length +
        (changes.filter fun c => c.criticalityLevel = .Dangerous).length +
        (changes.filter fun c => c.criticalityLevel = .Breaking).length =
      changes.length := by
  induction changes with
  | nil => rfl
  | cons c rest ih =>
    cases hc : c.criticalityLevel <;> simp [List.filter_cons, hc] <;> omega

theorem GroupChanges_apply (changes : List Change) (k : Criticality) :
    GroupChanges changes k =
      if (changes.filter fun c => c.criticalityLevel = k) = [] then none
      else some (changes.filter fun c => c.criticalityLevel = k) := by
  rw [GroupChanges, foldl_GroupChangesBody]
  rfl

theorem getD_GroupChanges (changes : List Change) (k : Criticality) :
    (GroupChanges changes k).getD [] = changes.filter fun c => c.criticalityLevel = k := by
  rw [GroupChanges_apply]
  split
  · rename_i h
    rw [h]
    rfl
  · rfl

/-- C37: the slice `GroupChanges` stores under a criticality holds the changes
of that criticality in their order in the input; the criticality is a key of
the map exactly when some change has it; and the lengths of the slices under
the three criticalities add up to the length of the input. -/
theorem GroupChanges_partition (changes : List Change) (k : Criticality) :
    (GroupChanges changes k =
      if (changes.filter fun c => c.criticalityLevel = k) = [] then none
      else some (changes.filter fun c => c.criticalityLevel = k)) ∧
    ((GroupChanges changes k).isSome = true ↔ ∃ c ∈ changes, c.criticalityLevel = k) ∧
    ((GroupChanges changes .NonBreaking).getD []).length +
        ((GroupChanges changes .Dangerous).getD []).length +
        ((GroupChanges changes .Breaking).getD []).length =
      changes.length := by
  refine ⟨GroupChanges_apply changes k, ?_, ?_⟩
  · rw [GroupChanges_apply]
    split
    · rename_i h
      simp only [Option.isSome_none, Bool.false_eq_true, false_iff, not_exists, not_and]
      intro c hc hk
      have : c ∈ changes.filter fun c => c.criticalityLevel = k := by
        simp [List.mem_filter, hc, hk]
      rw [h] at this
      cases this
    · rename_i h
      simp only [Option.isSome_some, true_iff]
      obtain ⟨c, hc⟩ := List.exists_mem_of_ne_nil _ h
      rw [List.mem_filter] at hc
      exact ⟨c, hc.1, by simpa using hc.2⟩
  · rw [getD_GroupChanges, getD_GroupChanges, getD_GroupChanges]
    exact length_filter_criticality changes

theorem less_getD_iff (ci cj : Change) (p q : Position) (hp : ci.position = some p)
    (hq : cj.position = some q) :
    (less ci cj).getD false = true ↔
      toLex (p.SrcName.data, p.Line) < toLex (q.SrcName.data, q.Line) := by
  rw [Prod.Lex.lt_iff]
  simp only [less, hp, hq]
  by_cases hn : p.SrcName = q.SrcName
  · simp [hn]
  · have hd : ¬ p.SrcName.data = q.SrcName.data := fun h => hn (String.ext h)
    simp [hn, hd]

theorem less_getD_eq_false_iff (ci cj : Change) (p q : Position) (hp : ci.position = some p)
    (hq : cj.position = some q) :
    (less ci cj).getD false = false ↔
      toLex (q.SrcName.data, q.Line) ≤ toLex (p.SrcName.data, p.Line) := by
  rw [← not_lt, ← less_getD_iff ci cj p q hp hq, Bool.not_eq_true]

theorem transitiveOrdering_less (l : List Change) (hpos : ∀ c ∈ l, c.position ≠ none) :
    transitiveOrdering (fun ci cj => (less ci cj).getD false) l := by
  have hex : ∀ c ∈ l, ∃ p, c.position = some p := fun c hc =>
    Option.ne_none_iff_exists'.mp (hpos c hc)
  refine ⟨?_, ?_, ?_⟩
  · intro a ha
    obtain ⟨p, hp⟩ := hex a ha
    rw [less_getD_eq_false_iff a a p p hp hp]
  · intro a ha b hb c hc hab hbc
    obtain ⟨p, hp⟩ := hex a ha
    obtain ⟨q, hq⟩ := hex b hb
    obtain ⟨r, hr⟩ := hex c hc
    simp only [less_getD_iff a b p q hp hq, less_getD_iff b c q r hq hr,
      less_getD_iff a c p r hp hr] at hab hbc ⊢
    exact lt_trans hab hbc
  · intro a ha b hb c hc hab hbc
    obtain ⟨p, hp⟩ := hex a ha
    obtain ⟨q, hq⟩ := hex b hb
    obtain ⟨r, hr⟩ := hex c hc
    simp only [less_getD_eq_false_iff a b p q hp hq, less_getD_eq_false_iff b c q r hq hr,
      less_getD_eq_false_iff a c p r hp hr] at hab hbc ⊢
    exact le_trans hbc hab

theorem reportOrdered_sort (ord : SliceSort) (changes : List Change)
    (hpos : ∀ c ∈ changes, c.position ≠ none) :
    reportOrdered (ord.sort (fun ci cj => (less ci cj).getD false) changes) := by
  refine (ord.sorted _ changes (transitiveOrdering_less changes hpos)).imp ?_
  intro a b hba p q hp hq
  rw [less_getD_eq_false_iff b a q p hq hp, Prod.Lex.le_iff] at hba
  rcases hba with h | ⟨h1, h2⟩
  · exact Or.inl h
  · exact Or.inr ⟨String.ext h1, h2⟩

theorem reportChanges_eq (ord : SliceSort) (marker : String) (changes : List Change)
    (withFilepath : Bool) (hpos : ∀ c ∈ changes, c.position ≠ none) :
    reportChanges ord marker changes withFilepath =
      some ((ord.sort (fun ci cj => (less ci cj).getD false) changes).map
        (reportLine marker withFilepath), changes.length) := by
  unfold reportChanges
  split
  · rename_i h
    rw [List.length_eq_zero] at h
    subst h
    rw [List.Perm.eq_nil (ord.perm _ [])]
    rfl
  · rw [if_neg]
    rintro ⟨_, c, hc, hn⟩
    exact hpos c hc hn

/-- C38: for a list of changes that all carry a position, each of
`ReportBreakingChanges`, `ReportDangerousChanges` and `ReportNonBreakingChanges`
prints one line per change, for the changes in an order that is a permutation of
the input in which no position comes after a later one by source file name,
then line, and returns the number of changes; for the empty list it prints
nothing and returns 0. -/
theorem Report_changes_sorted (ord : SliceSort) (changes : List Change) (withFilepath : Bool)
    (hpos : ∀ c ∈ changes, c.position ≠ none) :
    ∃ sorted : List Change, sorted.Perm changes ∧ reportOrdered sorted ∧
      ReportBreakingChanges ord changes withFilepath =
        some (sorted.map (reportLine "❌" withFilepath), changes.length) ∧
      ReportDangerousChanges ord changes withFilepath =
        some (sorted.map (reportLine "✋️" withFilepath), changes.length) ∧
      ReportNonBreakingChanges ord changes withFilepath =
        some (sorted.map (reportLine "✅" withFilepath), changes.length) ∧
      (sorted.map (reportLine "❌" withFilepath)).length = changes.length ∧
      (changes = [] → ReportBreakingChanges ord changes withFilepath = some ([], 0)) :=
  ⟨ord.sort (fun ci cj => (less ci cj).getD false) changes, ord.perm _ changes,
    reportOrdered_sort ord changes hpos,
    reportChanges_eq ord _ changes withFilepath hpos,
    reportChanges_eq ord _ changes withFilepath hpos,
    reportChanges_eq ord _ changes withFilepath hpos,
    by rw [List.length_map, (ord.perm _ changes).length_eq],
    fun h => by subst h; rfl⟩

/-- C38 (witness): the report of two changes, in `b.graphql` on line 2 and in
`a.graphql` on line 12, prints the change of `a.graphql` first and returns 2. -/
theorem Report_changes_sorted_witness :
    (∃ sorted : List Change, sorted.Perm exampleReport ∧ reportOrdered sorted ∧
      ReportBreakingChanges SliceSort.insertion exampleReport true =
        some (sorted.map (reportLine "❌" true), exampleReport.length) ∧
      ReportDangerousChanges SliceSort.insertion exampleReport true =
        some (sorted.map (reportLine "✋️" true), exampleReport.length) ∧
      ReportNonBreakingChanges SliceSort.insertion exampleReport true =
        some (sorted.map (reportLine "✅" true), exampleReport.length) ∧
      (sorted.map (reportLine "❌" true)).length = exampleReport.length ∧
      (exampleReport = [] →
        ReportBreakingChanges SliceSort.insertion exampleReport true = some ([], 0))) ∧
    ReportNonBreakingChanges SliceSort.insertion exampleReport true =
      some (["✅  a.graphql:12 Type 'A' was added\n", "✅  b.graphql:2 Type 'B' was added\n"],
        2) :=
  ⟨Report_changes_sorted SliceSort.insertion exampleReport true (by decide), by decide⟩

/-! ## Theorems: the rules of the linter -/

theorem appendEach_cons {α β : Type} (a : α) (l : List α) (body : α → Option (List β)) :
    appendEach (a :: l) body = appendBoth (body a) (appendEach l body) := by
  rw [appendEach]
  rfl

theorem appendBoth_some {β : Type} (x y : List β) :
    appendBoth (some x) (some y) = some (x ++ y) := rfl

theorem appendEach_singleton {α β : Type} (a : α) (body : α → Option (List β)) :
    appendEach [a] body = body a := by
  rw [appendEach_cons]
  cases h : body a <;> simp [appendEach, appendBoth]

theorem appendEach_eq_some {α β : Type} (l : List α) (body : α → Option (List β))
    (f : α → List β) (h : ∀ a ∈ l, body a = some (f a)) :
    appendEach l body = some (l.flatMap f) := by
  induction l with
  | nil => rfl
  | cons a rest ih =>
    rw [appendEach_cons, h a (List.mem_cons_self _ _),
      ih fun b hb => h b (List.mem_cons_of_mem _ hb), appendBoth_some, List.flatMap_cons]

theorem appendEach_append {α β : Type} (l₁ l₂ : List α) (body : α → Option (List β)) :
    appendEach (l₁ ++ l₂) body = appendBoth (appendEach l₁ body) (appendEach l₂ body) := by
  induction l₁ with
  | nil => cases h : appendEach l₂ body <;> simp [appendEach, appendBoth, h]
  | cons a rest ih =>
    rw [List.cons_append, appendEach_cons, appendEach_cons, ih]
    cases body a <;> cases appendEach rest body <;> cases appendEach l₂ body <;>
      simp [appendBoth]

theorem string_length_eq_zero (s : String) : s.length = 0 ↔ s = "" := by
  constructor
  · intro h
    exact String.ext (List.length_eq_zero.mp h)
  · rintro rfl
    rfl

theorem TypesHaveDescription_loop (l : List Definition)
    (hpos : ∀ d ∈ l, d.Description = "" → d.Position ≠ none) :
    ∃ errors : List LintErrorWithMetadata,
      (appendEach l fun definition =>
        if definition.Description.length = 0 then
          lintErrorAt typeDesc definition.Position fun _ =>
            "type " ++ definition.Name ++ " does not have description"
        else some []) = some errors ∧
      errors.map (fun e => (e.Rule, e.at)) =
        (l.filter fun d => d.Description = "").map fun d =>
          (typeDesc, lineAndColumn d.Position) := by
  induction l with
  | nil => exact ⟨[], rfl, rfl⟩
  | cons d rest ih =>
    obtain ⟨errors, he, hm⟩ := ih fun x hx => hpos x (List.mem_cons_of_mem _ hx)
    rw [appendEach_cons, he]
    by_cases hd : d.Description = ""
    · obtain ⟨p, hp⟩ := Option.ne_none_iff_exists'.mp (hpos d (List.mem_cons_self _ _) hd)
      refine ⟨{ Rule := typeDesc, Line := p.Line, Column := p.Column,
                Err := "type " ++ d.Name ++ " does not have description" } :: errors, ?_, ?_⟩
      · rw [if_pos ((string_length_eq_zero _).mpr hd), hp]
        rfl
      · simp only [LintErrorWithMetadata.at, lineAndColumn] at hm ⊢
        simp [List.filter_cons, hd, hm, hp]
    · refine ⟨errors, ?_, ?_⟩
      · rw [if_neg fun h => hd ((string_length_eq_zero _).mp h)]
        rfl
      · simp [List.filter_cons, hd, hm]

/-- C36: when the type definitions without a description have a position,
`TypesHaveDescription` returns, in the order of the definitions, one finding of
the rule `type-desc` for each type definition whose description is empty, at
the line and the column of the definition, and nothing else; its result
depends on the type definitions of the schema only, not on the extensions. -/
theorem TypesHaveDescription_findings (schema : SchemaDocument)
    (hpos : ∀ d ∈ schema.Definitions, d.Description = "" → d.Position ≠ none) :
    (∃ errors : List LintErrorWithMetadata,
      TypesHaveDescription schema = some errors ∧
      errors.map (fun e => (e.Rule, e.at)) =
        (schema.Definitions.filter fun d => d.Description = "").map fun d =>
          (typeDesc, lineAndColumn d.Position)) ∧
    ∀ other : SchemaDocument, other.Definitions = schema.Definitions →
      TypesHaveDescription other = TypesHaveDescription schema := by
  refine ⟨TypesHaveDescription_loop schema.Definitions hpos, ?_⟩
  intro other h
  unfold TypesHaveDescription
  rw [h]

/-- C36 (witness): of the definitions `account` (no description), `user`
(described) and `User` (no description) and the extension `zebra` (no
description), the first and the third are reported, at their position. -/
theorem TypesHaveDescription_findings_witness :
    (∃ errors : List LintErrorWithMetadata,
      TypesHaveDescription
          (exampleDocument [lintType "account" "", lintType "user" "a user", lintType "User" ""]
            [lintType "zebra" ""]) = some errors ∧
      errors.map (fun e => (e.Rule, e.at)) =
        [("type-desc", some 1, some 6), ("type-desc", some 1, some 6)]) ∧
    TypesHaveDescription
        (exampleDocument [lintType "account" "", lintType "user" "a user", lintType "User" ""]
          [lintType "zebra" ""]) =
      some [⟨"type-desc", 1, 6, "type account does not have description"⟩,
            ⟨"type-desc", 1, 6, "type User does not have description"⟩] :=
  ⟨(TypesHaveDescription_findings
      (exampleDocument [lintType "account" "", lintType "user" "a user", lintType "User" ""]
        [lintType "zebra" ""]) (by decide)).1,
    by decide⟩

theorem EnumValuesAreAllCaps_values (upper : Char → Char) (extended : String)
    (definition : Definition) (values : List EnumValueDefinition)
    (hpos : ∀ v ∈ values, v.Position ≠ none) :
    ∃ errors : List LintErrorWithMetadata,
      (appendEach values fun enumValue =>
        if ToUpper upper enumValue.Name ≠ enumValue.Name then
          lintErrorAt enumCaps enumValue.Position fun _ =>
            extended ++ "enum value " ++ definition.Name ++ "." ++ enumValue.Name ++
              " is not uppercase"
        else some []) = some errors ∧
      errors.map (fun e => (e.Rule, e.at)) =
        (values.filter fun v => ToUpper upper v.Name ≠ v.Name).map fun v =>
          (enumCaps, lineAndColumn v.Position) := by
  induction values with
  | nil => exact ⟨[], rfl, rfl⟩
  | cons v rest ih =>
    obtain ⟨errors, he, hm⟩ := ih fun x hx => hpos x (List.mem_cons_of_mem _ hx)
    obtain ⟨p, hp⟩ := Option.ne_none_iff_exists'.mp (hpos v (List.mem_cons_self _ _))
    rw [appendEach_cons, he]
    by_cases hv : ToUpper upper v.Name = v.Name
    · refine ⟨errors, ?_, ?_⟩
      · rw [if_neg (not_not.mpr hv)]
        rfl
      · simp [List.filter_cons, hv, hm]
    · refine ⟨{ Rule := enumCaps, Line := p.Line, Column := p.Column,
                Err := extended ++ "enum value " ++ definition.Name ++ "." ++ v.Name ++
                  " is not uppercase" } :: errors, ?_, ?_⟩
      · rw [if_pos hv, hp]
        rfl
      · simp only [LintErrorWithMetadata.at, lineAndColumn] at hm ⊢
        simp [List.filter_cons, hv, hm, hp]

theorem notUpperCase_cons (upper : Char → Char) (d : Definition) (l : List Definition) :
    notUpperCase upper (d :: l) =
      (if d.Kind = .Enum then d.EnumValues.filter fun v => ToUpper upper v.Name ≠ v.Name
        else []) ++ notUpperCase upper l := by
  unfold notUpperCase
  by_cases h : d.Kind = .Enum <;> simp [List.filter_cons, h]

theorem notUpperCase_append (upper : Char → Char) (l₁ l₂ : List Definition) :
    notUpperCase upper (l₁ ++ l₂) = notUpperCase upper l₁ ++ notUpperCase upper l₂ := by
  simp [notUpperCase, List.filter_append]

theorem EnumValuesAreAllCaps_loop (upper : Char → Char) (extended : String)
    (l : List Definition) (hpos : ∀ d ∈ l, ∀ v ∈ d.EnumValues, v.Position ≠ none) :
    ∃ errors : List LintErrorWithMetadata,
      appendEach l (EnumValuesAreAllCapsBody upper extended) = some errors ∧
      errors.map (fun e => (e.Rule, e.at)) =
        (notUpperCase upper l).map fun v => (enumCaps, lineAndColumn v.Position) := by
  induction l with
  | nil => exact ⟨[], rfl, rfl⟩
  | cons d rest ih =>
    obtain ⟨errors, he, hm⟩ := ih fun x hx => hpos x (List.mem_cons_of_mem _ hx)
    rw [appendEach_cons, he, notUpperCase_cons]
    unfold EnumValuesAreAllCapsBody
    by_cases hk : d.Kind = .Enum
    · obtain ⟨own, ho, hom⟩ := EnumValuesAreAllCaps_values upper extended d d.EnumValues
        (hpos d (List.mem_cons_self _ _))
      refine ⟨own ++ errors, ?_, ?_⟩
      · rw [if_pos hk, ho]
        rfl
      · rw [if_pos hk, List.map_append, List.map_append, hom, hm]
    · refine ⟨errors, ?_, ?_⟩
      · rw [if_neg hk]
        rfl
      · rw [if_neg hk, List.nil_append, hm]

/-- C35: when the enum values of the schema have a position,
`EnumValuesAreAllCaps` returns as many findings as there are enum values, in
the enum definitions and then the enum extensions of the schema, whose name
differs from its upper-cased form, one finding of the rule `enum-caps` for each
such value, in order, at the line and the column of the value. -/
theorem EnumValuesAreAllCaps_count (upper : Char → Char) (schema : SchemaDocument)
    (hpos : ∀ d ∈ schema.Definitions ++ schema.Extensions, ∀ v ∈ d.EnumValues,
      v.Position ≠ none) :
    ∃ errors : List LintErrorWithMetadata,
      EnumValuesAreAllCaps upper schema = some errors ∧
      errors.length =
        (notUpperCase upper (schema.Definitions ++ schema.Extensions)).length ∧
      errors.map (fun e => (e.Rule, e.at)) =
        (notUpperCase upper (schema.Definitions ++ schema.Extensions)).map fun v =>
          (enumCaps, lineAndColumn v.Position) := by
  obtain ⟨e₁, h₁, m₁⟩ := EnumValuesAreAllCaps_loop upper "" schema.Definitions
    fun d hd => hpos d (List.mem_append_left _ hd)
  obtain ⟨e₂, h₂, m₂⟩ := EnumValuesAreAllCaps_loop upper "extended " schema.Extensions
    fun d hd => hpos d (List.mem_append_right _ hd)
  have hm : (e₁ ++ e₂).map (fun e => (e.Rule, e.at)) =
      (notUpperCase upper (schema.Definitions ++ schema.Extensions)).map fun v =>
        (enumCaps, lineAndColumn v.Position) := by
    rw [notUpperCase_append, List.map_append, List.map_append, m₁, m₂]
  refine ⟨e₁ ++ e₂, ?_, ?_, hm⟩
  · rw [EnumValuesAreAllCaps, h₁, h₂]
    rfl
  · have := congrArg List.length hm
    simpa using this

/-- C35 (witness): `enum color { RED, Blue, green }` yields two findings, for
`Blue` and for `green`. -/
theorem EnumValuesAreAllCaps_count_witness :
    (∃ errors : List LintErrorWithMetadata,
      EnumValuesAreAllCaps asciiUpper (exampleDocument [colorEnum] []) = some errors ∧
      errors.length =
        (notUpperCase asciiUpper
          ((exampleDocument [colorEnum] []).Definitions ++
            (exampleDocument [colorEnum] []).Extensions)).length ∧
      errors.map (fun e => (e.Rule, e.at)) =
        (notUpperCase asciiUpper
          ((exampleDocument [colorEnum] []).Definitions ++
            (exampleDocument [colorEnum] []).Extensions)).map fun v =>
          (enumCaps, lineAndColumn v.Position)) ∧
    notUpperCase asciiUpper
        ((exampleDocument [colorEnum] []).Definitions ++
          (exampleDocument [colorEnum] []).Extensions) =
      [lintEnumValue "Blue" 19, lintEnumValue "green" 25] ∧
    EnumValuesAreAllCaps asciiUpper (exampleDocument [colorEnum] []) =
      some [⟨"enum-caps", 1, 19, "enum value color.Blue is not uppercase"⟩,
            ⟨"enum-caps", 1, 25, "enum value color.green is not uppercase"⟩] :=
  ⟨EnumValuesAreAllCaps_count asciiUpper (exampleDocument [colorEnum] []) (by decide),
    by decide, by decide⟩

theorem TypesAreCapitalizedBody_eq (extended : String) (typeDefinition : Definition)
    (c : Char) (rest : List Char) (p : Position)
    (hname : typeDefinition.Name.data = c :: rest) (hpos : typeDefinition.Position = some p) :
    TypesAreCapitalizedBody extended typeDefinition =
      some (if 98 ≤ c.toNat ∧ c.toNat ≤ 122 then
        [{ Rule := typeCaps, Line := p.Line, Column := p.Column,
           Err := extended ++ "type " ++ typeDefinition.Name ++ " is not capitalized" }]
      else []) := by
  have hb : firstByte typeDefinition.Name = some (utf8FirstByte c) := by
    simp [firstByte, hname]
  have hiff : (utf8FirstByte c > 97 ∧ utf8FirstByte c ≤ 122) ↔
      (98 ≤ c.toNat ∧ c.toNat ≤ 122) := by
    unfold utf8FirstByte
    split
    · omega
    · split
      · omega
      · split <;> omega
  unfold TypesAreCapitalizedBody
  rw [hb]
  by_cases h : 98 ≤ c.toNat ∧ c.toNat ≤ 122
  · simp only [hiff.mpr h, h, and_self, if_true, hpos, lintErrorAt]
  · have h' : ¬ (utf8FirstByte c > 97 ∧ utf8FirstByte c ≤ 122) := fun hh => h (hiff.mp hh)
    simp only [h', h, if_false]

/-- C31 (the code at the failing input): `TypesAreCapitalized` returns no
finding for the definition `type account { name: String! }` nor for the
extension `extend type apple { name: String! }`, whose names begin with the
lower-case letter `a`; it does return one for `type user` and for `type
zebra`. -/
theorem TypesAreCapitalized_lowercase_a :
    TypesAreCapitalized (exampleDocument [lintType "account" ""] []) = some [] ∧
    TypesAreCapitalized (exampleDocument [] [lintType "apple" ""]) = some [] ∧
    TypesAreCapitalized (exampleDocument [lintType "user" "", lintType "zebra" ""] []) =
      some [⟨"type-caps", 1, 6, "type user is not capitalized"⟩,
            ⟨"type-caps", 1, 6, "type zebra is not capitalized"⟩] := by
  decide

/-! ## Theorems: the rule `relay-conn-type` -/

theorem lintErrorAt_ne_nil (rule : String) (position : Option Position)
    (err : Position → String) : lintErrorAt rule position err ≠ some [] := by
  cases position <;> simp [lintErrorAt]

theorem appendBoth_eq_nil {β : Type} (x y : Option (List β)) :
    appendBoth x y = some [] ↔ x = some [] ∧ y = some [] := by
  cases x <;> cases y <;> simp [appendBoth]

theorem appendEach_eq_nil {α β : Type} (l : List α) (body : α → Option (List β)) :
    appendEach l body = some [] ↔ ∀ a ∈ l, body a = some [] := by
  induction l with
  | nil => simp [appendEach]
  | cons a rest ih =>
    rw [appendEach_cons, appendBoth_eq_nil, ih]
    simp

theorem appendEach_getD {α β : Type} (l : List α) (body : α → Option (List β))
    (h : ∀ a ∈ l, (body a).isSome = true) :
    appendEach l body = some (l.flatMap fun a => (body a).getD []) := by
  apply appendEach_eq_some
  intro a ha
  have := h a ha
  cases hb : body a with
  | none => rw [hb] at this; cases this
  | some x => rfl

theorem isFieldListType_iff (f : FieldDefinition) :
    isFieldListType f = true ↔ ∃ e nn, f.Type_ = .list e nn := by
  unfold isFieldListType
  cases f.Type_ with
  | named n nn =>
    simp [AstType.NamedType, AstType.Elem]
  | list e nn =>
    simp [AstType.NamedType, AstType.Elem]

theorem edgesFieldCheck_eq_nil (typeDefinition : Definition) (f : FieldDefinition) :
    edgesFieldCheck typeDefinition f = some [] ↔ isFieldListType f = true := by
  unfold edgesFieldCheck
  cases h : isFieldListType f
  · simpa using lintErrorAt_ne_nil _ _ _
  · simp

theorem pageInfoFieldCheck_eq_nil (typeDefinition : Definition) (f : FieldDefinition) :
    pageInfoFieldCheck typeDefinition f = some [] ↔ f.Type_ = .named "PageInfo" true := by
  unfold pageInfoFieldCheck
  constructor
  · intro h
    cases hn : f.Type_.Name with
    | none => rw [hn] at h; cases h
    | some name =>
      rw [hn] at h
      simp only at h
      split at h
      · exact absurd h (lintErrorAt_ne_nil _ _ _)
      · rename_i hc
        simp only [not_or, not_not, Bool.not_eq_false, Bool.not_eq_true] at hc
        obtain ⟨h1, h2, h3⟩ := hc
        cases ht : f.Type_ with
        | named n nn =>
          rw [ht] at hn h2
          simp only [AstType.Name] at hn
          split at hn
          · cases hn
            simp only [AstType.NonNull] at h2
            rw [h1, h2]
          · cases hn
        | list e nn =>
          have : isFieldListType f = true := (isFieldListType_iff f).mpr ⟨e, nn, ht⟩
          rw [this] at h3
          cases h3
  · intro h
    have hl : isFieldListType f = false := by
      simp [isFieldListType, h, AstType.NamedType]
    simp [h, AstType.Name, AstType.NonNull, hl]

theorem prependErrors_eq_nil (errors : Option (List LintErrorWithMetadata))
    (rest : Option (List LintErrorWithMetadata × Bool × Bool)) (a b : Bool) :
    prependErrors errors rest = some ([], a, b) ↔
      errors = some [] ∧ rest = some ([], a, b) := by
  cases errors with
  | none => simp [prependErrors]
  | some e =>
    cases rest with
    | none => simp [prependErrors]
    | some r =>
      obtain ⟨more, x, y⟩ := r
      simp only [prependErrors, Option.some.injEq, Prod.mk.injEq, List.append_eq_nil]
      tauto

theorem connectionFieldsLoop_eq_nil (typeDefinition : Definition)
    (fields : List FieldDefinition) (foundEdgesField foundPageInfoField a b : Bool) :
    connectionFieldsLoop typeDefinition fields foundEdgesField foundPageInfoField =
        some ([], a, b) ↔
      (∀ f ∈ fields, f.Name = "edges" → isFieldListType f = true) ∧
      (∀ f ∈ fields, f.Name = "pageInfo" → f.Type_ = .named "PageInfo" true) ∧
      a = (foundEdgesField || fields.any fun f => f.Name = "edges") ∧
      b = (foundPageInfoField || fields.any fun f => f.Name = "pageInfo") := by
  induction fields generalizing foundEdgesField foundPageInfoField with
  | nil =>
    simp only [connectionFieldsLoop, Option.some.injEq, Prod.mk.injEq, true_and, List.not_mem_nil,
      false_implies, implies_true, List.any_nil, Bool.or_false]
    constructor
    · rintro ⟨rfl, rfl⟩
      exact ⟨rfl, rfl⟩
    · rintro ⟨rfl, rfl⟩
      exact ⟨rfl, rfl⟩
  | cons f rest ih =>
    rw [connectionFieldsLoop]
    by_cases he : f.Name = "edges"
    · have hpi : ¬ f.Name = "pageInfo" := by rw [he]; decide
      have hne : ¬ ("edges" = "pageInfo") := by decide
      rw [if_pos he, prependErrors_eq_nil, edgesFieldCheck_eq_nil, ih]
      simp only [List.forall_mem_cons, List.any_cons, he, hne, decide_True, decide_False,
        Bool.true_or, Bool.or_true, Bool.false_or, true_implies, false_implies, true_and]
      tauto
    · by_cases hpi : f.Name = "pageInfo"
      · have hne : ¬ ("pageInfo" = "edges") := by decide
        rw [if_neg he, if_pos hpi, prependErrors_eq_nil, pageInfoFieldCheck_eq_nil, ih]
        simp only [List.forall_mem_cons, List.any_cons, hpi, hne, decide_True, decide_False,
          Bool.true_or, Bool.or_true, Bool.false_or, true_implies, false_implies, true_and]
        tauto
      · rw [if_neg he, if_neg hpi, ih]
        simp only [List.forall_mem_cons, List.any_cons, he, hpi, decide_False, Bool.false_or,
          false_implies, true_and]

theorem eq_of_name_eq_of_nodup (fields : List FieldDefinition)
    (hnodup : (fields.map fun f => f.Name).Nodup) (f g : FieldDefinition) (hf : f ∈ fields)
    (hg : g ∈ fields) (h : f.Name = g.Name) : f = g :=
  List.inj_on_of_nodup_map hnodup hf hg h

theorem RelayConnectionTypesSpecBody_eq_nil (d : Definition)
    (hname : HasSuffix d.Name "Connection" = true) :
    RelayConnectionTypesSpecBody d = some [] ↔
      d.Kind = .Object ∧
      (∀ f ∈ d.Fields, f.Name = "edges" → isFieldListType f = true) ∧
      (∀ f ∈ d.Fields, f.Name = "pageInfo" → f.Type_ = .named "PageInfo" true) ∧
      (∃ f ∈ d.Fields, f.Name = "edges") ∧ (∃ f ∈ d.Fields, f.Name = "pageInfo") := by
  unfold RelayConnectionTypesSpecBody
  rw [if_pos hname]
  by_cases hk : d.Kind = .Object
  · rw [if_neg (not_not.mpr hk)]
    cases hl : connectionFieldsLoop d d.Fields false false with
    | none =>
      simp only [false_iff, not_and, reduceCtorEq]
      intro _ h1 h2 h3 h4
      have := (connectionFieldsLoop_eq_nil d d.Fields false false
        (d.Fields.any fun f => f.Name = "edges") (d.Fields.any fun f => f.Name = "pageInfo")).mpr
        ⟨h1, h2, by simp, by simp⟩
      rw [hl] at this
      cases this
    | some r =>
      obtain ⟨errors, x, y⟩ := r
      have hiff := connectionFieldsLoop_eq_nil d d.Fields false false x y
      rw [hl] at hiff
      simp only [appendBoth_eq_nil, Option.some.injEq, hk, true_and]
      have hx : (if (!x) = true then
          lintErrorAt relayConnType d.Position fun p =>
            lineColumn p ++ " type " ++ d.Name ++
              " is a Connection type and therefore needs to have a field named 'edges' that returns a list type"
          else some []) = some [] ↔ x = true := by
        cases x
        · simpa using lintErrorAt_ne_nil _ _ _
        · simp
      have hy : (if (!y) = true then
          lintErrorAt relayConnType d.Position fun p =>
            lineColumn p ++ " type " ++ d.Name ++
              " is a Connection type and therefore needs to have a field named 'pageInfo' that returns a non-null PageInfo object"
          else some []) = some [] ↔ y = true := by
        cases y
        · simpa using lintErrorAt_ne_nil _ _ _
        · simp
      rw [hx, hy]
      constructor
      · rintro ⟨he, hxt, hyt⟩
        obtain ⟨h1, h2, h3, h4⟩ := hiff.mp (by rw [he])
        rw [hxt] at h3
        rw [hyt] at h4
        refine ⟨h1, h2, ?_, ?_⟩
        · simpa using h3.symm
        · simpa using h4.symm
      · rintro ⟨h1, h2, h3, h4⟩
        have hx' : x = true := by
          by_contra hne
          have hxf : x = false := by simpa using hne
          have := connectionFieldsLoop_eq_nil d d.Fields false false
            (d.Fields.any fun f => f.Name = "edges") (d.Fields.any fun f => f.Name = "pageInfo")
          rw [hl] at this
          have h5 := this.mpr ⟨h1, h2, by simp, by simp⟩
          simp only [Option.some.injEq, Prod.mk.injEq] at h5
          rw [hxf] at h5
          have : (d.Fields.any fun f => decide (f.Name = "edges")) = true := by
            simpa using h3
          rw [this] at h5
          exact absurd h5.2.1 (by decide)
        have hy' : y = true := by
          by_contra hne
          have hyf : y = false := by simpa using hne
          have := connectionFieldsLoop_eq_nil d d.Fields false false
            (d.Fields.any fun f => f.Name = "edges") (d.Fields.any fun f => f.Name = "pageInfo")
          rw [hl] at this
          have h5 := this.mpr ⟨h1, h2, by simp, by simp⟩
          simp only [Option.some.injEq, Prod.mk.injEq] at h5
          rw [hyf] at h5
          have : (d.Fields.any fun f => decide (f.Name = "pageInfo")) = true := by
            simpa using h4
          rw [this] at h5
          exact absurd h5.2.2 (by decide)
        have he : errors = [] := by
          have := connectionFieldsLoop_eq_nil d d.Fields false false
            (d.Fields.any fun f => f.Name = "edges") (d.Fields.any fun f => f.Name = "pageInfo")
          rw [hl] at this
          have h5 := this.mpr ⟨h1, h2, by simp, by simp⟩
          simp only [Option.some.injEq, Prod.mk.injEq] at h5
          exact h5.1
        exact ⟨he, hx', hy'⟩
  · rw [if_pos hk]
    simp only [hk, false_and, iff_false]
    exact lintErrorAt_ne_nil _ _ _

theorem lintErrorAt_isSome (rule : String) (position : Option Position)
    (err : Position → String) (h : position ≠ none) :
    (lintErrorAt rule position err).isSome = true := by
  cases position with
  | none => exact absurd rfl h
  | some p => rfl

theorem appendBoth_isSome {β : Type} (x y : Option (List β)) (hx : x.isSome = true)
    (hy : y.isSome = true) : (appendBoth x y).isSome = true := by
  cases x <;> cases y <;> simp_all [appendBoth]

theorem prependErrors_isSome (errors : Option (List LintErrorWithMetadata))
    (rest : Option (List LintErrorWithMetadata × Bool × Bool)) (he : errors.isSome = true)
    (hr : rest.isSome = true) : (prependErrors errors rest).isSome = true := by
  cases errors <;> cases rest <;> simp_all [prependErrors]

theorem connectionFieldsLoop_isSome (typeDefinition : Definition)
    (fields : List FieldDefinition)
    (h : ∀ f ∈ fields, f.TypePosition ≠ none ∧ f.Type_.Name ≠ none)
    (foundEdgesField foundPageInfoField : Bool) :
    (connectionFieldsLoop typeDefinition fields foundEdgesField foundPageInfoField).isSome =
      true := by
  induction fields generalizing foundEdgesField foundPageInfoField with
  | nil => rfl
  | cons f rest ih =>
    have hf := h f (List.mem_cons_self _ _)
    have hrest := ih fun g hg => h g (List.mem_cons_of_mem _ hg)
    rw [connectionFieldsLoop]
    split
    · apply prependErrors_isSome _ _ _ (hrest _ _)
      unfold edgesFieldCheck
      split
      · exact lintErrorAt_isSome _ _ _ hf.1
      · rfl
    · split
      · apply prependErrors_isSome _ _ _ (hrest _ _)
        unfold pageInfoFieldCheck
        obtain ⟨name, hn⟩ := Option.ne_none_iff_exists'.mp hf.2
        rw [hn]
        simp only
        split
        · exact lintErrorAt_isSome _ _ _ hf.1
        · rfl
      · exact hrest _ _

theorem RelayConnectionTypesSpecBody_isSome (d : Definition) (hpos : d.Position ≠ none)
    (h : ∀ f ∈ d.Fields, f.TypePosition ≠ none ∧ f.Type_.Name ≠ none) :
    (RelayConnectionTypesSpecBody d).isSome = true := by
  unfold RelayConnectionTypesSpecBody
  split
  · split
    · exact lintErrorAt_isSome _ _ _ hpos
    · have hl := connectionFieldsLoop_isSome d d.Fields h false false
      cases hc : connectionFieldsLoop d d.Fields false false with
      | none => rw [hc] at hl; cases hl
      | some r =>
        obtain ⟨errors, x, y⟩ := r
        simp only
        apply appendBoth_isSome (some errors) _ rfl
        apply appendBoth_isSome
        · split
          · exact lintErrorAt_isSome _ _ _ hpos
          · rfl
        · split
          · exact lintErrorAt_isSome _ _ _ hpos
          · rfl
  · rfl

theorem RelayConnectionTypesSpecBody_accept (d : Definition)
    (hname : HasSuffix d.Name "Connection" = true)
    (hnodup : (d.Fields.map fun f => f.Name).Nodup) :
    RelayConnectionTypesSpecBody d = some [] ↔
      d.Kind = .Object ∧
      (∃ f ∈ d.Fields, f.Name = "edges" ∧ ∃ e nn, f.Type_ = .list e nn) ∧
      (∃ f ∈ d.Fields, f.Name = "pageInfo" ∧ f.Type_ = .named "PageInfo" true) := by
  rw [RelayConnectionTypesSpecBody_eq_nil d hname]
  constructor
  · rintro ⟨hk, h1, h2, ⟨f, hf, hfe⟩, ⟨g, hg, hgp⟩⟩
    exact ⟨hk, ⟨f, hf, hfe, (isFieldListType_iff f).mp (h1 f hf hfe)⟩, ⟨g, hg, hgp, h2 g hg hgp⟩⟩
  · rintro ⟨hk, ⟨f, hf, hfe, hfl⟩, ⟨g, hg, hgp, hgt⟩⟩
    refine ⟨hk, ?_, ?_, ⟨f, hf, hfe⟩, ⟨g, hg, hgp⟩⟩
    · intro f' hf' hfe'
      have : f' = f := eq_of_name_eq_of_nodup d.Fields hnodup f' f hf' hf (hfe'.trans hfe.symm)
      rw [this]
      exact (isFieldListType_iff f).mpr hfl
    · intro g' hg' hgp'
      have : g' = g := eq_of_name_eq_of_nodup d.Fields hnodup g' g hg' hg (hgp'.trans hgp.symm)
      rw [this]
      exact hgt

theorem RelayConnectionTypesSpecBody_other (d : Definition)
    (hname : HasSuffix d.Name "Connection" = false) :
    RelayConnectionTypesSpecBody d = some [] := by
  unfold RelayConnectionTypesSpecBody
  rw [hname]
  rfl

theorem RelayConnectionTypesSpecBody_not_object (d : Definition)
    (hname : HasSuffix d.Name "Connection" = true) (hk : d.Kind ≠ .Object) (p : Position)
    (hp : d.Position = some p) :
    RelayConnectionTypesSpecBody d =
      some [{ Rule := relayConnType, Line := p.Line, Column := p.Column,
              Err := lineColumn p ++ " type " ++ d.Name ++
                " cannot end with Connection as that is reserved for entities" }] := by
  unfold RelayConnectionTypesSpecBody
  rw [if_pos hname, if_pos hk, hp]
  rfl

/-- C34: for every schema in which the type definitions whose name ends in
`Connection` have fields of distinct names, `RelayConnectionTypesSpec` returns
no finding exactly when each such definition is an object type, has a field
`edges` whose type is a list type and has a field `pageInfo` whose type is the
non-null named type `PageInfo`. When these definitions, and the types of their
fields, have a position and a name, the rule returns, in the order of the
definitions, the findings of each type definition of the schema, where a
definition whose name does not end in `Connection` has none, a definition
whose name does has none exactly under the condition above, and one that is not
an object type has exactly one, at the position of the definition. -/
theorem RelayConnectionTypesSpec_acceptance (schema : SchemaDocument)
    (hnodup : ∀ d ∈ schema.Definitions, HasSuffix d.Name "Connection" = true →
      (d.Fields.map fun f => f.Name).Nodup) :
    (RelayConnectionTypesSpec schema = some [] ↔
      ∀ d ∈ schema.Definitions, HasSuffix d.Name "Connection" = true →
        d.Kind = .Object ∧
        (∃ f ∈ d.Fields, f.Name = "edges" ∧ ∃ e nn, f.Type_ = .list e nn) ∧
        (∃ f ∈ d.Fields, f.Name = "pageInfo" ∧ f.Type_ = .named "PageInfo" true)) ∧
    ((∀ d ∈ schema.Definitions, HasSuffix d.Name "Connection" = true →
        d.Position ≠ none ∧ ∀ f ∈ d.Fields, f.TypePosition ≠ none ∧ f.Type_.Name ≠ none) →
      ∃ findings : Definition → List LintErrorWithMetadata,
        RelayConnectionTypesSpec schema = some (schema.Definitions.flatMap findings) ∧
        ∀ d ∈ schema.Definitions,
          (HasSuffix d.Name "Connection" = false → findings d = []) ∧
          (HasSuffix d.Name "Connection" = true →
            (findings d = [] ↔
              d.Kind = .Object ∧
              (∃ f ∈ d.Fields, f.Name = "edges" ∧ ∃ e nn, f.Type_ = .list e nn) ∧
              (∃ f ∈ d.Fields, f.Name = "pageInfo" ∧ f.Type_ = .named "PageInfo" true)) ∧
            (d.Kind ≠ .Object → ∀ p, d.Position = some p →
              findings d =
                [{ Rule := relayConnType, Line := p.Line, Column := p.Column,
                   Err := lineColumn p ++ " type " ++ d.Name ++
                     " cannot end with Connection as that is reserved for entities" }]))) := by
  constructor
  · rw [RelayConnectionTypesSpec, appendEach_eq_nil]
    constructor
    · intro h d hd hname
      exact (RelayConnectionTypesSpecBody_accept d hname (hnodup d hd hname)).mp (h d hd)
    · intro h d hd
      cases hname : HasSuffix d.Name "Connection" with
      | false => exact RelayConnectionTypesSpecBody_other d hname
      | true =>
        exact (RelayConnectionTypesSpecBody_accept d hname (hnodup d hd hname)).mpr
          (h d hd hname)
  · intro hpos
    have hsome : ∀ d ∈ schema.Definitions, (RelayConnectionTypesSpecBody d).isSome = true := by
      intro d hd
      cases hname : HasSuffix d.Name "Connection" with
      | false => rw [RelayConnectionTypesSpecBody_other d hname]; rfl
      | true => exact RelayConnectionTypesSpecBody_isSome d (hpos d hd hname).1 (hpos d hd hname).2
    refine ⟨fun d => (RelayConnectionTypesSpecBody d).getD [],
      appendEach_getD _ _ hsome, ?_⟩
    intro d hd
    refine ⟨fun hname => ?_, fun hname => ⟨?_, fun hk p hp => ?_⟩⟩
    · show (RelayConnectionTypesSpecBody d).getD [] = []
      rw [RelayConnectionTypesSpecBody_other d hname]
      rfl
    · show (RelayConnectionTypesSpecBody d).getD [] = [] ↔ _
      rw [← RelayConnectionTypesSpecBody_accept d hname (hnodup d hd hname)]
      have := hsome d hd
      cases hb : RelayConnectionTypesSpecBody d with
      | none => rw [hb] at this; cases this
      | some x => simp
    · show (RelayConnectionTypesSpecBody d).getD [] = _
      rw [RelayConnectionTypesSpecBody_not_object d hname hk p hp]
      rfl

/-- C34 (witness): the schema with the type `User` and the object type
`UserConnection` with the fields `edges: [SomeObject]` and `pageInfo:
PageInfo!` yields no finding; with an interface `UserConnection` between them,
on line 4, it yields one, for the interface. -/
theorem RelayConnectionTypesSpec_acceptance_witness :
    RelayConnectionTypesSpec
        (exampleDocument
          [lintType "User" "",
           userConnection .Object
            [connectionField "edges" (.list (.named "SomeObject" false) false) 2,
             connectionField "pageInfo" (.named "PageInfo" true) 3]] []) = some [] ∧
    RelayConnectionTypesSpec
        (exampleDocument
          [lintType "User" "",
           { userConnection .Interface
              [connectionField "edges" (.list (.named "User" false) false) 5,
               connectionField "pageInfo" (.named "PageInfo" true) 6] with
             Position := lintPos 4 11 },
           userConnection .Object
            [connectionField "edges" (.list (.named "SomeObject" false) false) 2,
             connectionField "pageInfo" (.named "PageInfo" true) 3]] []) =
      some [⟨"relay-conn-type", 4, 11,
        "4:11 type UserConnection cannot end with Connection as that is reserved for entities"⟩] :=
  ⟨(RelayConnectionTypesSpec_acceptance
      (exampleDocument
        [lintType "User" "",
         userConnection .Object
          [connectionField "edges" (.list (.named "SomeObject" false) false) 2,
           connectionField "pageInfo" (.named "PageInfo" true) 3]] [])
      (by decide)).1.mpr
      (by
        intro d hd hname
        simp only [exampleDocument, List.mem_cons, List.mem_singleton, List.not_mem_nil,
          or_false] at hd
        rcases hd with rfl | rfl
        · exact absurd hname (by decide)
        · exact ⟨rfl,
            ⟨connectionField "edges" (.list (.named "SomeObject" false) false) 2, by decide, rfl,
              _, _, rfl⟩,
            ⟨connectionField "pageInfo" (.named "PageInfo" true) 3, by decide, rfl, rfl⟩⟩),
    by decide⟩

/-! ## Theorems: the rule `relay-conn-args` -/

theorem lastNamed_cons (a : ArgumentDefinition) (rest : List ArgumentDefinition)
    (name : String) :
    lastNamed (a :: rest) name =
      match lastNamed rest name with
      | some x => some x
      | none => if a.Name = name then some a else none := by
  unfold lastNamed
  by_cases h : a.Name = name
  · simp only [List.filter_cons, h, decide_True, if_true]
    cases hl : List.filter (fun a => decide (a.Name = name)) rest with
    | nil => rfl
    | cons b l =>
      rw [List.getLast?_cons_cons]
      cases hg : (b :: l).getLast? with
      | none => simp at hg
      | some x => rfl
  · rw [List.filter_cons_of_neg (by simpa using h)]
    cases (List.filter (fun a => decide (a.Name = name)) rest).getLast? <;> simp [h]

theorem paginationArgumentsLoop_eq (arguments : List ArgumentDefinition)
    (found : PaginationArguments) :
    paginationArgumentsLoop arguments found =
      { firstArgument := (lastNamed arguments "first").orElse fun _ => found.firstArgument
        afterArgument := (lastNamed arguments "after").orElse fun _ => found.afterArgument
        lastArgument := (lastNamed arguments "last").orElse fun _ => found.lastArgument
        beforeArgument := (lastNamed arguments "before").orElse fun _ => found.beforeArgument } := by
  induction arguments generalizing found with
  | nil => rfl
  | cons a rest ih =>
    rw [paginationArgumentsLoop]
    simp only [lastNamed_cons]
    by_cases h1 : a.Name = "first"
    · rw [if_pos h1, ih]
      cases lastNamed rest "first" <;> cases lastNamed rest "after" <;>
        cases lastNamed rest "last" <;> cases lastNamed rest "before" <;> simp [h1]
    · by_cases h2 : a.Name = "after"
      · rw [if_neg h1, if_pos h2, ih]
        cases lastNamed rest "first" <;> cases lastNamed rest "after" <;>
          cases lastNamed rest "last" <;> cases lastNamed rest "before" <;> simp [h2]
      · by_cases h3 : a.Name = "last"
        · rw [if_neg h1, if_neg h2, if_pos h3, ih]
          cases lastNamed rest "first" <;> cases lastNamed rest "after" <;>
            cases lastNamed rest "last" <;> cases lastNamed rest "before" <;> simp [h3]
        · by_cases h4 : a.Name = "before"
          · rw [if_neg h1, if_neg h2, if_neg h3, if_pos h4, ih]
            cases lastNamed rest "first" <;> cases lastNamed rest "after" <;>
              cases lastNamed rest "last" <;> cases lastNamed rest "before" <;> simp [h4]
          · rw [if_neg h1, if_neg h2, if_neg h3, if_neg h4, ih]
            cases lastNamed rest "first" <;> cases lastNamed rest "after" <;>
              cases lastNamed rest "last" <;> cases lastNamed rest "before" <;>
              simp [h1, h2, h3, h4]

theorem paginationArgumentsLoop_init (arguments : List ArgumentDefinition) :
    paginationArgumentsLoop arguments ⟨none, none, none, none⟩ =
      ⟨lastNamed arguments "first", lastNamed arguments "after", lastNamed arguments "last",
        lastNamed arguments "before"⟩ := by
  rw [paginationArgumentsLoop_eq]
  cases lastNamed arguments "first" <;> cases lastNamed arguments "after" <;>
    cases lastNamed arguments "last" <;> cases lastNamed arguments "before" <;> rfl

theorem findingIf_eq_nil (cond : Option Bool) (finding : Option (List LintErrorWithMetadata))
    (h : finding ≠ some []) : findingIf cond finding = some [] ↔ cond = some false := by
  cases cond with
  | none => simp [findingIf]
  | some c => cases c <;> simp [findingIf, h]

theorem orNameIsNot_eq_false (cond : Bool) (typ : AstType) (name : String) :
    orNameIsNot cond typ name = some false ↔ cond = false ∧ typ.Name = some name := by
  unfold orNameIsNot
  cases cond
  · cases typ.Name <;> simp
  · simp

theorem nullable_named_iff (t : AstType) (name : String) (hname : name ≠ "") :
    ((t.NamedType == "" || t.NonNull) = false ∧ t.Name = some name) ↔
      t = .named name false := by
  cases t with
  | named n nn =>
    by_cases hn : n = ""
    · subst hn
      simp [AstType.NamedType, AstType.NonNull, AstType.Name, hname.symm]
    · cases nn <;> simp [AstType.NamedType, AstType.NonNull, AstType.Name, hn]
  | list e nn => simp [AstType.NamedType, AstType.NonNull]

theorem notList_named_iff (t : AstType) (name : String) (hname : name ≠ "") :
    ((t.NamedType == "" && t.Elem.isSome) = false ∧ t.Name = some name) ↔
      (t = .named name false ∨ t = .named name true) := by
  cases t with
  | named n nn =>
    by_cases hn : n = ""
    · subst hn
      simp [AstType.NamedType, AstType.Elem, AstType.Name, hname.symm]
    · cases nn <;> simp [AstType.NamedType, AstType.Elem, AstType.Name, hn]
  | list e nn => simp [AstType.NamedType, AstType.Elem]

theorem notListNonNull_named_iff (t : AstType) (name : String) (hname : name ≠ "") :
    (((t.NamedType == "" && t.Elem.isSome) || t.NonNull) = false ∧ t.Name = some name) ↔
      t = .named name false := by
  cases t with
  | named n nn =>
    by_cases hn : n = ""
    · subst hn
      simp [AstType.NamedType, AstType.Elem, AstType.NonNull, AstType.Name, hname.symm]
    · cases nn <;> simp [AstType.NamedType, AstType.Elem, AstType.NonNull, AstType.Name, hn]
  | list e nn => simp [AstType.NamedType, AstType.Elem, AstType.NonNull]

theorem checkFirstArgument_eq_nil (f : FieldDefinition) (hasBackwardPagination : Bool)
    (first : ArgumentDefinition) :
    checkFirstArgument f hasBackwardPagination first = some [] ↔
      (if hasBackwardPagination = true then isNullableNamedInt first.Type_
        else isNamedInt first.Type_) = true := by
  unfold checkFirstArgument
  cases hasBackwardPagination
  · simp only [Bool.false_eq_true, if_false]
    rw [findingIf_eq_nil _ _ (lintErrorAt_ne_nil _ _ _), orNameIsNot_eq_false]
    unfold isArgListType
    rw [notList_named_iff _ _ (by decide)]
    simp [isNamedInt]
  · simp only [if_true]
    rw [findingIf_eq_nil _ _ (lintErrorAt_ne_nil _ _ _), orNameIsNot_eq_false,
      nullable_named_iff _ _ (by decide)]
    simp [isNullableNamedInt]

theorem checkLastArgument_eq_nil (f : FieldDefinition) (hasForwardPagination : Bool)
    (last : ArgumentDefinition) :
    checkLastArgument f hasForwardPagination last = some [] ↔
      (if hasForwardPagination = true then isNullableNamedInt last.Type_
        else isNamedInt last.Type_) = true := by
  unfold checkLastArgument
  cases hasForwardPagination
  · simp only [Bool.false_eq_true, if_false]
    rw [findingIf_eq_nil _ _ (lintErrorAt_ne_nil _ _ _), orNameIsNot_eq_false]
    unfold isArgListType
    rw [notList_named_iff _ _ (by decide)]
    simp [isNamedInt]
  · simp only [if_true]
    rw [findingIf_eq_nil _ _ (lintErrorAt_ne_nil _ _ _), orNameIsNot_eq_false]
    unfold isArgListType
    rw [notListNonNull_named_iff _ _ (by decide)]
    simp [isNullableNamedInt]

theorem RelayConnectionArgumentsSpecBody_eq (f : FieldDefinition) (name : String)
    (hn : f.Type_.Name = some name) (hc : HasSuffix name "Connection" = true) :
    RelayConnectionArgumentsSpecBody f =
      appendBoth
        (if (!hasForward f && !hasBackward f) = true then
          lintErrorAt relayConnArgs f.TypePosition fun p =>
            lineColumn p ++ " field " ++ f.Name ++
              " returns a Connection type and therefore must include forward pagination arguments (`first` and `after`) and/or backward pagination arguments (`last` and `before`) as per the Relay spec"
        else some [])
        (appendBoth
          (match lastNamed f.Arguments "first" with
            | some firstArgument => checkFirstArgument f (hasBackward f) firstArgument
            | none => some [])
          (match lastNamed f.Arguments "last" with
            | some lastArgument => checkLastArgument f (hasForward f) lastArgument
            | none => some [])) := by
  unfold RelayConnectionArgumentsSpecBody
  rw [hn]
  simp only [hc, if_true, paginationArgumentsLoop_init]
  rfl

theorem RelayConnectionArgumentsSpecBody_eq_nil (f : FieldDefinition) (name : String)
    (hn : f.Type_.Name = some name) (hc : HasSuffix name "Connection" = true) :
    RelayConnectionArgumentsSpecBody f = some [] ↔ relayArgumentsAccepted f = true := by
  rw [RelayConnectionArgumentsSpecBody_eq f name hn hc, appendBoth_eq_nil, appendBoth_eq_nil]
  unfold relayArgumentsAccepted
  have h1 : (if (!hasForward f && !hasBackward f) = true then
      lintErrorAt relayConnArgs f.TypePosition fun p =>
        lineColumn p ++ " field " ++ f.Name ++
          " returns a Connection type and therefore must include forward pagination arguments (`first` and `after`) and/or backward pagination arguments (`last` and `before`) as per the Relay spec"
      else some []) = some [] ↔ (hasForward f || hasBackward f) = true := by
    cases hasForward f <;> cases hasBackward f <;>
      simp [lintErrorAt_ne_nil]
  have h2 : (match lastNamed f.Arguments "first" with
      | some firstArgument => checkFirstArgument f (hasBackward f) firstArgument
      | none => some []) = some [] ↔
      ((lastNamed f.Arguments "first").all fun a =>
        if hasBackward f then isNullableNamedInt a.Type_ else isNamedInt a.Type_) = true := by
    cases lastNamed f.Arguments "first" with
    | none => simp
    | some a => simpa using checkFirstArgument_eq_nil f (hasBackward f) a
  have h3 : (match lastNamed f.Arguments "last" with
      | some lastArgument => checkLastArgument f (hasForward f) lastArgument
      | none => some []) = some [] ↔
      ((lastNamed f.Arguments "last").all fun a =>
        if hasForward f then isNullableNamedInt a.Type_ else isNamedInt a.Type_) = true := by
    cases lastNamed f.Arguments "last" with
    | none => simp
    | some a => simpa using checkLastArgument_eq_nil f (hasForward f) a
  exact (and_congr h1 (and_congr h2 h3)).trans (by simp only [Bool.and_eq_true, and_assoc])

theorem relayArgumentsAccepted_eq_claimed (f : FieldDefinition)
    (h : argumentsPaired f = true) : relayArgumentsAccepted f = relayArgumentsClaimed f := by
  revert h
  unfold argumentsPaired relayArgumentsAccepted relayArgumentsClaimed hasForward hasBackward
  generalize lastNamed f.Arguments "first" = first
  generalize lastNamed f.Arguments "after" = after
  generalize lastNamed f.Arguments "last" = last
  generalize lastNamed f.Arguments "before" = before
  intro h
  cases first <;> cases after <;> cases last <;> cases before <;> simp at h ⊢

theorem lastNamed_mem (arguments : List ArgumentDefinition) (name : String)
    (a : ArgumentDefinition) (h : lastNamed arguments name = some a) : a ∈ arguments := by
  unfold lastNamed at h
  exact (List.mem_filter.mp (List.mem_of_getLast?_eq_some h)).1

theorem findingIf_isSome (cond : Option Bool) (finding : Option (List LintErrorWithMetadata))
    (hc : cond.isSome = true) (hf : finding.isSome = true) :
    (findingIf cond finding).isSome = true := by
  cases cond with
  | none => simp at hc
  | some c => cases c <;> simp [findingIf, hf]

theorem orNameIsNot_isSome (cond : Bool) (typ : AstType) (name : String)
    (h : typ.Name ≠ none) : (orNameIsNot cond typ name).isSome = true := by
  unfold orNameIsNot
  cases cond
  · cases hn : typ.Name with
    | none => exact absurd hn h
    | some n => rfl
  · rfl

theorem checkFirstArgument_isSome (f : FieldDefinition) (hasBackwardPagination : Bool)
    (first : ArgumentDefinition) (hp : first.Position ≠ none) (hn : first.Type_.Name ≠ none) :
    (checkFirstArgument f hasBackwardPagination first).isSome = true := by
  unfold checkFirstArgument
  cases hasBackwardPagination
  · exact findingIf_isSome _ _ (orNameIsNot_isSome _ _ _ hn) (lintErrorAt_isSome _ _ _ hp)
  · exact findingIf_isSome _ _ (orNameIsNot_isSome _ _ _ hn) (lintErrorAt_isSome _ _ _ hp)

theorem checkLastArgument_isSome (f : FieldDefinition) (hasForwardPagination : Bool)
    (last : ArgumentDefinition) (hp : last.Position ≠ none) (hn : last.Type_.Name ≠ none) :
    (checkLastArgument f hasForwardPagination last).isSome = true := by
  unfold checkLastArgument
  cases hasForwardPagination
  · exact findingIf_isSome _ _ (orNameIsNot_isSome _ _ _ hn) (lintErrorAt_isSome _ _ _ hp)
  · exact findingIf_isSome _ _ (orNameIsNot_isSome _ _ _ hn) (lintErrorAt_isSome _ _ _ hp)

theorem RelayConnectionArgumentsSpecBody_isSome (f : FieldDefinition) (name : String)
    (hn : f.Type_.Name = some name) (hc : HasSuffix name "Connection" = true)
    (hp : f.TypePosition ≠ none)
    (ha : ∀ a ∈ f.Arguments, a.Position ≠ none ∧ a.Type_.Name ≠ none) :
    (RelayConnectionArgumentsSpecBody f).isSome = true := by
  rw [RelayConnectionArgumentsSpecBody_eq f name hn hc]
  refine appendBoth_isSome _ _ ?_ (appendBoth_isSome _ _ ?_ ?_)
  · split
    · exact lintErrorAt_isSome _ _ _ hp
    · rfl
  · cases h : lastNamed f.Arguments "first" with
    | none => rfl
    | some a =>
      have hm := ha a (lastNamed_mem _ _ _ h)
      exact checkFirstArgument_isSome f _ a hm.1 hm.2
  · cases h : lastNamed f.Arguments "last" with
    | none => rfl
    | some a =>
      have hm := ha a (lastNamed_mem _ _ _ h)
      exact checkLastArgument_isSome f _ a hm.1 hm.2

set_option maxRecDepth 4000 in
/-- C33 (the code at the failing input): the field
`result(first: Int!, last: Int, before: String): UserConnection` has backward
arguments only, no `after`, and its `last` is a named `Int`, so it meets the
condition of the specification; `RelayConnectionArgumentsSpec` returns a
finding for it, at its argument `first`, whose text says that the field has
both forward and backward pagination. -/
theorem RelayConnectionArgumentsSpec_first_without_after :
    relayArgumentsClaimed (resultField backwardWithFirst) = true ∧
    hasForward (resultField backwardWithFirst) = false ∧
    RelayConnectionArgumentsSpec (resultSchema backwardWithFirst) =
      some [⟨"relay-conn-args", 2, 10,
        "2:10 field result is returns a Connection type that has both forward and backward pagination and therefore `first` argument should take a nullable non-negative integer as per the Relay spec"⟩] := by
  decide

theorem RelayConnectionArgumentsSpecBody_other (f : FieldDefinition) (name : String)
    (hn : f.Type_.Name = some name) (hc : HasSuffix name "Connection" = false) :
    RelayConnectionArgumentsSpecBody f = some [] := by
  unfold RelayConnectionArgumentsSpecBody
  rw [hn]
  simp only [hc]
  rfl

theorem RelayConnectionArgumentsSpecBody_isSome_of (f : FieldDefinition)
    (h : f.Type_.Name ≠ none ∧ f.TypePosition ≠ none ∧
      ∀ a ∈ f.Arguments, a.Position ≠ none ∧ a.Type_.Name ≠ none) :
    (RelayConnectionArgumentsSpecBody f).isSome = true := by
  cases hn : f.Type_.Name with
  | none => exact absurd hn h.1
  | some name =>
    cases hc : HasSuffix name "Connection" with
    | false => rw [RelayConnectionArgumentsSpecBody_other f name hn hc]; rfl
    | true => exact RelayConnectionArgumentsSpecBody_isSome f name hn hc h.2.1 h.2.2

theorem RelayConnectionArgumentsSpec_getD (schema : SchemaDocument)
    (h : ∀ d ∈ schema.Definitions, ∀ g ∈ d.Fields,
      g.Type_.Name ≠ none ∧ g.TypePosition ≠ none ∧
        ∀ a ∈ g.Arguments, a.Position ≠ none ∧ a.Type_.Name ≠ none) :
    RelayConnectionArgumentsSpec schema =
      some (schema.Definitions.flatMap fun d =>
        d.Fields.flatMap fun g => (RelayConnectionArgumentsSpecBody g).getD []) := by
  unfold RelayConnectionArgumentsSpec
  apply appendEach_eq_some
  intro d hd
  exact appendEach_getD _ _ fun g hg => RelayConnectionArgumentsSpecBody_isSome_of g (h d hd g hg)

/-- For every schema whose fields have a return type with a name and have no
`first` without `after` and no `last` without `before`,
`RelayConnectionArgumentsSpec` returns no finding exactly when each field whose
return type has a name that ends in `Connection` meets the condition of the
specification. -/
theorem RelayConnectionArgumentsSpec_paired (schema : SchemaDocument)
    (hn : ∀ d ∈ schema.Definitions, ∀ f ∈ d.Fields, f.Type_.Name ≠ none)
    (hp : ∀ d ∈ schema.Definitions, ∀ f ∈ d.Fields, argumentsPaired f = true) :
    RelayConnectionArgumentsSpec schema = some [] ↔
      ∀ d ∈ schema.Definitions, ∀ f ∈ d.Fields, ∀ name, f.Type_.Name = some name →
        HasSuffix name "Connection" = true → relayArgumentsClaimed f = true := by
  rw [RelayConnectionArgumentsSpec, appendEach_eq_nil]
  refine forall_congr' fun d => forall_congr' fun hd => ?_
  rw [appendEach_eq_nil]
  refine forall_congr' fun f => forall_congr' fun hf => ?_
  cases hname : f.Type_.Name with
  | none => exact absurd hname (hn d hd f hf)
  | some name =>
    cases hc : HasSuffix name "Connection" with
    | false =>
      rw [RelayConnectionArgumentsSpecBody_other f name hname hc]
      simp only [true_iff]
      intro name' h' hc'
      rw [Option.some.inj h'] at hc
      rw [hc] at hc'
      cases hc'
    | true =>
      rw [RelayConnectionArgumentsSpecBody_eq_nil f name hname hc,
        relayArgumentsAccepted_eq_claimed f (hp d hd f hf)]
      constructor
      · intro h _ _ _
        exact h
      · intro h
        exact h name rfl hc

set_option maxRecDepth 4000 in
/-- C32 (counterexample): for the schema with the field
`result(first: Int!, after: String, last: Int, before: String): UserConnection`
the rule returns one finding, at the argument `first` (line 2, column 10), and
none at the argument `last` (line 2, column 38). -/
theorem RelayConnectionArgumentsSpec_both_one_finding :
    RelayConnectionArgumentsSpec (resultSchema bothDirections) =
      some [⟨"relay-conn-args", 2, 10,
        "2:10 field result is returns a Connection type that has both forward and backward pagination and therefore `first` argument should take a nullable non-negative integer as per the Relay spec"⟩] ∧
    (bothDirections.map fun a => (a.Name, lineAndColumn a.Position)) =
      [("first", some 2, some 10), ("after", some 2, some 23), ("last", some 2, some 38),
       ("before", some 2, some 49)] := by
  decide

/-- C32 (amended): for a field whose return type has a name that ends in
`Connection`, with the arguments `first: Int!`, `after`, `last: Int` and
`before`, the iteration of `RelayConnectionArgumentsSpec` returns exactly one
finding, positioned at the argument `first`; on a schema with one definition
with this one field that finding is what the rule returns; and on every schema
whose fields and arguments have positions and types with a name the rule
returns, in order, the findings of each field of each type definition, those
of this field being that one finding. -/
theorem RelayConnectionArgumentsSpec_both_non_null_first (f : FieldDefinition) (name : String)
    (first last : ArgumentDefinition) (p : Position)
    (hn : f.Type_.Name = some name) (hc : HasSuffix name "Connection" = true)
    (hfirst : lastNamed f.Arguments "first" = some first)
    (hafter : (lastNamed f.Arguments "after").isSome = true)
    (hlast : lastNamed f.Arguments "last" = some last)
    (hbefore : (lastNamed f.Arguments "before").isSome = true)
    (hft : first.Type_ = .named "Int" true) (hlt : last.Type_ = .named "Int" false)
    (hp : first.Position = some p) :
    RelayConnectionArgumentsSpecBody f =
      some [{ Rule := relayConnArgs, Line := p.Line, Column := p.Column,
              Err := lineColumn p ++ " field " ++ f.Name ++
                " is returns a Connection type that has both forward and backward pagination and therefore `first` argument should take a nullable non-negative integer as per the Relay spec" }] ∧
    (∀ (schema : SchemaDocument) (d : Definition), schema.Definitions = [d] →
      d.Fields = [f] →
      RelayConnectionArgumentsSpec schema = RelayConnectionArgumentsSpecBody f) ∧
    (∀ schema : SchemaDocument,
      (∀ d ∈ schema.Definitions, ∀ g ∈ d.Fields,
        g.Type_.Name ≠ none ∧ g.TypePosition ≠ none ∧
          ∀ a ∈ g.Arguments, a.Position ≠ none ∧ a.Type_.Name ≠ none) →
      ∃ findings : FieldDefinition → List LintErrorWithMetadata,
        RelayConnectionArgumentsSpec schema =
          some (schema.Definitions.flatMap fun d => d.Fields.flatMap findings) ∧
        findings f =
          [{ Rule := relayConnArgs, Line := p.Line, Column := p.Column,
             Err := lineColumn p ++ " field " ++ f.Name ++
               " is returns a Connection type that has both forward and backward pagination and therefore `first` argument should take a nullable non-negative integer as per the Relay spec" }]) := by
  have hbody : RelayConnectionArgumentsSpecBody f =
      some [{ Rule := relayConnArgs, Line := p.Line, Column := p.Column,
              Err := lineColumn p ++ " field " ++ f.Name ++
                " is returns a Connection type that has both forward and backward pagination and therefore `first` argument should take a nullable non-negative integer as per the Relay spec" }] := by
    have hfw : hasForward f = true := by simp [hasForward, hfirst, hafter]
    have hbw : hasBackward f = true := by simp [hasBackward, hlast, hbefore]
    have h1 : checkFirstArgument f true first =
        some [{ Rule := relayConnArgs, Line := p.Line, Column := p.Column,
                Err := lineColumn p ++ " field " ++ f.Name ++
                  " is returns a Connection type that has both forward and backward pagination and therefore `first` argument should take a nullable non-negative integer as per the Relay spec" }] := by
      simp [checkFirstArgument, hft, hp, orNameIsNot, findingIf, lintErrorAt, AstType.NamedType,
        AstType.NonNull]
    have h2 : checkLastArgument f true last = some [] :=
      (checkLastArgument_eq_nil f true last).mpr (by simp [isNullableNamedInt, hlt])
    rw [RelayConnectionArgumentsSpecBody_eq f name hn hc, hfw, hbw, hfirst, hlast]
    simp only [h1, h2]
    rfl
  refine ⟨hbody, ?_, ?_⟩
  · intro schema d hs hd
    rw [RelayConnectionArgumentsSpec, hs, appendEach_singleton, hd, appendEach_singleton]
  · intro schema h
    refine ⟨fun g => (RelayConnectionArgumentsSpecBody g).getD [],
      RelayConnectionArgumentsSpec_getD schema h, ?_⟩
    show (RelayConnectionArgumentsSpecBody f).getD [] = _
    rw [hbody]
    rfl

/-- C32 (witness): the field of the tests, on the schema of the tests. -/
theorem RelayConnectionArgumentsSpec_both_non_null_first_witness :
    RelayConnectionArgumentsSpecBody (resultField bothDirections) =
      some [⟨"relay-conn-args", 2, 10,
        "2:10 field result is returns a Connection type that has both forward and backward pagination and therefore `first` argument should take a nullable non-negative integer as per the Relay spec"⟩] :=
  (RelayConnectionArgumentsSpec_both_non_null_first (resultField bothDirections)
    "UserConnection" (lintArgument "first" (.named "Int" true) 10)
    (lintArgument "last" (.named "Int" false) 38)
    { SrcName := "schema.graphql", Line := 2, Column := 10 }
    (by decide) (by decide) (by decide) (by decide) (by decide) (by decide) rfl rfl rfl).1

end Gql
